import Mathlib

/-!
# Image kernels of `PerformanceCpp` (image.hpp, main.cpp, perf.cpp)

A shallow embedding of the dense image container, of the pixel kernels
(element-wise sum, 180 degree rotation, clamped correlation / convolution,
windowed median) and of the sample bookkeeping of the timing harness, together
with theorems about them.

Modelling conventions.

* `int` values are modelled by `Int`.  Every image dimension accepted by the
  constructor lies in `[0, 16384)`, so the index arithmetic of the kernels stays
  far below `2^31` and never wraps; C++ `/` on `int` is `Int.tdiv`
  (truncation toward zero).
* `float` values are modelled by an arbitrary type `α` with `0`, `+` and `*`
  and no algebraic law at all: two computations are equal only when they perform the
  same operations in the same order.
* `Image<T>::operator()` performs no bounds check.  An access outside
  `[0,width) x [0,height)` is undefined behaviour and is modelled as failure
  (`none`); a pointer `&img(x, y)` is the coordinate pair itself and only its
  dereference is an access.
* A `for` loop whose bounds are loop-invariant is run by `loopFrom` with its
  exact trip count.
* The state threaded through a kernel (`Run`) carries, besides the result
  buffer, two ghost logs: the coordinates written and the per-pixel routines
  entered.
* The aligned AVX load and store fail on a column that is not a multiple of 8
  (the block and the stride are multiples of 32 bytes, an element has 4).
* A lane of an AVX register is updated with the same `+` and `*` as a scalar
  accumulator.  The source does not fix how either is rounded (a compiler may
  contract one of them to fused multiply-adds).  A statement that a pixel written
  by the vector routine holds the clamped sum therefore says which products are
  accumulated in which order; it does not say that the `float` stored is bit for
  bit the one a scalar routine stores.
* The `double` durations of the timing harness are modelled by exact rationals.
-/

namespace ImProc

/-! ## Loops -/

/-- Runs `body i`, `body (i + step)`, ... for `n` iterations, threading the state; stops with `none`
as soon as one iteration fails. -/
def loopFrom {σ : Type} (body : Int → σ → Option σ) (step : Int) : Nat → Int → σ → Option σ
  | 0, _, s => some s
  | n + 1, i, s => (body i s).bind (loopFrom body step n (i + step))

/-- The loop `for (int i = a; i < b; i++) body(i)`. -/
def forLoop {σ : Type} (a b : Int) (body : Int → σ → Option σ) (s : σ) : Option σ :=
  loopFrom body 1 (b - a).toNat a s

/-- The loop `for (int i = a; i < b; i += 8) body(i)`. -/
def forLoop8 {σ : Type} (a b : Int) (body : Int → σ → Option σ) (s : σ) : Option σ :=
  loopFrom body 8 ((b - a + 7) / 8).toNat a s

/-- The values taken by the loop variable: `a, a + step, ...` (`n` of them). -/
def indices (step : Int) : Int → Nat → List Int
  | _, 0 => []
  | a, n + 1 => a :: indices step (a + step) n

/-! ## The image container (image.hpp) -/

/-- The class `Image<T>`: `px x y` is the content of the element that `operator()` addresses at
`(x, y)` inside the block owned through `ptr`. -/
structure Image (α : Type) where
  width : Int
  height : Int
  stride : Int
  px : Int → Int → α

/-- The constant `Image<T>::MaxDimensions`. -/
def MaxDimensions : Int := 16384

/-- Conversion to `size_t` (64 bit, wrapping). -/
def wrapU64 (n : Int) : Int := n % 2 ^ 64

/-- Conversion to `int` (32 bit two's complement, wrapping). -/
def wrapI32 (n : Int) : Int := (n + 2 ^ 31) % 2 ^ 32 - 2 ^ 31

/-- The expression `(width * sizeof(T) + 31) / 32 * 32`, computed in `size_t` and stored in the
`int` member `stride`. -/
def strideOf (sz w : Int) : Int :=
  wrapI32 (wrapU64 (wrapU64 (wrapU64 w * sz) + 31) / 32 * 32)

/-- The exception `std::out_of_range` thrown by the constructor. -/
inductive CtorError where
  | out_of_range
  deriving DecidableEq, Repr

/-- The constructor `Image<T>::Image(int w, int h)`, for an element type of size `sz`.  The heap is
the log of the `aligned_alloc (alignment, size)` requests made so far; `junk` is the
(unspecified) content of the fresh block. -/
def Image.construct {α : Type} (sz w h : Int) (junk : Int → Int → α)
    (heap : List (Int × Int)) : Except CtorError (Image α) × List (Int × Int) :=
  if w < 0 ∨ w ≥ MaxDimensions ∨ h < 0 ∨ h ≥ MaxDimensions then
    (Except.error CtorError.out_of_range, heap)
  else
    let width := w
    let height := h
    let stride := strideOf sz width
    (Except.ok { width := width, height := height, stride := stride, px := junk },
      heap ++ [(32, stride * height)])

/-- The method `Width()`. -/
def Image.Width {α : Type} (img : Image α) : Int := img.width

/-- The method `Height()`. -/
def Image.Height {α : Type} (img : Image α) : Int := img.height

/-- The coordinates `operator()` may be dereferenced at. -/
def Image.inRange {α : Type} (img : Image α) (x y : Int) : Prop :=
  0 ≤ x ∧ x < img.width ∧ 0 ≤ y ∧ y < img.height

instance {α : Type} (img : Image α) (x y : Int) : Decidable (img.inRange x y) := by
  unfold Image.inRange; infer_instance

/-- Reading `img(x, y)`. -/
def Image.get? {α : Type} (img : Image α) (x y : Int) : Option α :=
  if img.inRange x y then some (img.px x y) else none

/-- The content after the assignment `img(x, y) = v`. -/
def Image.put {α : Type} (img : Image α) (x y : Int) (v : α) : Image α :=
  { img with px := fun x' y' => if x' = x ∧ y' = y then v else img.px x' y' }

/-! ## Execution state -/

/-- The per-pixel routines of the classes `Convolution` and `Median`. -/
inductive Routine where
  | ProcessChecked
  | ProcessCheckedOptimized
  | ProcessUnchecked
  | ProcessUncheckedOptimized
  | ProcessUncheckedVector
  deriving DecidableEq, Repr

/-- A destination buffer together with the ghost logs of a run. -/
structure Run (α : Type) where
  res : Image α
  writes : List (Int × Int)
  calls : List (Routine × Int × Int)

/-- A run that has not started yet. -/
def Run.init {α : Type} (res : Image α) : Run α := { res := res, writes := [], calls := [] }

/-- The observable steps of a run. -/
inductive Op (α : Type) where
  | call (r : Routine) (x y : Int)
  | write (x y : Int) (v : α)

/-- The effect of one step on the state, bounds not checked. -/
def Run.exec {α : Type} (s : Run α) : Op α → Run α
  | Op.call r x y => { s with calls := s.calls ++ [(r, x, y)] }
  | Op.write x y v => { s with res := s.res.put x y v, writes := s.writes ++ [(x, y)] }

/-- The effect of a sequence of steps. -/
def Run.execAll {α : Type} (s : Run α) (ops : List (Op α)) : Run α := ops.foldl Run.exec s

/-- Entering a per-pixel routine. -/
def Run.enter {α : Type} (s : Run α) (r : Routine) (x y : Int) : Run α := s.exec (Op.call r x y)

/-- The assignment `res(x, y) = v`. -/
def Run.store {α : Type} (s : Run α) (x y : Int) (v : α) : Option (Run α) :=
  if s.res.inRange x y then some (s.exec (Op.write x y v)) else none

/-! ## AVX registers -/

/-- The type `__m256`: eight lanes. -/
abbrev M256 (α : Type) := Fin 8 → α

/-- The eight element stores of a vector store at `(x, y)`, lane 0 first. -/
def storeOps {α : Type} (x y : Int) (v : M256 α) : List (Op α) :=
  (List.finRange 8).map (fun l => Op.write (x + (l.val : Int)) y (v l))

/-- The intrinsic `_mm256_loadu_ps (&img(x, y))`. -/
def Image.loadu_ps {α : Type} (img : Image α) (x y : Int) : Option (M256 α) :=
  if img.inRange x y ∧ img.inRange (x + 7) y then some (fun l => img.px (x + (l.val : Int)) y)
  else none

/-- The intrinsic `_mm256_load_ps (&img(x, y))`: as `loadu_ps`, and the address has to be a
multiple of 32 bytes.  The block and the stride are multiples of 32 bytes and an element has 4, so
this is `x % 8 = 0`. -/
def Image.load_ps {α : Type} (img : Image α) (x y : Int) : Option (M256 α) :=
  if x % 8 = 0 then img.loadu_ps x y else none

/-- The intrinsic `_mm256_storeu_ps (&res(x, y), v)`. -/
def Run.storeu_ps {α : Type} (s : Run α) (x y : Int) (v : M256 α) : Option (Run α) :=
  if s.res.inRange x y ∧ s.res.inRange (x + 7) y then some (s.execAll (storeOps x y v)) else none

/-- The intrinsic `_mm256_store_ps (&res(x, y), v)` (aligned). -/
def Run.store_ps {α : Type} (s : Run α) (x y : Int) (v : M256 α) : Option (Run α) :=
  if x % 8 = 0 then s.storeu_ps x y v else none

/-! ## Element-wise sum (main.cpp 18-60) -/

section Kernels

variable {α : Type}

/-- The function `ImageSum`. -/
def ImageSum [Add α] (img1 img2 : Image α) (s : Run α) : Option (Run α) :=
  forLoop 0 s.res.Height (fun j s =>
    forLoop 0 s.res.Width (fun i s => do
      let a ← img1.get? i j
      let b ← img2.get? i j
      s.store i j (a + b)) s) s

/-- The function `ImageSumOptimized`: the row pointers `p1`, `p2`, `p` are `(0, j)`. -/
def ImageSumOptimized [Add α] (img1 img2 : Image α) (s : Run α) : Option (Run α) :=
  forLoop 0 s.res.Height (fun j s =>
    let p1 : Int := 0
    let p2 : Int := 0
    let p : Int := 0
    forLoop 0 s.res.Width (fun i s => do
      let a ← img1.get? (p1 + i) j
      let b ← img2.get? (p2 + i) j
      s.store (p + i) j (a + b)) s) s

/-- The state of a row of `ImageSumUsingAvx`: the run and the columns of `p1`, `p2`, `r`. -/
structure SumRow (α : Type) where
  run : Run α
  p1 : Int
  p2 : Int
  r : Int

/-- The function `ImageSumUsingAvx`. -/
def ImageSumUsingAvx [Add α] (img1 img2 : Image α) (s : Run α) : Option (Run α) :=
  let w8 := Int.tdiv s.res.Width 8 * 8
  forLoop 0 s.res.Height (fun j s => do
    let st ← forLoop8 0 w8 (fun _ (st : SumRow α) => do
      let a ← img1.load_ps st.p1 j
      let b ← img2.load_ps st.p2 j
      let run ← st.run.store_ps st.r j (fun l => a l + b l)
      pure { run := run, p1 := st.p1 + 8, p2 := st.p2 + 8, r := st.r + 8 })
      { run := s, p1 := 0, p2 := 0, r := 0 }
    let st ← forLoop w8 s.res.Width (fun _ (st : SumRow α) => do
      let a ← img1.get? st.p1 j
      let b ← img2.get? st.p2 j
      let run ← st.run.store st.r j (a + b)
      pure { run := run, p1 := st.p1 + 1, p2 := st.p2 + 1, r := st.r + 1 }) st
    pure st.run) s

/-! ## Rotation (main.cpp 62-72) -/

/-- The function `Rotate180`; the state is the destination `dst`. -/
def Rotate180 (src : Image α) (s : Run α) : Option (Run α) :=
  let w := src.Width - 1
  let h := src.Height - 1
  forLoop 0 (h + 1) (fun j s =>
    forLoop 0 (w + 1) (fun i s => do
      let v ← src.get? i j
      s.store (w - i) (h - j) v) s) s

/-! ## Correlation engine (main.cpp 109-317) -/

/-- The members of the class `Convolution` other than the reference `res`, which is the state. -/
structure Convolution (α : Type) where
  img : Image α
  kernel : Image α
  ofsx : Int
  ofsy : Int
  kw1 : Int
  kh1 : Int
  iw1 : Int
  ih1 : Int

/-- The constructor `Convolution::Convolution`. -/
def Convolution.new (img kernel : Image α) : Convolution α :=
  { img := img, kernel := kernel,
    ofsx := Int.tdiv kernel.Width 2, ofsy := Int.tdiv kernel.Height 2,
    kw1 := kernel.Width - 1, kh1 := kernel.Height - 1,
    iw1 := img.Width - 1, ih1 := img.Height - 1 }

variable [Zero α] [Add α] [Mul α]

/-- The method `Convolution::ProcessChecked`. -/
def Convolution.ProcessChecked (c : Convolution α) (x0 y0 : Int) (s : Run α) : Option (Run α) := do
  let s := s.enter Routine.ProcessChecked x0 y0
  let sum ← forLoop 0 (c.kh1 + 1) (fun j sum =>
    let y := max 0 (min c.ih1 (y0 - c.ofsy + j))
    forLoop 0 (c.kw1 + 1) (fun i sum => do
      let x := max 0 (min c.iw1 (x0 - c.ofsx + i))
      let a ← c.img.get? x y
      let k ← c.kernel.get? i j
      pure (sum + a * k)) sum) (0 : α)
  s.store x0 y0 sum

/-- The method `Convolution::ProcessCheckedOptimized`: `p` is `&img(x0 - ofsx, y)` and `k` is
`&kernel(0, j)`. -/
def Convolution.ProcessCheckedOptimized (c : Convolution α) (x0 y0 : Int) (s : Run α) :
    Option (Run α) := do
  let s := s.enter Routine.ProcessCheckedOptimized x0 y0
  let x1 := max 0 (c.ofsx - x0)
  let x2 := min c.kw1 (c.iw1 + c.ofsx - x0)
  let sum ← forLoop 0 (c.kh1 + 1) (fun j sum => do
    let y := max 0 (min c.ih1 (y0 - c.ofsy + j))
    let p := x0 - c.ofsx
    let sum ← forLoop 0 x1 (fun i sum => do
      let a ← c.img.get? (p + x1) y
      let k ← c.kernel.get? (0 + i) j
      pure (sum + a * k)) sum
    let sum ← forLoop x1 (x2 + 1) (fun i sum => do
      let a ← c.img.get? (p + i) y
      let k ← c.kernel.get? (0 + i) j
      pure (sum + a * k)) sum
    forLoop (x2 + 1) (c.kw1 + 1) (fun i sum => do
      let a ← c.img.get? (p + x2) y
      let k ← c.kernel.get? (0 + i) j
      pure (sum + a * k)) sum) (0 : α)
  s.store x0 y0 sum

/-- The method `Convolution::ProcessUnchecked`. -/
def Convolution.ProcessUnchecked (c : Convolution α) (x0 y0 : Int) (s : Run α) :
    Option (Run α) := do
  let s := s.enter Routine.ProcessUnchecked x0 y0
  let sum ← forLoop 0 (c.kh1 + 1) (fun j sum =>
    let y := y0 - c.ofsy + j
    forLoop 0 (c.kw1 + 1) (fun i sum => do
      let a ← c.img.get? (x0 - c.ofsx + i) y
      let k ← c.kernel.get? i j
      pure (sum + a * k)) sum) (0 : α)
  s.store x0 y0 sum

/-- The method `Convolution::ProcessUncheckedOptimized`. -/
def Convolution.ProcessUncheckedOptimized (c : Convolution α) (x0 y0 : Int) (s : Run α) :
    Option (Run α) := do
  let s := s.enter Routine.ProcessUncheckedOptimized x0 y0
  let sum ← forLoop 0 (c.kh1 + 1) (fun j sum =>
    let p := x0 - c.ofsx
    forLoop 0 (c.kw1 + 1) (fun i sum => do
      let a ← c.img.get? (p + i) (y0 - c.ofsy + j)
      let k ← c.kernel.get? (0 + i) j
      pure (sum + a * k)) sum) (0 : α)
  s.store x0 y0 sum

/-- The inner loop state of `ProcessUncheckedVector`: the accumulator and the columns of the
pointers `s` and `k`. -/
structure VecRow (α : Type) where
  sum : M256 α
  s : Int
  k : Int

/-- The method `Convolution::ProcessUncheckedVector`. -/
def Convolution.ProcessUncheckedVector (c : Convolution α) (x0 y0 : Int) (s : Run α) :
    Option (Run α) := do
  let s := s.enter Routine.ProcessUncheckedVector x0 y0
  let sum ← forLoop 0 (c.kh1 + 1) (fun j (sum : M256 α) => do
    let st ← forLoop 0 (c.kw1 + 1) (fun _ (st : VecRow α) => do
      let a ← c.img.loadu_ps st.s (y0 - c.ofsy + j)
      let k ← c.kernel.get? st.k j
      pure { sum := fun l => st.sum l + a l * k, s := st.s + 1, k := st.k + 1 })
      { sum := sum, s := x0 - c.ofsx, k := 0 }
    pure st.sum) (fun _ => (0 : α))
  s.storeu_ps x0 y0 sum

/-- The method `Convolution::Perform`. -/
def Convolution.Perform (c : Convolution α) (s : Run α) : Option (Run α) := do
  let s ← forLoop 0 c.ofsy (fun j s =>
    forLoop 0 s.res.Width (fun i s => c.ProcessChecked i j s) s) s
  let s ← forLoop c.ofsy (s.res.Height + c.ofsy - c.kh1) (fun j s => do
    let s ← forLoop 0 c.ofsx (fun i s => c.ProcessChecked i j s) s
    let s ← forLoop c.ofsx (s.res.Width + c.ofsx - c.kw1) (fun i s => c.ProcessUnchecked i j s) s
    forLoop (s.res.Width + c.ofsx - c.kw1) s.res.Width (fun i s => c.ProcessChecked i j s) s) s
  forLoop (s.res.Height + c.ofsy - c.kh1) s.res.Height (fun j s =>
    forLoop 0 s.res.Width (fun i s => c.ProcessChecked i j s) s) s

/-- The method `Convolution::PerformOptimized`. -/
def Convolution.PerformOptimized (c : Convolution α) (s : Run α) : Option (Run α) := do
  let s ← forLoop 0 c.ofsy (fun j s =>
    forLoop 0 s.res.Width (fun i s => c.ProcessCheckedOptimized i j s) s) s
  let s ← forLoop c.ofsy (s.res.Height + c.ofsy - c.kh1) (fun j s => do
    let s ← forLoop 0 c.ofsx (fun i s => c.ProcessCheckedOptimized i j s) s
    let s ← forLoop c.ofsx (s.res.Width + c.ofsx - c.kw1)
      (fun i s => c.ProcessUncheckedOptimized i j s) s
    forLoop (s.res.Width + c.ofsx - c.kw1) s.res.Width
      (fun i s => c.ProcessCheckedOptimized i j s) s) s
  forLoop (s.res.Height + c.ofsy - c.kh1) s.res.Height (fun j s =>
    forLoop 0 s.res.Width (fun i s => c.ProcessCheckedOptimized i j s) s) s

/-- The method `Convolution::PerformVector`. -/
def Convolution.PerformVector (c : Convolution α) (s : Run α) : Option (Run α) := do
  let w8 := Int.tdiv (s.res.Width - c.kw1) 8 * 8
  let s ← forLoop 0 c.ofsy (fun j s =>
    forLoop 0 s.res.Width (fun i s => c.ProcessCheckedOptimized i j s) s) s
  let s ← forLoop c.ofsy (s.res.Height + c.ofsy - c.kh1) (fun j s => do
    let s ← forLoop 0 c.ofsx (fun i s => c.ProcessCheckedOptimized i j s) s
    let s ← forLoop8 0 w8 (fun i s => c.ProcessUncheckedVector (i + c.ofsx) j s) s
    let s ← forLoop w8 (s.res.Width - c.kw1)
      (fun i s => c.ProcessUncheckedOptimized (i + c.ofsx) j s) s
    forLoop (s.res.Width + c.ofsx - c.kw1) s.res.Width
      (fun i s => c.ProcessCheckedOptimized i j s) s) s
  forLoop (s.res.Height + c.ofsy - c.kh1) s.res.Height (fun j s =>
    forLoop 0 s.res.Width (fun i s => c.ProcessCheckedOptimized i j s) s) s

/-- The method `Convolution::PerformVectorIsolated`. -/
def Convolution.PerformVectorIsolated (c : Convolution α) (s : Run α) : Option (Run α) :=
  let w8 := Int.tdiv (s.res.Width - c.kw1) 8 * 8
  forLoop c.ofsy (s.res.Height + c.ofsy - c.kh1) (fun j s =>
    forLoop8 0 w8 (fun i s => c.ProcessUncheckedVector (i + c.ofsx) j s) s) s

/-- The temporary `Image<float> tmp (kernel.Width (), kernel.Height ())` followed by
`Rotate180 (kernel, tmp)`; a constructor exception or a fault aborts (`none`). -/
def flippedKernel (kernel : Image α) (junk : Int → Int → α) : Option (Image α) :=
  match (Image.construct 4 kernel.Width kernel.Height junk []).1 with
  | Except.error _ => none
  | Except.ok tmp => (Rotate180 kernel (Run.init tmp)).map (fun t => t.res)

/-- The function `ImageConvolution`. -/
def ImageConvolution (img kernel : Image α) (junk : Int → Int → α) (s : Run α) :
    Option (Run α) := do
  let tmp ← flippedKernel kernel junk
  (Convolution.new img tmp).Perform s

/-- The function `ImageConvolutionOptimized`. -/
def ImageConvolutionOptimized (img kernel : Image α) (junk : Int → Int → α) (s : Run α) :
    Option (Run α) := do
  let tmp ← flippedKernel kernel junk
  (Convolution.new img tmp).PerformOptimized s

/-- The function `ImageConvolutionUsingAvx`. -/
def ImageConvolutionUsingAvx (img kernel : Image α) (junk : Int → Int → α) (s : Run α) :
    Option (Run α) := do
  let tmp ← flippedKernel kernel junk
  (Convolution.new img tmp).PerformVector s

end Kernels

/-! ## Median filter (main.cpp 347-424) -/

section MedianFilter

variable {α : Type}

/-- The members of the class `Median` other than `res` and `arr`, which form the state. -/
structure Median (α : Type) where
  src : Image α
  rad : Int
  diam : Int
  N : Int
  w1 : Int
  h1 : Int

/-- The state of a `Median` object: the run on `res` and the scratch vector `arr`. -/
structure MedRun (α : Type) where
  run : Run α
  arr : List α

/-- The state of the window loops: the scratch vector and the index `k`. -/
structure Fill (α : Type) where
  arr : List α
  k : Int

/-- The assignment `arr[k] = v` of a `std::vector`; an index outside the vector is a fault. -/
def setAt? (arr : List α) (k : Int) (v : α) : Option (List α) :=
  if 0 ≤ k ∧ k < (arr.length : Int) then some (arr.set k.toNat v) else none

/-- Reading `arr[k]`. -/
def getAt? (arr : List α) (k : Int) : Option α :=
  if 0 ≤ k then arr.get? k.toNat else none

/-- The call `std::sort (arr.begin (), arr.end ())` with the default comparison `<`.  On a total
order the ascending arrangement of a vector is unique, so every sorting algorithm returns this
list. -/
def stdSort [LinearOrder α] (arr : List α) : List α := arr.insertionSort (fun a b => a ≤ b)

/-- The member initialisers of `Median::Median` (in declaration order `rad, diam, N, w1, h1`). -/
def Median.new (src : Image α) (rad : Int) : Median α :=
  { src := src, rad := rad, diam := 2 * rad + 1, N := (2 * rad + 1) * (2 * rad + 1),
    w1 := src.Width - 1, h1 := src.Height - 1 }

variable [LinearOrder α]

/-- The method `Median::ProcessChecked`. -/
def Median.ProcessChecked (m : Median α) (x0 y0 : Int) (s : MedRun α) : Option (MedRun α) := do
  let run := s.run.enter Routine.ProcessChecked x0 y0
  let f ← forLoop 0 m.diam (fun j (f : Fill α) =>
    forLoop 0 m.diam (fun i (f : Fill α) => do
      let x := max 0 (min m.w1 (x0 - m.rad + i))
      let y := max 0 (min m.h1 (y0 - m.rad + j))
      let v ← m.src.get? x y
      let arr ← setAt? f.arr f.k v
      pure { arr := arr, k := f.k + 1 }) f) { arr := s.arr, k := 0 }
  let arr := stdSort f.arr
  let v ← getAt? arr (Int.tdiv m.N 2)
  let run ← run.store x0 y0 v
  pure { run := run, arr := arr }

/-- The method `Median::ProcessUnchecked`. -/
def Median.ProcessUnchecked (m : Median α) (x0 y0 : Int) (s : MedRun α) : Option (MedRun α) := do
  let run := s.run.enter Routine.ProcessUnchecked x0 y0
  let f ← forLoop 0 m.diam (fun j (f : Fill α) =>
    forLoop 0 m.diam (fun i (f : Fill α) => do
      let v ← m.src.get? (x0 - m.rad + i) (y0 - m.rad + j)
      let arr ← setAt? f.arr f.k v
      pure { arr := arr, k := f.k + 1 }) f) { arr := s.arr, k := 0 }
  let arr := stdSort f.arr
  let v ← getAt? arr (Int.tdiv m.N 2)
  let run ← run.store x0 y0 v
  pure { run := run, arr := arr }

/-- The method `Median::Perform`. -/
def Median.Perform (m : Median α) (s : MedRun α) : Option (MedRun α) := do
  let s ← forLoop 0 m.rad (fun j s =>
    forLoop 0 m.src.Width (fun i s => m.ProcessChecked i j s) s) s
  let s ← forLoop m.rad (m.src.Height - m.rad) (fun j s => do
    let s ← forLoop 0 m.rad (fun i s => m.ProcessChecked i j s) s
    let s ← forLoop m.rad (m.src.Width - m.rad) (fun i s => m.ProcessUnchecked i j s) s
    forLoop (m.src.Width - m.rad) m.src.Width (fun i s => m.ProcessChecked i j s) s) s
  forLoop (m.src.Height - m.rad) m.src.Height (fun j s =>
    forLoop 0 m.src.Width (fun i s => m.ProcessChecked i j s) s) s

/-- The function `MedianFilter`: builds the object (`arr` is `N` zero-initialised elements) and
runs `Perform`. -/
def MedianFilter [Zero α] (src : Image α) (rad : Int) (s : Run α) : Option (Run α) :=
  let m := Median.new src rad
  (m.Perform { run := s, arr := List.replicate m.N.toNat 0 }).map (fun t => t.run)

end MedianFilter


/-! ## Auxiliary definitions -/

/-- The index list of `for (i = a; i < b; i++)`. -/
def idx (a b : Int) : List Int := indices 1 a (b - a).toNat

/-- The index list of `for (i = a; i < b; i += 8)`. -/
def idx8 (a b : Int) : List Int := indices 8 a ((b - a + 7) / 8).toNat

section EffectDefs

variable {α : Type}

/-- The coordinates written by a sequence of steps, in order. -/
def writesOf : List (Op α) → List (Int × Int)
  | [] => []
  | Op.call _ _ _ :: l => writesOf l
  | Op.write x y _ :: l => (x, y) :: writesOf l

/-- The routine entries of a sequence of steps, in order. -/
def callsOf : List (Op α) → List (Routine × Int × Int)
  | [] => []
  | Op.call r x y :: l => (r, x, y) :: callsOf l
  | Op.write _ _ _ :: l => callsOf l

/-- Every value written at `(x, y)` is `V x y`. -/
def Coherent (V : Int → Int → α) (ops : List (Op α)) : Prop :=
  ∀ x y v, Op.write x y v ∈ ops → v = V x y

/-- The function `f` never faults from a state satisfying `I`, keeps `I`, and its effect on the
run is exactly the sequence `ops`. -/
def Realizes {σ : Type} (proj : σ → Run α) (I : σ → Prop) (f : σ → Option σ)
    (ops : List (Op α)) : Prop :=
  ∀ s, I s → ∃ s', f s = some s' ∧ I s' ∧ proj s' = (proj s).execAll ops

end EffectDefs

/-! ## Specification-level definitions -/

section SpecDefs

variable {α : Type}

/-- Column clamp of the data model: `clampX(v) = max(0, min(W-1, v))`. -/
def clampX (img : Image α) (v : Int) : Int := max 0 (min (img.width - 1) v)

/-- Row clamp of the data model: `clampY(v) = max(0, min(H-1, v))`. -/
def clampY (img : Image α) (v : Int) : Int := max 0 (min (img.height - 1) v)

/-- The data-model definition of an output pixel, following the specification: the sum over
`j = 0..kh-1`, `i = 0..kw-1` of `img(clampX(x0-ofsx+i), clampY(y0-ofsy+j)) * kernel(i,j)` with
`ofsx = kw/2`, `ofsy = kh/2`, accumulated from `0` in row-major kernel order. -/
def clampedSum [Zero α] [Add α] [Mul α] (img kernel : Image α) (x0 y0 : Int) : α :=
  (List.range kernel.height.toNat).foldl (fun acc (j : Nat) =>
    (List.range kernel.width.toNat).foldl (fun acc (i : Nat) =>
      acc + img.px (clampX img (x0 - kernel.width / 2 + i)) (clampY img (y0 - kernel.height / 2 + j))
        * kernel.px i j) acc) 0

/-- The buffer a run works on has the dimensions `W x H`. -/
def Dims (W H : Int) (s : Run α) : Prop := s.res.width = W ∧ s.res.height = H

/-- The two steps of a scalar per-pixel routine. -/
def pix (r : Routine) (V : Int → Int → α) (x y : Int) : List (Op α) :=
  [Op.call r x y, Op.write x y (V x y)]

/-- The steps of the vector routine at `(x, y)`. -/
def pix8 (V : Int → Int → α) (x y : Int) : List (Op α) :=
  Op.call Routine.ProcessUncheckedVector x y :: storeOps x y (fun l => V (x + (l.val : Int)) y)

/-- The steps of the region split shared by `Perform`, `PerformOptimized` and `PerformVector`:
top band, interior rows (left columns, interior columns, right columns), bottom band.  `b i j` are
the steps of the border routine at `(i, j)` and `inner j` those of the interior columns of
row `j`. -/
def driverOps (b : Int → Int → List (Op α)) (inner : Int → List (Op α))
    (W H ofsx ofsy kw1 kh1 : Int) : List (Op α) :=
  (idx 0 ofsy).flatMap (fun j => (idx 0 W).flatMap (fun i => b i j)) ++
    ((idx ofsy (H + ofsy - kh1)).flatMap (fun j =>
        (idx 0 ofsx).flatMap (fun i => b i j) ++
          (inner j ++ (idx (W + ofsx - kw1) W).flatMap (fun i => b i j))) ++
      (idx (H + ofsy - kh1) H).flatMap (fun j => (idx 0 W).flatMap (fun i => b i j)))

/-- The interior columns of a row of `Perform` / `PerformOptimized`, processed by routine `r`. -/
def scalarInner (r : Routine) (V : Int → Int → α) (W ofsx kw1 : Int) (j : Int) : List (Op α) :=
  (idx ofsx (W + ofsx - kw1)).flatMap (fun i => pix r V i j)

/-- The interior columns of a row of `PerformVector`: groups of 8, then single columns. -/
def vectorInner (V : Int → Int → α) (W ofsx kw1 : Int) (j : Int) : List (Op α) :=
  (idx8 0 (Int.tdiv (W - kw1) 8 * 8)).flatMap (fun i => pix8 V (i + ofsx) j) ++
    (idx (Int.tdiv (W - kw1) 8 * 8) (W - kw1)).flatMap
      (fun i => pix Routine.ProcessUncheckedOptimized V (i + ofsx) j)

/-- The buffer whose pixels inside `[0,W) x [0,H)` hold `V` and whose other content is that of
`img`. -/
def Image.fill (img : Image α) (V : Int → Int → α) : Image α :=
  { img with px := fun x y => if img.inRange x y then V x y else img.px x y }

/-- The steps of `Perform` for `img` and `kernel`. -/
def performOps [Zero α] [Add α] [Mul α] (img kernel : Image α) : List (Op α) :=
  driverOps (pix Routine.ProcessChecked (clampedSum img kernel))
    (scalarInner Routine.ProcessUnchecked (clampedSum img kernel) img.width
      (kernel.width / 2) (kernel.width - 1))
    img.width img.height (kernel.width / 2) (kernel.height / 2) (kernel.width - 1)
    (kernel.height - 1)

/-- The steps of `PerformOptimized` for `img` and `kernel`. -/
def performOptimizedOps [Zero α] [Add α] [Mul α] (img kernel : Image α) : List (Op α) :=
  driverOps (pix Routine.ProcessCheckedOptimized (clampedSum img kernel))
    (scalarInner Routine.ProcessUncheckedOptimized (clampedSum img kernel) img.width
      (kernel.width / 2) (kernel.width - 1))
    img.width img.height (kernel.width / 2) (kernel.height / 2) (kernel.width - 1)
    (kernel.height - 1)

/-- The steps of `PerformVector` for `img` and `kernel`. -/
def performVectorOps [Zero α] [Add α] [Mul α] (img kernel : Image α) : List (Op α) :=
  driverOps (pix Routine.ProcessCheckedOptimized (clampedSum img kernel))
    (vectorInner (clampedSum img kernel) img.width (kernel.width / 2) (kernel.width - 1))
    img.width img.height (kernel.width / 2) (kernel.height / 2) (kernel.width - 1)
    (kernel.height - 1)

end SpecDefs

section ClaimDefs

variable {α : Type}

end ClaimDefs

section RotateDefs

variable {α : Type}

/-- The steps of `Rotate180 (src, dst)`. -/
def rotateOps (src : Image α) : List (Op α) :=
  (idx 0 src.height).flatMap (fun j => (idx 0 src.width).flatMap (fun i =>
    [Op.write (src.width - 1 - i) (src.height - 1 - j) (src.px i j)]))

/-- The rotated content of the specification: position `(x, y)` holds `src (w-1-x, h-1-y)`. -/
def rotated (src : Image α) (x y : Int) : α := src.px (src.width - 1 - x) (src.height - 1 - y)

end RotateDefs

section ConvolutionDefs

variable {α : Type}

/-- The object a successful constructor call `Image<float> (w, h)` leaves: `junk` is the
unspecified content of the fresh block. -/
def freshImage (w h : Int) (junk : Int → Int → α) : Image α :=
  { width := w, height := h, stride := strideOf 4 w, px := junk }

/-- The manually flipped kernel of the specification: `K'(i, j) = K(kw-1-i, kh-1-j)`. -/
def flipKernel (K : Image α) : Image α := { K with px := rotated K }

/-- The convolution of the specification in exact arithmetic: the sum over `a = 0..kw-1`,
`b = 0..kh-1` of `K(a,b) * img(clampX(x0 + cx - a), clampY(y0 + cy - b))` for a kernel centre
`(cx, cy)`. -/
def convolutionSum [CommSemiring α] (img K : Image α) (cx cy x0 y0 : Int) : α :=
  ∑ a ∈ Finset.range K.width.toNat, ∑ b ∈ Finset.range K.height.toNat,
    K.px a b * img.px (clampX img (x0 + cx - a)) (clampY img (y0 + cy - b))

end ConvolutionDefs

section SumDefs

variable {α : Type} [Add α]

/-- The element-wise sum of the specification: `res(x,y) = img1(x,y) + img2(x,y)`. -/
def pixelSum (img1 img2 : Image α) (x y : Int) : α := img1.px x y + img2.px x y

/-- The steps of `ImageSum` and `ImageSumOptimized` on a `W x H` result. -/
def sumOps (img1 img2 : Image α) (W H : Int) : List (Op α) :=
  (idx 0 H).flatMap (fun j => (idx 0 W).flatMap (fun i =>
    [Op.write i j (img1.px i j + img2.px i j)]))

/-- The steps of one row of `ImageSumUsingAvx`: groups of 8, then single columns. -/
def sumAvxRowOps (img1 img2 : Image α) (W : Int) (j : Int) : List (Op α) :=
  (idx8 0 (Int.tdiv W 8 * 8)).flatMap
      (fun i => storeOps i j (fun l => img1.px (i + (l.val : Int)) j + img2.px (i + (l.val : Int)) j))
    ++ (idx (Int.tdiv W 8 * 8) W).flatMap (fun i => [Op.write i j (img1.px i j + img2.px i j)])

/-- The steps of `ImageSumUsingAvx` on a `W x H` result. -/
def sumAvxOps (img1 img2 : Image α) (W H : Int) : List (Op α) :=
  (idx 0 H).flatMap (fun j => sumAvxRowOps img1 img2 W j)

end SumDefs

section MedianDefs

variable {α : Type}

/-- The samples of the clamped window of radius `rad` around `(x, y)`, row by row:
`src(clamp(x-rad+i, 0, W-1), clamp(y-rad+j, 0, H-1))` for `j = 0..2*rad`, `i = 0..2*rad`. -/
def window (src : Image α) (rad x y : Int) : List α :=
  (idx 0 (2 * rad + 1)).flatMap (fun j => (idx 0 (2 * rad + 1)).map (fun i =>
    src.px (clampX src (x - rad + i)) (clampY src (y - rad + j))))

/-- The value stored at `(x, y)`: the element at index `N/2` of the ascending sort of the window
(the fallback `src (x, y)` of `getD` is not used when `rad >= 0`, the window being non-empty). -/
def medianAt [LinearOrder α] (src : Image α) (rad x y : Int) : α :=
  (stdSort (window src rad x y)).getD (((2 * rad + 1) * (2 * rad + 1)) / 2).toNat (src.px x y)

/-- The steps of `Median::Perform`: the region split with border width `rad`. -/
def medianOps [LinearOrder α] (src : Image α) (rad : Int) : List (Op α) :=
  driverOps (pix Routine.ProcessChecked (medianAt src rad))
    (scalarInner Routine.ProcessUnchecked (medianAt src rad) src.width ((2 * rad + 1) / 2)
      (2 * rad + 1 - 1))
    src.width src.height ((2 * rad + 1) / 2) ((2 * rad + 1) / 2) (2 * rad + 1 - 1)
    (2 * rad + 1 - 1)

/-- From a scratch vector `pre ++ rest` with `k = |pre|`, the function `f` overwrites the next
`|vs|` elements with `vs` and advances `k` accordingly. -/
def Appends (f : Fill α → Option (Fill α)) (vs : List α) : Prop :=
  ∀ pre rest : List α, vs.length ≤ rest.length →
    f ⟨pre ++ rest, (pre.length : Int)⟩
      = some ⟨pre ++ vs ++ rest.drop vs.length, ((pre ++ vs).length : Int)⟩

/-- The invariant of a `Median` object working on a `W x H` buffer with window side `d`: the
scratch vector has `d * d` elements. -/
def MedInv (W H d : Int) (s : MedRun α) : Prop :=
  Dims W H s.run ∧ s.arr.length = d.toNat * d.toNat

end MedianDefs

section OutcomeDefs

variable {α : Type}

/-- The outcome `out` of a convolution function is a state whose output pixels equal those of
the direct correlation with the manually flipped kernel and, in exact arithmetic, the convolution
sum centred at `(kw-1-kw/2, kh-1-kh/2)`, which is `(kw/2, kh/2)` for odd extents. -/
def ConvolvedBy [CommSemiring α] (img K res : Image α) (out : Option (Run α)) : Prop :=
  ∃ s' c, out = some s' ∧
    (Convolution.new img (flipKernel K)).Perform (Run.init res) = some c ∧
    ∀ x0 y0, 0 ≤ x0 → x0 < img.width → 0 ≤ y0 → y0 < img.height →
      s'.res.px x0 y0 = c.res.px x0 y0 ∧
      s'.res.px x0 y0 = convolutionSum img K (K.width - 1 - K.width / 2)
        (K.height - 1 - K.height / 2) x0 y0 ∧
      (K.width % 2 = 1 → K.height % 2 = 1 →
        s'.res.px x0 y0 = convolutionSum img K (K.width / 2) (K.height / 2) x0 y0)

/-- The outcome `out` of a sum function is a state whose buffer is `res` with every in-range
pixel replaced by `img1(x,y) + img2(x,y)`, nothing else changed and every write in range. -/
def SummedInto [Add α] (img1 img2 res : Image α) (out : Option (Run α)) : Prop :=
  ∃ s', out = some s' ∧ s'.res = res.fill (pixelSum img1 img2) ∧
    (∀ x y, res.inRange x y → s'.res.px x y = img1.px x y + img2.px x y) ∧
    (∀ x y, ¬ res.inRange x y → s'.res.px x y = res.px x y) ∧
    ∀ p ∈ s'.writes, res.inRange p.1 p.2

end OutcomeDefs
section ConstantDefs

variable {α : Type}

/-- The sum over `j = 0..kh-1`, `i = 0..kw-1` of `c * kernel(i,j)`, accumulated from `0` in
row-major kernel order. -/
def constSum [Zero α] [Add α] [Mul α] (c : α) (kernel : Image α) : α :=
  (List.range kernel.height.toNat).foldl (fun acc (j : Nat) =>
    (List.range kernel.width.toNat).foldl (fun acc (i : Nat) =>
      acc + c * kernel.px i j) acc) 0

end ConstantDefs
section IsolatedDefs

variable {α : Type}

/-- The steps of `PerformVectorIsolated` on a `W x H` buffer: in every interior row, the groups
of 8 interior columns. -/
def isolatedOps (V : Int → Int → α) (W H ofsx ofsy kw1 kh1 : Int) : List (Op α) :=
  (idx ofsy (H + ofsy - kh1)).flatMap (fun j =>
    (idx8 0 (Int.tdiv (W - kw1) 8 * 8)).flatMap (fun i => pix8 V (i + ofsx) j))

end IsolatedDefs
section PartitionDefs

variable {α : Type}

/-- The coordinates of `[0,W) x [0,H)` in row-major order, each once. -/
def grid (W H : Int) : List (Int × Int) :=
  (idx 0 H).flatMap (fun j => (idx 0 W).map (fun i => (i, j)))

/-- The outcome `out` of a strategy is a state (no fault) whose writes are the coordinates of
`res` in row-major order: every output pixel is written exactly once and nothing outside `res`
is written. -/
def ExactPartition (res : Image α) (out : Option (Run α)) : Prop :=
  ∃ s', out = some s' ∧ s'.writes = grid res.width res.height ∧
    (∀ x y, res.inRange x y → s'.writes.count (x, y) = 1) ∧
    ∀ p ∈ s'.writes, res.inRange p.1 p.2

end PartitionDefs
section SplitDefs

variable {α : Type}

/-- The loops of `Perform`, `PerformOptimized` and `PerformVector` (main.cpp 140-212) with the
border routine `border` and the interior columns `interior j` of an interior row as parameters. -/
def Convolution.regionSplit (c : Convolution α) (border : Int → Int → Run α → Option (Run α))
    (interior : Int → Run α → Option (Run α)) (s : Run α) : Option (Run α) := do
  let s ← forLoop 0 c.ofsy (fun j s =>
    forLoop 0 s.res.Width (fun i s => border i j s) s) s
  let s ← forLoop c.ofsy (s.res.Height + c.ofsy - c.kh1) (fun j s => do
    let s ← forLoop 0 c.ofsx (fun i s => border i j s) s
    let s ← interior j s
    forLoop (s.res.Width + c.ofsx - c.kw1) s.res.Width (fun i s => border i j s) s) s
  forLoop (s.res.Height + c.ofsy - c.kh1) s.res.Height (fun j s =>
    forLoop 0 s.res.Width (fun i s => border i j s) s) s

/-- The interior columns of a row of `Perform` / `PerformOptimized` with the routine `u` as a
parameter. -/
def Convolution.scalarColumns (c : Convolution α) (u : Int → Int → Run α → Option (Run α))
    (j : Int) (s : Run α) : Option (Run α) :=
  forLoop c.ofsx (s.res.Width + c.ofsx - c.kw1) (fun i s => u i j s) s

/-- The interior columns of a row of `PerformVector` with the vector routine `v` and the scalar
routine `u` as parameters. -/
def Convolution.vectorColumns (c : Convolution α) (v u : Int → Int → Run α → Option (Run α))
    (w8 j : Int) (s : Run α) : Option (Run α) := do
  let s ← forLoop8 0 w8 (fun i s => v (i + c.ofsx) j s) s
  forLoop w8 (s.res.Width - c.kw1) (fun i s => u (i + c.ofsx) j s) s

/-- The loops of `PerformVector` with the routines as parameters. -/
def Convolution.vectorSplit (c : Convolution α) (border v u : Int → Int → Run α → Option (Run α))
    (s : Run α) : Option (Run α) :=
  let w8 := Int.tdiv (s.res.Width - c.kw1) 8 * 8
  c.regionSplit border (c.vectorColumns v u w8) s

/-- The routines that index without clamping. -/
def Routine.unchecked : Routine → Bool
  | Routine.ProcessUnchecked => true
  | Routine.ProcessUncheckedOptimized => true
  | Routine.ProcessUncheckedVector => true
  | _ => false

/-- The number of adjacent output columns a routine handles in one call. -/
def Routine.lanes : Routine → Int
  | Routine.ProcessUncheckedVector => 8
  | _ => 1

/-- The footprint of a call `(r, x0, y0)` of an unchecked routine is in range: every image
coordinate read, `(x0 - ofsx + i + l, y0 - ofsy + j)` for `0 <= i <= kw1`, `0 <= j <= kh1` and
lane `l`, is inside `img`, and every result coordinate written, `(x0 + l, y0)`, is inside `res`. -/
def FootprintInRange (img kernel res : Image α) (call : Routine × Int × Int) : Prop :=
  call.1.unchecked = true →
    (∀ i j l, 0 ≤ i → i ≤ (Convolution.new img kernel).kw1 → 0 ≤ j →
      j ≤ (Convolution.new img kernel).kh1 → 0 ≤ l → l < call.1.lanes →
      img.inRange (call.2.1 - (Convolution.new img kernel).ofsx + i + l)
        (call.2.2 - (Convolution.new img kernel).ofsy + j)) ∧
    ∀ l, 0 ≤ l → l < call.1.lanes → res.inRange (call.2.1 + l) call.2.2

/-- The outcome `out` is a state (no fault) in which every logged call of an unchecked routine has
its footprint in range. -/
def UncheckedSafe (img kernel res : Image α) (out : Option (Run α)) : Prop :=
  ∃ s', out = some s' ∧ ∀ call ∈ s'.calls, FootprintInRange img kernel res call

end SplitDefs

/-! ## Runs that keep their log at a fault

In `Option` a fault discards the state, and with it the log of the calls made so far.  The
definitions below run the same loops with the same per-pixel routines and keep, when a routine
faults, the state in which it was called, the entry of the faulting routine included. -/

section TracedDefs

variable {α : Type}

/-- The state in which a run ended: `Except.ok s` is a completed run, `Except.error s` is a run
stopped by a fault in the state `s`. -/
def lastState (out : Except (Run α) (Run α)) : Run α :=
  match out with
  | Except.ok s => s
  | Except.error s => s

/-- The call `f (x, y)` of the per-pixel routine `r`.  When the routine faults, the run stops in
the state of the call, to which the entry of the routine is logged. -/
def attempt (r : Routine) (f : Int → Int → Run α → Option (Run α)) (x y : Int) (s : Run α) :
    Except (Run α) (Run α) :=
  match f x y s with
  | some t => Except.ok t
  | none => Except.error (s.enter r x y)

/-- The loop `loopFrom` for bodies that keep the state at a fault. -/
def loopFromE (body : Int → Run α → Except (Run α) (Run α)) (step : Int) :
    Nat → Int → Run α → Except (Run α) (Run α)
  | 0, _, s => Except.ok s
  | n + 1, i, s => (body i s).bind (loopFromE body step n (i + step))

/-- The loop `for (int i = a; i < b; i++) body(i)`. -/
def forLoopE (a b : Int) (body : Int → Run α → Except (Run α) (Run α)) (s : Run α) :
    Except (Run α) (Run α) :=
  loopFromE body 1 (b - a).toNat a s

/-- The loop `for (int i = a; i < b; i += 8) body(i)`. -/
def forLoop8E (a b : Int) (body : Int → Run α → Except (Run α) (Run α)) (s : Run α) :
    Except (Run α) (Run α) :=
  loopFromE body 8 ((b - a + 7) / 8).toNat a s

/-- The loops of `Perform`, `PerformOptimized` and `PerformVector` (main.cpp 140-212) with the
border routine `border` and the interior columns `interior j` of an interior row as parameters. -/
def Convolution.regionSplitE (c : Convolution α)
    (border : Int → Int → Run α → Except (Run α) (Run α))
    (interior : Int → Run α → Except (Run α) (Run α)) (s : Run α) : Except (Run α) (Run α) := do
  let s ← forLoopE 0 c.ofsy (fun j s =>
    forLoopE 0 s.res.Width (fun i s => border i j s) s) s
  let s ← forLoopE c.ofsy (s.res.Height + c.ofsy - c.kh1) (fun j s => do
    let s ← forLoopE 0 c.ofsx (fun i s => border i j s) s
    let s ← interior j s
    forLoopE (s.res.Width + c.ofsx - c.kw1) s.res.Width (fun i s => border i j s) s) s
  forLoopE (s.res.Height + c.ofsy - c.kh1) s.res.Height (fun j s =>
    forLoopE 0 s.res.Width (fun i s => border i j s) s) s

/-- The interior columns of a row of `Perform` / `PerformOptimized` with the routine `u` as a
parameter. -/
def Convolution.scalarColumnsE (c : Convolution α)
    (u : Int → Int → Run α → Except (Run α) (Run α)) (j : Int) (s : Run α) :
    Except (Run α) (Run α) :=
  forLoopE c.ofsx (s.res.Width + c.ofsx - c.kw1) (fun i s => u i j s) s

/-- The interior columns of a row of `PerformVector` with the vector routine `v` and the scalar
routine `u` as parameters. -/
def Convolution.vectorColumnsE (c : Convolution α)
    (v u : Int → Int → Run α → Except (Run α) (Run α)) (w8 j : Int) (s : Run α) :
    Except (Run α) (Run α) := do
  let s ← forLoop8E 0 w8 (fun i s => v (i + c.ofsx) j s) s
  forLoopE w8 (s.res.Width - c.kw1) (fun i s => u (i + c.ofsx) j s) s

variable [Zero α] [Add α] [Mul α]

/-- The method `Convolution::Perform`, keeping the log at a fault. -/
def Convolution.PerformTraced (c : Convolution α) (s : Run α) : Except (Run α) (Run α) :=
  c.regionSplitE (attempt Routine.ProcessChecked c.ProcessChecked)
    (c.scalarColumnsE (attempt Routine.ProcessUnchecked c.ProcessUnchecked)) s

/-- The method `Convolution::PerformOptimized`, keeping the log at a fault. -/
def Convolution.PerformOptimizedTraced (c : Convolution α) (s : Run α) :
    Except (Run α) (Run α) :=
  c.regionSplitE (attempt Routine.ProcessCheckedOptimized c.ProcessCheckedOptimized)
    (c.scalarColumnsE (attempt Routine.ProcessUncheckedOptimized c.ProcessUncheckedOptimized)) s

/-- The method `Convolution::PerformVector`, keeping the log at a fault. -/
def Convolution.PerformVectorTraced (c : Convolution α) (s : Run α) :
    Except (Run α) (Run α) :=
  let w8 := Int.tdiv (s.res.Width - c.kw1) 8 * 8
  c.regionSplitE (attempt Routine.ProcessCheckedOptimized c.ProcessCheckedOptimized)
    (c.vectorColumnsE (attempt Routine.ProcessUncheckedVector c.ProcessUncheckedVector)
      (attempt Routine.ProcessUncheckedOptimized c.ProcessUncheckedOptimized) w8) s

end TracedDefs

section TracedClaimDefs

variable {α : Type}

/-- The property `P` holds of the state of a completed run and `J` of the state in which a run was
stopped. -/
def Holds (P J : Run α → Prop) (out : Except (Run α) (Run α)) : Prop :=
  match out with
  | Except.ok t => P t
  | Except.error t => J t

/-- Every call logged in the state `s` has its footprint in range. -/
def SafeLog (img kernel res : Image α) (s : Run α) : Prop :=
  ∀ call ∈ s.calls, FootprintInRange img kernel res call

/-- A state of the run on a buffer of the image's size in which every logged call has its
footprint in range. -/
def SafeRun (img kernel res : Image α) (s : Run α) : Prop :=
  Dims img.width img.height s ∧ SafeLog img kernel res s

/-- A state in which every logged call has its footprint in range and the last logged call is a
call of a border routine. -/
def SafeStop (img kernel res : Image α) (s : Run α) : Prop :=
  SafeLog img kernel res s ∧ ∃ call, s.calls.getLast? = some call ∧ call.1.unchecked = false

/-- Every call that the run `out` made to an unchecked routine, up to and including the call at
which it may have stopped, has its footprint in range; a run that stopped did so in a call of a
border routine. -/
def UncheckedInRange (img kernel res : Image α) (out : Except (Run α) (Run α)) : Prop :=
  (∀ call ∈ (lastState out).calls, FootprintInRange img kernel res call) ∧
    ∀ s, out = Except.error s →
      ∃ call, s.calls.getLast? = some call ∧ call.1.unchecked = false

end TracedClaimDefs
section LayoutDefs

variable {α : Type}

/-- The byte offset `y * stride + x * sizeof(T)` that `operator()` adds to `ptr`, for an element
type of size `sz`. -/
def Image.offset (sz : Int) (img : Image α) (x y : Int) : Int := y * img.stride + x * sz

/-- The block after storing the `sz` bytes `bytes 0 .. bytes (sz-1)` at byte offset `off`. -/
def storeBytes {β : Type} (m : Int → β) (off sz : Int) (bytes : Int → β) : Int → β :=
  fun a => if off ≤ a ∧ a < off + sz then bytes (a - off) else m a

/-- The bytes of the block read at byte offset `off`: byte `k` is `m (off + k)`. -/
def loadBytes {β : Type} (m : Int → β) (off : Int) : Int → β := fun k => m (off + k)

end LayoutDefs
/-! ## Optimized rotations (main.cpp 74-106) -/

section RotateVariants

variable {α : Type}

/-- The state of a row of the pointer-based rotations: the run and the columns of the pointers
`s` (into `src`) and `d` (into `dst`). -/
structure RotRow (α : Type) where
  run : Run α
  s : Int
  d : Int

/-- One row of `Rotate180Optimized`: the pointer `s` starts at `&src(0, j)` and `d` at
`&dst(src.Width(), j)`; the statement `*--d = *s++` reads at `s`, stores one column before `d`
and moves both pointers. -/
def rotateRowOptimized (src : Image α) (j : Int) (s : Run α) : Option (Run α) := do
  let st ← forLoop 0 src.Width (fun _ (st : RotRow α) => do
    let v ← src.get? st.s j
    let run ← st.run.store (st.d - 1) j v
    pure { run := run, s := st.s + 1, d := st.d - 1 })
    { run := s, s := 0, d := src.Width }
  pure st.run

/-- The function `Rotate180Optimized`: the row loop runs while `j <= src.Height()`. -/
def Rotate180Optimized (src : Image α) (s : Run α) : Option (Run α) :=
  forLoop 0 (src.Height + 1) (fun j s => rotateRowOptimized src j s) s

/-- The intrinsic `_mm256_permute_ps (v, imm)`: inside each 128-bit half, lane `l` receives the
lane of that half selected by the bits `2l+1 : 2l` of `imm`. -/
def permute_ps (v : M256 α) (imm : Nat) : M256 α :=
  fun l => v ⟨l.val / 4 * 4 + imm / 4 ^ (l.val % 4) % 4, by
    have h := Nat.mod_lt (imm / 4 ^ (l.val % 4)) (by decide : 0 < 4)
    have hl := l.isLt
    omega⟩

/-- The intrinsic `_mm256_permute2f128_ps (a, b, imm)`: the low half of the result is selected by
the bits `3 : 0` of `imm` and the high half by the bits `7 : 4`; a control `0, 1, 2, 3` selects
the low half of `a`, the high half of `a`, the low half of `b`, the high half of `b`, and bit 3
of a control zeroes the half. -/
def permute2f128_ps [Zero α] (a b : M256 α) (imm : Nat) : M256 α :=
  fun l =>
    let ctl := if l.val < 4 then imm % 16 else imm / 16 % 16
    if ctl / 8 = 1 then 0
    else (if ctl % 4 / 2 = 0 then a else b) ⟨ctl % 2 * 4 + l.val % 4, by omega⟩

/-- The function `Rotate180UsingAvx`: groups of 8 columns through an aligned load, the two
permutes and an aligned store 8 columns before `d`, then single columns as in
`Rotate180Optimized`. -/
def Rotate180UsingAvx [Zero α] (src : Image α) (s : Run α) : Option (Run α) :=
  let w8 := Int.tdiv src.Width 8 * 8
  forLoop 0 src.Height (fun j s => do
    let st ← forLoop8 0 w8 (fun _ (st : RotRow α) => do
      let a ← src.load_ps st.s j
      let v := permute_ps a 0x1b
      let run ← st.run.store_ps (st.d - 8) j (permute2f128_ps v v 1)
      pure { run := run, s := st.s + 8, d := st.d - 8 })
      { run := s, s := 0, d := src.Width }
    let st ← forLoop w8 src.Width (fun _ (st : RotRow α) => do
      let v ← src.get? st.s j
      let run ← st.run.store (st.d - 1) j v
      pure { run := run, s := st.s + 1, d := st.d - 1 }) st
    pure st.run) s

/-- The steps of the rows `0 .. h-1` of `Rotate180Optimized`: row `j` of the source is written
to row `j` of the destination with the columns reversed. -/
def mirrorOps (src : Image α) : List (Op α) :=
  (idx 0 src.height).flatMap (fun j => (idx 0 src.width).flatMap (fun i =>
    [Op.write (src.width - 1 - i) j (src.px i j)]))

/-- The pixels of a buffer, row by row. -/
def Image.rows (img : Image α) : List (List α) :=
  (idx 0 img.height).map (fun j => (idx 0 img.width).map (fun i => img.px i j))

end RotateVariants
/-! ## Timing harness (perf.cpp 85-142)

Durations are `double` values in the program; they are modelled by exact rationals.  The cost
estimate returned by `Probe` and the measured durations are inputs of the model. -/

section Harness

/-- The constant `ExecuteTime`. -/
def ExecuteTime : ℚ := 1

/-- The constant `MaxIterationCount`. -/
def MaxIterationCount : Int := 1000000000

/-- The constant `MinBucketCount`. -/
def MinBucketCount : Int := 1000

/-- The constant `MaxBucketCount`. -/
def MaxBucketCount : Int := 5000

/-- The conversion `(int) v` of a value inside the range of `int`: truncation toward zero. -/
def truncInt (v : ℚ) : Int := Int.tdiv v.num v.den

/-- The initialiser of `iterCount`: `(int) std::min (ExecuteTime / approx,
(double) MaxIterationCount)`. -/
def iterCountOf (approx : ℚ) : Int :=
  truncInt (min (ExecuteTime / approx) (MaxIterationCount : ℚ))

/-- The function `PrintStatistics (name, stat)`: the two values it prints, `pc10` and `average`.
The vector is sorted, `average` is `sum / size` and `pc10` is `stat[size / 10]`; indexing the
vector at or beyond its size is a fault. -/
def PrintStatistics (stat : List ℚ) : Option (ℚ × ℚ) := do
  let stat := stdSort stat
  let average := stat.sum / (stat.length : ℚ)
  let pc10 ← stat[stat.length / 10]?
  pure (pc10, average)

/-- The function `MeasureExecutionTime` from the point where `Probe` has returned `approx`;
`t i` is the duration measured in round `i`.  The result is what `PrintStatistics` prints.  A
vector cannot be created with a negative element count. -/
def MeasureExecutionTime (approx : ℚ) (t : Nat → ℚ) (factor : Int) : Option (ℚ × ℚ) :=
  let iterCount := iterCountOf approx
  if iterCount ≤ MaxBucketCount then
    if iterCount < 0 then none
    else PrintStatistics ((List.range iterCount.toNat).map (fun i => t i / (factor : ℚ)))
  else
    let bucketSize := Int.tdiv iterCount MinBucketCount
    PrintStatistics ((List.range MinBucketCount.toNat).map
      (fun i => t i / ((factor * bucketSize : Int) : ℚ)))

/-- The number of elements of the sample vector `stat`. -/
def sampleCount (approx : ℚ) : Int :=
  if iterCountOf approx ≤ MaxBucketCount then iterCountOf approx else MinBucketCount

end Harness

/-! ## Concrete inputs -/

/-- A 5 x 4 image with pairwise distinct pixels. -/
def sampleImage : Image Int := { width := 5, height := 4, stride := 32, px := fun x y => x + 10 * y }

/-- A 2 x 3 kernel (even width, odd height). -/
def sampleKernel : Image Int :=
  { width := 2, height := 3, stride := 32, px := fun x y => 1 + x + 2 * y }

/-- A 3 x 3 kernel (odd extents) with pairwise distinct weights. -/
def oddKernel : Image Int :=
  { width := 3, height := 3, stride := 32, px := fun x y => 1 + x + 3 * y }

/-- A `w x h` buffer filled with `c`. -/
def constImage (w h c : Int) : Image Int :=
  { width := w, height := h, stride := strideOf 4 w, px := fun _ _ => c }

/-- A 12 x 1 image: one row with a group of eight interior columns and a scalar remainder. -/
def rowImage : Image Int := { width := 12, height := 1, stride := 64, px := fun x _ => x * x }

/-- A 3 x 1 kernel. -/
def rowKernel : Image Int := { width := 3, height := 1, stride := 32, px := fun x _ => x + 1 }

/-- A 2 x 2 source with the rows `[1, 2]` and `[3, 4]`. -/
def rotSource : Image Int := { width := 2, height := 2, stride := 32, px := fun x y => 1 + x + 2 * y }

/-- A 16 x 2 source with pairwise distinct pixels: two aligned groups of 8 per row. -/
def wideSource : Image Int :=
  { width := 16, height := 2, stride := 64, px := fun x y => x + 100 * y }

/-! # Lemmas and theorems -/

/-! ## Loop lemmas -/

section LoopLemmas

theorem mem_indices_one {a : Int} {n : Nat} {i : Int} :
    i ∈ indices 1 a n ↔ a ≤ i ∧ i < a + n := by
  induction n generalizing a with
  | zero => simp [indices]
  | succ n ih => simp [indices, ih]; omega

theorem mem_indices_eight {a : Int} {n : Nat} {i : Int} :
    i ∈ indices 8 a n ↔ a ≤ i ∧ i < a + 8 * n ∧ (i - a) % 8 = 0 := by
  induction n generalizing a with
  | zero => simp [indices]; omega
  | succ n ih => simp [indices, ih]; omega

theorem mem_idx {a b i : Int} : i ∈ idx a b ↔ a ≤ i ∧ i < b := by
  simp [idx, mem_indices_one]; omega

theorem mem_idx8 {a b i : Int} : i ∈ idx8 a b ↔ a ≤ i ∧ i < b ∧ (i - a) % 8 = 0 := by
  simp [idx8, mem_indices_eight]; omega

theorem indices_append (step a : Int) (m n : Nat) :
    indices step a (m + n) = indices step a m ++ indices step (a + step * m) n := by
  induction m generalizing a with
  | zero => simp [indices]
  | succ m ih =>
    have e : m + 1 + n = (m + n) + 1 := by omega
    rw [e]
    have e2 : a + step + step * (m : Int) = a + step * ((m + 1 : Nat) : Int) := by
      push_cast; ring
    simp only [indices, List.cons_append, ih, e2]

theorem idx_append {a b c : Int} (hab : a ≤ b) (hbc : b ≤ c) : idx a c = idx a b ++ idx b c := by
  unfold idx
  have e : (c - a).toNat = (b - a).toNat + (c - b).toNat := by omega
  rw [e, indices_append]
  congr 2
  omega

theorem idx_eq_nil {a b : Int} (h : b ≤ a) : idx a b = [] := by
  unfold idx
  have e : (b - a).toNat = 0 := by omega
  rw [e]; rfl

theorem indices_eq_map_range (a : Int) (n : Nat) :
    indices 1 a n = (List.range n).map (fun k : Nat => a + (k : Int)) := by
  induction n generalizing a with
  | zero => rfl
  | succ n ih =>
    rw [List.range_succ_eq_map]
    simp only [indices, ih, List.map_cons, List.map_map]
    congr 1
    · simp
    · apply List.map_congr_left
      intro k _
      simp only [Function.comp, Nat.cast_succ]
      ring

theorem foldl_idx_zero {β : Type} (f : β → Int → β) (s : β) (n : Int) :
    (idx 0 n).foldl f s = (List.range n.toNat).foldl (fun s (k : Nat) => f s (k : Int)) s := by
  unfold idx
  rw [indices_eq_map_range, List.foldl_map]
  simp only [Int.sub_zero, Int.zero_add]

theorem loopFrom_fold {σ : Type} (body : Int → σ → Option σ) (g : Int → σ → σ)
    (P : Int → σ → Prop) (step : Int) (n : Nat) (a : Int) (s : σ) (h0 : P a s)
    (h : ∀ i ∈ indices step a n, ∀ s, P i s → body i s = some (g i s) ∧ P (i + step) (g i s)) :
    loopFrom body step n a s = some ((indices step a n).foldl (fun s i => g i s) s) ∧
      P (a + step * n) ((indices step a n).foldl (fun s i => g i s) s) := by
  induction n generalizing a s with
  | zero => simpa [loopFrom, indices] using h0
  | succ n ih =>
    have h1 := h a (by simp [indices]) s h0
    have h2 := ih (a + step) (g a s) h1.2 (fun i hi => h i (by simp [indices, hi]))
    simp only [loopFrom, h1.1, Option.some_bind, indices, List.foldl_cons]
    refine ⟨h2.1, ?_⟩
    have e : a + step * ((n + 1 : Nat) : Int) = a + step + step * n := by push_cast; ring
    rw [e]; exact h2.2

theorem forLoop_pure {σ : Type} (body : Int → σ → Option σ) (g : Int → σ → σ) (a b : Int) (s : σ)
    (h : ∀ i, a ≤ i → i < b → ∀ s, body i s = some (g i s)) :
    forLoop a b body s = some ((idx a b).foldl (fun s i => g i s) s) :=
  (loopFrom_fold body g (fun _ _ => True) 1 _ a s trivial
    (fun i hi s _ => ⟨h i (mem_idx.1 hi).1 (mem_idx.1 hi).2 s, trivial⟩)).1

end LoopLemmas

/-! ## Effects of a run -/

section ExecLemmas

variable {α : Type}

theorem writesOf_append (l₁ l₂ : List (Op α)) :
    writesOf (l₁ ++ l₂) = writesOf l₁ ++ writesOf l₂ := by
  induction l₁ with
  | nil => rfl
  | cons op l ih => cases op <;> simp [writesOf, ih]

theorem callsOf_append (l₁ l₂ : List (Op α)) :
    callsOf (l₁ ++ l₂) = callsOf l₁ ++ callsOf l₂ := by
  induction l₁ with
  | nil => rfl
  | cons op l ih => cases op <;> simp [callsOf, ih]

theorem writesOf_flatMap {β : Type} (l : List β) (f : β → List (Op α)) :
    writesOf (l.flatMap f) = l.flatMap (fun b => writesOf (f b)) := by
  induction l with
  | nil => rfl
  | cons b l ih => simp [List.flatMap_cons, writesOf_append, ih]

theorem mem_writesOf {ops : List (Op α)} {x y : Int} :
    (x, y) ∈ writesOf ops ↔ ∃ v, Op.write x y v ∈ ops := by
  induction ops with
  | nil => simp [writesOf]
  | cons op l ih =>
    cases op with
    | call r a b => simp [writesOf, ih]
    | write a b w =>
      simp only [writesOf, List.mem_cons, ih, Prod.mk.injEq, Op.write.injEq]
      constructor
      · rintro (⟨rfl, rfl⟩ | ⟨v, hv⟩)
        · exact ⟨w, Or.inl ⟨rfl, rfl, rfl⟩⟩
        · exact ⟨v, Or.inr hv⟩
      · rintro ⟨v, (⟨rfl, rfl, rfl⟩ | hv)⟩
        · exact Or.inl ⟨rfl, rfl⟩
        · exact Or.inr ⟨v, hv⟩

theorem mem_callsOf {ops : List (Op α)} {r : Routine} {x y : Int} :
    (r, x, y) ∈ callsOf ops ↔ Op.call r x y ∈ ops := by
  induction ops with
  | nil => simp [callsOf]
  | cons op l ih => cases op <;> simp [callsOf, ih]

theorem execAll_append (s : Run α) (l₁ l₂ : List (Op α)) :
    s.execAll (l₁ ++ l₂) = (s.execAll l₁).execAll l₂ := by
  simp [Run.execAll, List.foldl_append]

theorem execAll_dims (s : Run α) (ops : List (Op α)) :
    (s.execAll ops).res.width = s.res.width ∧ (s.execAll ops).res.height = s.res.height ∧
      (s.execAll ops).res.stride = s.res.stride := by
  induction ops generalizing s with
  | nil => simp [Run.execAll]
  | cons op l ih =>
    have h := ih (s.exec op)
    cases op <;> simpa [Run.execAll, Run.exec, Image.put] using h

theorem execAll_writes (s : Run α) (ops : List (Op α)) :
    (s.execAll ops).writes = s.writes ++ writesOf ops := by
  induction ops generalizing s with
  | nil => simp [Run.execAll, writesOf]
  | cons op l ih =>
    have h := ih (s.exec op)
    cases op <;> simpa [Run.execAll, Run.exec, writesOf] using h

theorem execAll_calls (s : Run α) (ops : List (Op α)) :
    (s.execAll ops).calls = s.calls ++ callsOf ops := by
  induction ops generalizing s with
  | nil => simp [Run.execAll, callsOf]
  | cons op l ih =>
    have h := ih (s.exec op)
    cases op <;> simpa [Run.execAll, Run.exec, callsOf] using h

theorem execAll_px (V : Int → Int → α) (s : Run α) (ops : List (Op α)) (hc : Coherent V ops)
    (x y : Int) :
    (s.execAll ops).res.px x y = if (x, y) ∈ writesOf ops then V x y else s.res.px x y := by
  induction ops generalizing s with
  | nil => simp [Run.execAll, writesOf]
  | cons op l ih =>
    have hl : Coherent V l := fun a b v hv => hc a b v (List.mem_cons_of_mem _ hv)
    have h := ih (s.exec op) hl
    cases op with
    | call r a b => simpa [Run.execAll, Run.exec, writesOf] using h
    | write a b w =>
      have hw : w = V a b := hc a b w (List.mem_cons_self _ _)
      simp only [Run.execAll, List.foldl_cons] at h ⊢
      rw [h]
      simp only [Run.exec, Image.put, writesOf, List.mem_cons, Prod.mk.injEq]
      by_cases h1 : (x, y) ∈ writesOf l
      · simp [h1]
      · by_cases h2 : x = a ∧ y = b
        · obtain ⟨rfl, rfl⟩ := h2
          simp [h1, hw]
        · simp [h1, h2]

theorem Coherent.append {V : Int → Int → α} {l₁ l₂ : List (Op α)} (h₁ : Coherent V l₁)
    (h₂ : Coherent V l₂) : Coherent V (l₁ ++ l₂) := by
  intro x y v hv
  rcases List.mem_append.1 hv with h | h
  · exact h₁ x y v h
  · exact h₂ x y v h

theorem Coherent.flatMap {β : Type} {V : Int → Int → α} {l : List β} {f : β → List (Op α)}
    (h : ∀ b ∈ l, Coherent V (f b)) : Coherent V (l.flatMap f) := by
  intro x y v hv
  obtain ⟨b, hb, hm⟩ := List.mem_flatMap.1 hv
  exact h b hb x y v hm

theorem Realizes.congr {σ : Type} {proj : σ → Run α} {I : σ → Prop} {f g : σ → Option σ}
    {ops : List (Op α)} (hfg : ∀ s, I s → f s = g s) (hg : Realizes proj I g ops) :
    Realizes proj I f ops := by
  intro s hs
  rw [hfg s hs]
  exact hg s hs

theorem Realizes.seq {σ : Type} {proj : σ → Run α} {I : σ → Prop} {f g : σ → Option σ}
    {l₁ l₂ : List (Op α)} (hf : Realizes proj I f l₁) (hg : Realizes proj I g l₂) :
    Realizes proj I (fun s => f s >>= g) (l₁ ++ l₂) := by
  intro s hs
  obtain ⟨s₁, e₁, i₁, p₁⟩ := hf s hs
  obtain ⟨s₂, e₂, i₂, p₂⟩ := hg s₁ i₁
  refine ⟨s₂, ?_, i₂, ?_⟩
  · simp [e₁, e₂]
  · rw [p₂, p₁, execAll_append]

theorem Realizes.loopFrom {σ : Type} {proj : σ → Run α} {I : σ → Prop}
    {body : Int → σ → Option σ} {L : Int → List (Op α)} (step : Int) (n : Nat) (a : Int)
    (h : ∀ i ∈ indices step a n, Realizes proj I (body i) (L i)) :
    Realizes proj I (ImProc.loopFrom body step n a) ((indices step a n).flatMap L) := by
  induction n generalizing a with
  | zero =>
    intro s hs
    exact ⟨s, rfl, hs, by simp [indices, Run.execAll]⟩
  | succ n ih =>
    intro s hs
    obtain ⟨s₁, e₁, i₁, p₁⟩ := h a (by simp [indices]) s hs
    obtain ⟨s₂, e₂, i₂, p₂⟩ := ih (a + step) (fun i hi => h i (by simp [indices, hi])) s₁ i₁
    refine ⟨s₂, ?_, i₂, ?_⟩
    · simp [ImProc.loopFrom, e₁, e₂]
    · rw [p₂, p₁, ← execAll_append]
      simp [indices, List.flatMap_cons]

theorem Realizes.forLoop {σ : Type} {proj : σ → Run α} {I : σ → Prop}
    {body : Int → σ → Option σ} {L : Int → List (Op α)} (a b : Int)
    (h : ∀ i, a ≤ i → i < b → Realizes proj I (body i) (L i)) :
    Realizes proj I (ImProc.forLoop a b body) ((idx a b).flatMap L) :=
  Realizes.loopFrom 1 _ a (fun i hi => h i (mem_idx.1 hi).1 (mem_idx.1 hi).2)

theorem Realizes.forLoop8 {σ : Type} {proj : σ → Run α} {I : σ → Prop}
    {body : Int → σ → Option σ} {L : Int → List (Op α)} (a b : Int)
    (h : ∀ i, a ≤ i → i < b → (i - a) % 8 = 0 → Realizes proj I (body i) (L i)) :
    Realizes proj I (ImProc.forLoop8 a b body) ((idx8 a b).flatMap L) :=
  Realizes.loopFrom 8 _ a
    (fun i hi => h i (mem_idx8.1 hi).1 (mem_idx8.1 hi).2.1 (mem_idx8.1 hi).2.2)

end ExecLemmas


/-! ## The per-pixel routines of the correlation engine -/

section ConvRoutines

variable {α : Type}

theorem get?_of_inRange (img : Image α) {x y : Int} (h : img.inRange x y) :
    img.get? x y = some (img.px x y) := by
  simp [Image.get?, h]

theorem store_of_inRange (s : Run α) {x y : Int} (v : α) (h : s.res.inRange x y) :
    s.store x y v = some (s.exec (Op.write x y v)) := by
  simp [Run.store, h]

variable [Zero α] [Add α] [Mul α]

theorem clampedSum_eq (img kernel : Image α) (x0 y0 : Int) :
    clampedSum img kernel x0 y0 =
      (idx 0 kernel.height).foldl (fun acc j =>
        (idx 0 kernel.width).foldl (fun acc i =>
          acc + img.px (clampX img (x0 - kernel.width / 2 + i))
            (clampY img (y0 - kernel.height / 2 + j)) * kernel.px i j) acc) 0 := by
  unfold clampedSum
  rw [foldl_idx_zero]
  congr 1
  funext acc j
  rw [foldl_idx_zero]

/-- A double loop whose rows add the products of the data model computes `clampedSum`. -/
theorem sumLoops (img kernel : Image α) (x0 y0 : Int) (row : Int → α → Option α)
    (hrow : ∀ j, 0 ≤ j → j < kernel.height → ∀ sum, row j sum =
      some ((idx 0 kernel.width).foldl (fun acc i =>
          acc + img.px (clampX img (x0 - kernel.width / 2 + i))
            (clampY img (y0 - kernel.height / 2 + j)) * kernel.px i j) sum)) :
    forLoop 0 kernel.height row 0 = some (clampedSum img kernel x0 y0) := by
  rw [clampedSum_eq]
  exact forLoop_pure row _ 0 kernel.height 0 hrow

theorem ProcessChecked_realizes (img kernel : Image α) (W H : Int) (hW : 1 ≤ img.width)
    (hH : 1 ≤ img.height) (hkw : 0 ≤ kernel.width) (hkh : 0 ≤ kernel.height) (x0 y0 : Int)
    (hx : 0 ≤ x0 ∧ x0 < W) (hy : 0 ≤ y0 ∧ y0 < H) :
    Realizes id (Dims W H) ((Convolution.new img kernel).ProcessChecked x0 y0)
      (pix Routine.ProcessChecked (clampedSum img kernel) x0 y0) := by
  intro s hs
  have hsum := sumLoops img kernel x0 y0
    (fun j sum => forLoop 0 (kernel.width - 1 + 1) (fun i sum => do
      let a ← img.get? (max 0 (min (img.width - 1) (x0 - Int.tdiv kernel.width 2 + i)))
        (max 0 (min (img.height - 1) (y0 - Int.tdiv kernel.height 2 + j)))
      let k ← kernel.get? i j
      pure (sum + a * k)) sum) (by
      intro j hj0 hj sum
      have e : kernel.width - 1 + 1 = kernel.width := by omega
      rw [e]
      apply forLoop_pure
      intro i hi0 hi acc
      rw [get?_of_inRange img (by unfold Image.inRange; omega),
        get?_of_inRange kernel (by unfold Image.inRange; omega)]
      simp [clampX, clampY, Int.tdiv_eq_ediv hkw, Int.tdiv_eq_ediv hkh])
  have e : kernel.height - 1 + 1 = kernel.height := by omega
  refine ⟨(s.exec (Op.call Routine.ProcessChecked x0 y0)).exec
    (Op.write x0 y0 (clampedSum img kernel x0 y0)), ?_, ?_, rfl⟩
  · simp only [Convolution.ProcessChecked, Convolution.new, Image.Width, Image.Height, e,
      Run.enter, Option.bind_eq_bind] at hsum ⊢
    rw [hsum, Option.some_bind]
    apply store_of_inRange
    unfold Image.inRange Dims at *
    simp only [Run.exec]
    omega
  · exact hs

omit [Zero α] in
theorem cell_eq (img kernel : Image α) {x y i j : Int} (hx : img.inRange x y)
    (hk : kernel.inRange i j) (sum : α) :
    (do let a ← img.get? x y
        let k ← kernel.get? i j
        pure (sum + a * k)) = some (sum + img.px x y * kernel.px i j) := by
  rw [get?_of_inRange img hx, get?_of_inRange kernel hk]
  rfl

omit [Zero α] in
theorem cell_eq' (img kernel : Image α) {x y i j : Int} (hx : img.inRange x y)
    (hk : kernel.inRange i j) (sum : α) :
    ((img.get? x y).bind fun a => (kernel.get? i j).bind fun k => pure (sum + a * k))
      = some (sum + img.px x y * kernel.px i j) := by
  rw [get?_of_inRange img hx, get?_of_inRange kernel hk]
  rfl

theorem ProcessUnchecked_realizes (img kernel : Image α) (W H : Int)
    (hkw : 0 ≤ kernel.width) (hkh : 0 ≤ kernel.height) (x0 y0 : Int)
    (hx : 0 ≤ x0 ∧ x0 < W) (hy : 0 ≤ y0 ∧ y0 < H)
    (hfx : kernel.width / 2 ≤ x0 ∧ x0 - kernel.width / 2 + (kernel.width - 1) ≤ img.width - 1)
    (hfy : kernel.height / 2 ≤ y0 ∧ y0 - kernel.height / 2 + (kernel.height - 1) ≤ img.height - 1) :
    Realizes id (Dims W H) ((Convolution.new img kernel).ProcessUnchecked x0 y0)
      (pix Routine.ProcessUnchecked (clampedSum img kernel) x0 y0) := by
  intro s hs
  have hsum := sumLoops img kernel x0 y0
    (fun j sum => forLoop 0 (kernel.width - 1 + 1) (fun i sum => do
      let a ← img.get? (x0 - Int.tdiv kernel.width 2 + i) (y0 - Int.tdiv kernel.height 2 + j)
      let k ← kernel.get? i j
      pure (sum + a * k)) sum) (by
      intro j hj0 hj sum
      have e : kernel.width - 1 + 1 = kernel.width := by omega
      rw [e]
      apply forLoop_pure
      intro i hi0 hi acc
      rw [Int.tdiv_eq_ediv hkw (by decide), Int.tdiv_eq_ediv hkh (by decide)]
      rw [cell_eq img kernel (by unfold Image.inRange; omega) (by unfold Image.inRange; omega)]
      have ex : clampX img (x0 - kernel.width / 2 + i) = x0 - kernel.width / 2 + i := by
        unfold clampX; omega
      have ey : clampY img (y0 - kernel.height / 2 + j) = y0 - kernel.height / 2 + j := by
        unfold clampY; omega
      rw [ex, ey])
  have e : kernel.height - 1 + 1 = kernel.height := by omega
  refine ⟨(s.exec (Op.call Routine.ProcessUnchecked x0 y0)).exec
    (Op.write x0 y0 (clampedSum img kernel x0 y0)), ?_, ?_, rfl⟩
  · simp only [Convolution.ProcessUnchecked, Convolution.new, Image.Width, Image.Height, e,
      Run.enter, Option.bind_eq_bind] at hsum ⊢
    rw [hsum, Option.some_bind]
    apply store_of_inRange
    unfold Image.inRange Dims at *
    simp only [Run.exec]
    omega
  · exact hs

theorem ProcessUncheckedOptimized_realizes (img kernel : Image α) (W H : Int)
    (hkw : 0 ≤ kernel.width) (hkh : 0 ≤ kernel.height) (x0 y0 : Int)
    (hx : 0 ≤ x0 ∧ x0 < W) (hy : 0 ≤ y0 ∧ y0 < H)
    (hfx : kernel.width / 2 ≤ x0 ∧ x0 - kernel.width / 2 + (kernel.width - 1) ≤ img.width - 1)
    (hfy : kernel.height / 2 ≤ y0 ∧ y0 - kernel.height / 2 + (kernel.height - 1) ≤ img.height - 1) :
    Realizes id (Dims W H) ((Convolution.new img kernel).ProcessUncheckedOptimized x0 y0)
      (pix Routine.ProcessUncheckedOptimized (clampedSum img kernel) x0 y0) := by
  intro s hs
  have hsum := sumLoops img kernel x0 y0
    (fun j sum => forLoop 0 (kernel.width - 1 + 1) (fun i sum => do
      let a ← img.get? (x0 - Int.tdiv kernel.width 2 + i) (y0 - Int.tdiv kernel.height 2 + j)
      let k ← kernel.get? (0 + i) j
      pure (sum + a * k)) sum) (by
      intro j hj0 hj sum
      have e : kernel.width - 1 + 1 = kernel.width := by omega
      rw [e]
      apply forLoop_pure
      intro i hi0 hi acc
      rw [Int.tdiv_eq_ediv hkw (by decide), Int.tdiv_eq_ediv hkh (by decide), Int.zero_add]
      rw [cell_eq img kernel (by unfold Image.inRange; omega) (by unfold Image.inRange; omega)]
      have ex : clampX img (x0 - kernel.width / 2 + i) = x0 - kernel.width / 2 + i := by
        unfold clampX; omega
      have ey : clampY img (y0 - kernel.height / 2 + j) = y0 - kernel.height / 2 + j := by
        unfold clampY; omega
      rw [ex, ey])
  have e : kernel.height - 1 + 1 = kernel.height := by omega
  refine ⟨(s.exec (Op.call Routine.ProcessUncheckedOptimized x0 y0)).exec
    (Op.write x0 y0 (clampedSum img kernel x0 y0)), ?_, ?_, rfl⟩
  · simp only [Convolution.ProcessUncheckedOptimized, Convolution.new, Image.Width, Image.Height,
      e, Run.enter, Option.bind_eq_bind] at hsum ⊢
    rw [hsum, Option.some_bind]
    apply store_of_inRange
    unfold Image.inRange Dims at *
    simp only [Run.exec]
    omega
  · exact hs

theorem ProcessCheckedOptimized_realizes (img kernel : Image α) (W H : Int) (hW : 1 ≤ img.width)
    (hH : 1 ≤ img.height) (hkw : 1 ≤ kernel.width) (hkh : 0 ≤ kernel.height) (x0 y0 : Int)
    (hx : 0 ≤ x0 ∧ x0 < W) (hy : 0 ≤ y0 ∧ y0 < H) (hxi : x0 < img.width) :
    Realizes id (Dims W H) ((Convolution.new img kernel).ProcessCheckedOptimized x0 y0)
      (pix Routine.ProcessCheckedOptimized (clampedSum img kernel) x0 y0) := by
  intro s hs
  have hkw0 : 0 ≤ kernel.width := by omega
  have hsum := sumLoops img kernel x0 y0
    (fun j sum => do
      let sum ← forLoop 0 (max 0 (Int.tdiv kernel.width 2 - x0)) (fun i sum => do
        let a ← img.get? (x0 - Int.tdiv kernel.width 2 + max 0 (Int.tdiv kernel.width 2 - x0))
          (max 0 (min (img.height - 1) (y0 - Int.tdiv kernel.height 2 + j)))
        let k ← kernel.get? (0 + i) j
        pure (sum + a * k)) sum
      let sum ← forLoop (max 0 (Int.tdiv kernel.width 2 - x0))
        (min (kernel.width - 1) (img.width - 1 + Int.tdiv kernel.width 2 - x0) + 1)
        (fun i sum => do
          let a ← img.get? (x0 - Int.tdiv kernel.width 2 + i)
            (max 0 (min (img.height - 1) (y0 - Int.tdiv kernel.height 2 + j)))
          let k ← kernel.get? (0 + i) j
          pure (sum + a * k)) sum
      forLoop (min (kernel.width - 1) (img.width - 1 + Int.tdiv kernel.width 2 - x0) + 1)
        (kernel.width - 1 + 1) (fun i sum => do
          let a ← img.get? (x0 - Int.tdiv kernel.width 2
              + min (kernel.width - 1) (img.width - 1 + Int.tdiv kernel.width 2 - x0))
            (max 0 (min (img.height - 1) (y0 - Int.tdiv kernel.height 2 + j)))
          let k ← kernel.get? (0 + i) j
          pure (sum + a * k)) sum) (by
      intro j hj0 hj sum
      beta_reduce
      simp only [Option.bind_eq_bind]
      rw [Int.tdiv_eq_ediv hkw0 (by decide), Int.tdiv_eq_ediv hkh (by decide)]
      have e : kernel.width - 1 + 1 = kernel.width := by omega
      rw [e]
      have h01 : (0 : Int) ≤ max 0 (kernel.width / 2 - x0) := by omega
      have h12 : max 0 (kernel.width / 2 - x0)
          ≤ min (kernel.width - 1) (img.width - 1 + kernel.width / 2 - x0) + 1 := by omega
      have h23 : min (kernel.width - 1) (img.width - 1 + kernel.width / 2 - x0) + 1
          ≤ kernel.width := by omega
      rw [idx_append h01 (le_trans h12 h23), idx_append h12 h23, List.foldl_append,
        List.foldl_append]
      rw [forLoop_pure _ (fun i acc => acc + img.px (clampX img (x0 - kernel.width / 2 + i))
        (clampY img (y0 - kernel.height / 2 + j)) * kernel.px i j)]
      · rw [Option.some_bind]
        rw [forLoop_pure _ (fun i acc => acc + img.px (clampX img (x0 - kernel.width / 2 + i))
          (clampY img (y0 - kernel.height / 2 + j)) * kernel.px i j)]
        · rw [Option.some_bind]
          apply forLoop_pure
          intro i hi0 hi acc
          rw [Int.zero_add, cell_eq' img kernel (by unfold Image.inRange; omega)
            (by unfold Image.inRange; omega)]
          have ex : x0 - kernel.width / 2
              + min (kernel.width - 1) (img.width - 1 + kernel.width / 2 - x0)
              = clampX img (x0 - kernel.width / 2 + i) := by unfold clampX; omega
          rw [ex]; rfl
        · intro i hi0 hi acc
          rw [Int.zero_add, cell_eq' img kernel (by unfold Image.inRange; omega)
            (by unfold Image.inRange; omega)]
          have ex : x0 - kernel.width / 2 + i = clampX img (x0 - kernel.width / 2 + i) := by
            unfold clampX; omega
          rw [← ex]; rfl
      · intro i hi0 hi acc
        rw [Int.zero_add, cell_eq' img kernel (by unfold Image.inRange; omega)
          (by unfold Image.inRange; omega)]
        have ex : x0 - kernel.width / 2 + max 0 (kernel.width / 2 - x0)
            = clampX img (x0 - kernel.width / 2 + i) := by unfold clampX; omega
        rw [ex]; rfl)
  have e : kernel.height - 1 + 1 = kernel.height := by omega
  refine ⟨(s.exec (Op.call Routine.ProcessCheckedOptimized x0 y0)).exec
    (Op.write x0 y0 (clampedSum img kernel x0 y0)), ?_, ?_, rfl⟩
  · simp only [Convolution.ProcessCheckedOptimized, Convolution.new, Image.Width, Image.Height,
      e, Run.enter, Option.bind_eq_bind] at hsum ⊢
    rw [hsum, Option.some_bind]
    apply store_of_inRange
    unfold Image.inRange Dims at *
    simp only [Run.exec]
    omega
  · exact hs

omit [Zero α] [Mul α] in
theorem vecRow_fold_sum (L : List Int) (G : Int → Fin 8 → α) (st : VecRow α) :
    (L.foldl (fun (st : VecRow α) i =>
        ({ sum := fun l => st.sum l + G i l, s := st.s + 1, k := st.k + 1 } : VecRow α)) st).sum
      = fun l => L.foldl (fun acc i => acc + G i l) (st.sum l) := by
  induction L generalizing st with
  | nil => rfl
  | cons i L ih => simp only [List.foldl_cons]; rw [ih]

omit [Zero α] [Add α] [Mul α] in
theorem lanes_fold (L : List Int) (R : Int → Fin 8 → α → α) (init : M256 α) :
    L.foldl (fun (sum : M256 α) j => fun l => R j l (sum l)) init
      = fun l => L.foldl (fun acc j => R j l acc) (init l) := by
  induction L generalizing init with
  | nil => rfl
  | cons j L ih => simp only [List.foldl_cons]; rw [ih]

theorem ProcessUncheckedVector_realizes (img kernel : Image α) (W H : Int)
    (hkw : 0 ≤ kernel.width) (hkh : 0 ≤ kernel.height) (x0 y0 : Int)
    (hx : 0 ≤ x0 ∧ x0 + 7 < W) (hy : 0 ≤ y0 ∧ y0 < H)
    (hfx : kernel.width / 2 ≤ x0 ∧
      x0 + 7 - kernel.width / 2 + (kernel.width - 1) ≤ img.width - 1)
    (hfy : kernel.height / 2 ≤ y0 ∧ y0 - kernel.height / 2 + (kernel.height - 1) ≤ img.height - 1) :
    Realizes id (Dims W H) ((Convolution.new img kernel).ProcessUncheckedVector x0 y0)
      (pix8 (clampedSum img kernel) x0 y0) := by
  intro s hs
  have e : kernel.height - 1 + 1 = kernel.height := by omega
  have e' : kernel.width - 1 + 1 = kernel.width := by omega
  have hrow : ∀ j, 0 ≤ j → j < kernel.height → ∀ sum : M256 α,
      (forLoop 0 kernel.width (fun _ (st : VecRow α) =>
        (img.loadu_ps st.s (y0 - kernel.height / 2 + j)).bind fun a =>
          (kernel.get? st.k j).bind fun k =>
            some ({ sum := fun l => st.sum l + a l * k, s := st.s + 1, k := st.k + 1 } : VecRow α))
        { sum := sum, s := x0 - kernel.width / 2, k := 0 }).bind (fun st => some st.sum)
      = some (fun l => (idx 0 kernel.width).foldl (fun acc i =>
          acc + img.px (clampX img (x0 + (l.val : Int) - kernel.width / 2 + i))
            (clampY img (y0 - kernel.height / 2 + j)) * kernel.px i j) (sum l)) := by
    intro j hj0 hj sum
    have h := loopFrom_fold
      (fun _ (st : VecRow α) =>
        (img.loadu_ps st.s (y0 - kernel.height / 2 + j)).bind fun a =>
          (kernel.get? st.k j).bind fun k =>
            some ({ sum := fun l => st.sum l + a l * k, s := st.s + 1, k := st.k + 1 } : VecRow α))
      (fun i (st : VecRow α) => ⟨fun l => st.sum l +
          img.px (x0 - kernel.width / 2 + i + (l.val : Int)) (y0 - kernel.height / 2 + j)
            * kernel.px i j, st.s + 1, st.k + 1⟩)
      (fun i st => st.s = x0 - kernel.width / 2 + i ∧ st.k = i) 1 (kernel.width - 0).toNat 0
      { sum := sum, s := x0 - kernel.width / 2, k := 0 } ⟨by simp, rfl⟩ (by
        intro i hi st hst
        have hi' := mem_idx.1 hi
        obtain ⟨hs1, hs2⟩ := hst
        refine ⟨?_, by simp only [hs1]; omega, by simp only [hs2]⟩
        beta_reduce
        have hl : img.loadu_ps st.s (y0 - kernel.height / 2 + j)
            = some (fun l => img.px (st.s + (l.val : Int)) (y0 - kernel.height / 2 + j)) := by
          unfold Image.loadu_ps
          rw [if_pos]
          rw [hs1]; unfold Image.inRange; omega
        rw [hl, get?_of_inRange kernel (by rw [hs2]; unfold Image.inRange; omega), hs1, hs2]
        rfl)
    unfold forLoop
    rw [h.1, Option.some_bind, vecRow_fold_sum]
    congr 1
    funext l
    apply List.foldl_ext
    intro acc i hi
    have hi' := mem_idx.1 hi
    have hl := l.isLt
    have ex : clampX img (x0 + (l.val : Int) - kernel.width / 2 + i)
        = x0 - kernel.width / 2 + i + (l.val : Int) := by unfold clampX; omega
    have ey : clampY img (y0 - kernel.height / 2 + j) = y0 - kernel.height / 2 + j := by
      unfold clampY; omega
    rw [ex, ey]
  have hsum : forLoop 0 kernel.height (fun j (sum : M256 α) =>
      (forLoop 0 kernel.width (fun _ (st : VecRow α) =>
        (img.loadu_ps st.s (y0 - kernel.height / 2 + j)).bind fun a =>
          (kernel.get? st.k j).bind fun k =>
            some ({ sum := fun l => st.sum l + a l * k, s := st.s + 1, k := st.k + 1 } : VecRow α))
        { sum := sum, s := x0 - kernel.width / 2, k := 0 }).bind (fun st => some st.sum))
      (fun _ => (0 : α)) = some (fun l => clampedSum img kernel (x0 + (l.val : Int)) y0) := by
    rw [forLoop_pure _ _ 0 kernel.height _ hrow]
    have hlanes := lanes_fold (idx 0 kernel.height) (fun j (l : Fin 8) acc =>
      (idx 0 kernel.width).foldl (fun acc i =>
        acc + img.px (clampX img (x0 + (l.val : Int) - kernel.width / 2 + i))
          (clampY img (y0 - kernel.height / 2 + j)) * kernel.px i j) acc) (fun _ => (0 : α))
    refine congrArg some (hlanes.trans ?_)
    funext l
    rw [clampedSum_eq]
  refine ⟨(s.exec (Op.call Routine.ProcessUncheckedVector x0 y0)).execAll
    (storeOps x0 y0 (fun l => clampedSum img kernel (x0 + (l.val : Int)) y0)), ?_, ?_, rfl⟩
  · simp only [Convolution.ProcessUncheckedVector, Convolution.new, Image.Width, Image.Height,
      e, e', Run.enter, Option.bind_eq_bind, Int.tdiv_eq_ediv hkw (by decide : (0 : Int) ≤ 2),
      Int.tdiv_eq_ediv hkh (by decide : (0 : Int) ≤ 2), Option.pure_def]
    rw [hsum, Option.some_bind]
    unfold Run.storeu_ps
    rw [if_pos]
    unfold Image.inRange Dims at *
    simp only [Run.exec]
    omega
  · exact ⟨(execAll_dims _ _).1.trans hs.1, (execAll_dims _ _).2.1.trans hs.2⟩

end ConvRoutines


/-! ## The region-split drivers -/

section Drivers

variable {α : Type}

theorem Realizes.forLoopDep {σ : Type} {proj : σ → Run α} {I : σ → Prop}
    {body : Int → σ → Option σ} {L : Int → List (Op α)} {lo hi : σ → Int} (a b : Int)
    (hlo : ∀ s, I s → lo s = a) (hhi : ∀ s, I s → hi s = b)
    (h : ∀ i, a ≤ i → i < b → Realizes proj I (body i) (L i)) :
    Realizes proj I (fun s => ImProc.forLoop (lo s) (hi s) body s) ((idx a b).flatMap L) :=
  Realizes.congr (fun s hs => by rw [hlo s hs, hhi s hs]) (Realizes.forLoop a b h)

variable [Zero α] [Add α] [Mul α]

/-- Conditions under which the region split stays inside a `W x H` buffer: the kernel is
non-empty, its vertical centre offset fits in the image and, when interior rows exist, so does
the horizontal one. -/
theorem Perform_realizes (img kernel : Image α) (hW : 1 ≤ img.width) (hH : 1 ≤ img.height)
    (hkw : 1 ≤ kernel.width) (hkh : 1 ≤ kernel.height) (hsy : kernel.height / 2 ≤ img.height)
    (hsx : kernel.height ≤ img.height → kernel.width / 2 ≤ img.width) :
    Realizes id (Dims img.width img.height) (Convolution.new img kernel).Perform
      (driverOps (pix Routine.ProcessChecked (clampedSum img kernel))
        (scalarInner Routine.ProcessUnchecked (clampedSum img kernel) img.width
          (kernel.width / 2) (kernel.width - 1))
        img.width img.height (kernel.width / 2) (kernel.height / 2) (kernel.width - 1)
        (kernel.height - 1)) := by
  have hkw0 : 0 ≤ kernel.width := by omega
  have hkh0 : 0 ≤ kernel.height := by omega
  have chk : ∀ i j, 0 ≤ i → i < img.width → 0 ≤ j → j < img.height →
      Realizes id (Dims img.width img.height) ((Convolution.new img kernel).ProcessChecked i j)
        (pix Routine.ProcessChecked (clampedSum img kernel) i j) :=
    fun i j h1 h2 h3 h4 =>
      ProcessChecked_realizes img kernel _ _ hW hH hkw0 hkh0 i j ⟨h1, h2⟩ ⟨h3, h4⟩
  have e1 : (Convolution.new img kernel).ofsx = kernel.width / 2 :=
    Int.tdiv_eq_ediv hkw0 (by decide)
  have e2 : (Convolution.new img kernel).ofsy = kernel.height / 2 :=
    Int.tdiv_eq_ediv hkh0 (by decide)
  have e3 : (Convolution.new img kernel).kw1 = kernel.width - 1 := rfl
  have e4 : (Convolution.new img kernel).kh1 = kernel.height - 1 := rfl
  unfold Convolution.Perform driverOps scalarInner
  simp only [e1, e2, e3, e4, Image.Width, Image.Height]
  refine Realizes.seq ?_ (Realizes.seq ?_ ?_)
  · refine Realizes.forLoop _ _ (fun j hj0 hj => ?_)
    refine Realizes.forLoopDep _ _ (fun _ _ => rfl) (fun s hs => hs.1) (fun i hi0 hi => ?_)
    exact chk i j hi0 hi hj0 (by omega)
  · refine Realizes.forLoopDep _ _ (fun _ _ => rfl) (fun s hs => by rw [hs.2])
      (fun j hj0 hj => ?_)
    refine Realizes.seq ?_ (Realizes.seq ?_ ?_)
    · refine Realizes.forLoop _ _ (fun i hi0 hi => ?_)
      exact chk i j hi0 (by omega) (by omega) (by omega)
    · refine Realizes.forLoopDep _ _ (fun _ _ => rfl) (fun s hs => by rw [hs.1])
        (fun i hi0 hi => ?_)
      exact ProcessUnchecked_realizes img kernel _ _ hkw0 hkh0 i j ⟨by omega, by omega⟩
        ⟨by omega, by omega⟩ ⟨by omega, by omega⟩ ⟨by omega, by omega⟩
    · refine Realizes.forLoopDep _ _ (fun s hs => by rw [hs.1]) (fun s hs => hs.1)
        (fun i hi0 hi => ?_)
      exact chk i j (by omega) hi (by omega) (by omega)
  · refine Realizes.forLoopDep _ _ (fun s hs => by rw [hs.2]) (fun s hs => hs.2)
      (fun j hj0 hj => ?_)
    refine Realizes.forLoopDep _ _ (fun _ _ => rfl) (fun s hs => hs.1) (fun i hi0 hi => ?_)
    exact chk i j hi0 hi (by omega) hj

theorem PerformOptimized_realizes (img kernel : Image α) (hW : 1 ≤ img.width)
    (hH : 1 ≤ img.height) (hkw : 1 ≤ kernel.width) (hkh : 1 ≤ kernel.height)
    (hsy : kernel.height / 2 ≤ img.height)
    (hsx : kernel.height ≤ img.height → kernel.width / 2 ≤ img.width) :
    Realizes id (Dims img.width img.height) (Convolution.new img kernel).PerformOptimized
      (driverOps (pix Routine.ProcessCheckedOptimized (clampedSum img kernel))
        (scalarInner Routine.ProcessUncheckedOptimized (clampedSum img kernel) img.width
          (kernel.width / 2) (kernel.width - 1))
        img.width img.height (kernel.width / 2) (kernel.height / 2) (kernel.width - 1)
        (kernel.height - 1)) := by
  have hkw0 : 0 ≤ kernel.width := by omega
  have hkh0 : 0 ≤ kernel.height := by omega
  have chk : ∀ i j, 0 ≤ i → i < img.width → 0 ≤ j → j < img.height →
      Realizes id (Dims img.width img.height)
        ((Convolution.new img kernel).ProcessCheckedOptimized i j)
        (pix Routine.ProcessCheckedOptimized (clampedSum img kernel) i j) :=
    fun i j h1 h2 h3 h4 =>
      ProcessCheckedOptimized_realizes img kernel _ _ hW hH hkw hkh0 i j ⟨h1, h2⟩ ⟨h3, h4⟩ h2
  have e1 : (Convolution.new img kernel).ofsx = kernel.width / 2 :=
    Int.tdiv_eq_ediv hkw0 (by decide)
  have e2 : (Convolution.new img kernel).ofsy = kernel.height / 2 :=
    Int.tdiv_eq_ediv hkh0 (by decide)
  have e3 : (Convolution.new img kernel).kw1 = kernel.width - 1 := rfl
  have e4 : (Convolution.new img kernel).kh1 = kernel.height - 1 := rfl
  unfold Convolution.PerformOptimized driverOps scalarInner
  simp only [e1, e2, e3, e4, Image.Width, Image.Height]
  refine Realizes.seq ?_ (Realizes.seq ?_ ?_)
  · refine Realizes.forLoop _ _ (fun j hj0 hj => ?_)
    refine Realizes.forLoopDep _ _ (fun _ _ => rfl) (fun s hs => hs.1) (fun i hi0 hi => ?_)
    exact chk i j hi0 hi hj0 (by omega)
  · refine Realizes.forLoopDep _ _ (fun _ _ => rfl) (fun s hs => by rw [hs.2])
      (fun j hj0 hj => ?_)
    refine Realizes.seq ?_ (Realizes.seq ?_ ?_)
    · refine Realizes.forLoop _ _ (fun i hi0 hi => ?_)
      exact chk i j hi0 (by omega) (by omega) (by omega)
    · refine Realizes.forLoopDep _ _ (fun _ _ => rfl) (fun s hs => by rw [hs.1])
        (fun i hi0 hi => ?_)
      exact ProcessUncheckedOptimized_realizes img kernel _ _ hkw0 hkh0 i j ⟨by omega, by omega⟩
        ⟨by omega, by omega⟩ ⟨by omega, by omega⟩ ⟨by omega, by omega⟩
    · refine Realizes.forLoopDep _ _ (fun s hs => by rw [hs.1]) (fun s hs => hs.1)
        (fun i hi0 hi => ?_)
      exact chk i j (by omega) hi (by omega) (by omega)
  · refine Realizes.forLoopDep _ _ (fun s hs => by rw [hs.2]) (fun s hs => hs.2)
      (fun j hj0 hj => ?_)
    refine Realizes.forLoopDep _ _ (fun _ _ => rfl) (fun s hs => hs.1) (fun i hi0 hi => ?_)
    exact chk i j hi0 hi (by omega) hj

omit [Zero α] [Add α] [Mul α] in
/-- The value `w8 = n / 8 * 8` of C++ (truncating division) against floor division. -/
theorem tdiv8_cases (n : Int) :
    (0 ≤ n ∧ Int.tdiv n 8 * 8 = n / 8 * 8) ∨
      (n < 0 ∧ n ≤ Int.tdiv n 8 * 8 ∧ Int.tdiv n 8 * 8 ≤ 0) := by
  by_cases h : 0 ≤ n
  · exact Or.inl ⟨h, by rw [Int.tdiv_eq_ediv h (by decide)]⟩
  · right
    have e : Int.tdiv n 8 = -((-n) / 8) := by
      have h1 : Int.tdiv (-(-n)) 8 = -(Int.tdiv (-n) 8) := Int.neg_tdiv _ _
      rw [Int.neg_neg] at h1
      rw [h1, Int.tdiv_eq_ediv (by omega) (by decide)]
    rw [e]
    omega

theorem PerformVector_realizes (img kernel : Image α) (hW : 1 ≤ img.width)
    (hH : 1 ≤ img.height) (hkw : 1 ≤ kernel.width) (hkh : 1 ≤ kernel.height)
    (hsy : kernel.height / 2 ≤ img.height)
    (hsx : kernel.height ≤ img.height → kernel.width / 2 ≤ img.width) :
    Realizes id (Dims img.width img.height) (Convolution.new img kernel).PerformVector
      (driverOps (pix Routine.ProcessCheckedOptimized (clampedSum img kernel))
        (vectorInner (clampedSum img kernel) img.width (kernel.width / 2) (kernel.width - 1))
        img.width img.height (kernel.width / 2) (kernel.height / 2) (kernel.width - 1)
        (kernel.height - 1)) := by
  have hkw0 : 0 ≤ kernel.width := by omega
  have hkh0 : 0 ≤ kernel.height := by omega
  have chk : ∀ i j, 0 ≤ i → i < img.width → 0 ≤ j → j < img.height →
      Realizes id (Dims img.width img.height)
        ((Convolution.new img kernel).ProcessCheckedOptimized i j)
        (pix Routine.ProcessCheckedOptimized (clampedSum img kernel) i j) :=
    fun i j h1 h2 h3 h4 =>
      ProcessCheckedOptimized_realizes img kernel _ _ hW hH hkw hkh0 i j ⟨h1, h2⟩ ⟨h3, h4⟩ h2
  have e1 : (Convolution.new img kernel).ofsx = kernel.width / 2 :=
    Int.tdiv_eq_ediv hkw0 (by decide)
  have e2 : (Convolution.new img kernel).ofsy = kernel.height / 2 :=
    Int.tdiv_eq_ediv hkh0 (by decide)
  have e3 : (Convolution.new img kernel).kw1 = kernel.width - 1 := rfl
  have e4 : (Convolution.new img kernel).kh1 = kernel.height - 1 := rfl
  have h8 := tdiv8_cases (img.width - (kernel.width - 1))
  intro s hs
  have hw : s.res.width = img.width := hs.1
  unfold Convolution.PerformVector driverOps vectorInner
  simp only [e1, e2, e3, e4, Image.Width, Image.Height, hw, List.append_assoc]
  refine (Realizes.seq ?_ (Realizes.seq ?_ ?_)) s hs
  · refine Realizes.forLoop _ _ (fun j hj0 hj => ?_)
    refine Realizes.forLoopDep _ _ (fun _ _ => rfl) (fun s hs => hs.1) (fun i hi0 hi => ?_)
    exact chk i j hi0 hi hj0 (by omega)
  · refine Realizes.forLoopDep _ _ (fun _ _ => rfl) (fun s hs => by rw [hs.2])
      (fun j hj0 hj => ?_)
    refine Realizes.seq ?_ (Realizes.seq ?_ (Realizes.seq ?_ ?_))
    · refine Realizes.forLoop _ _ (fun i hi0 hi => ?_)
      exact chk i j hi0 (by omega) (by omega) (by omega)
    · refine Realizes.forLoop8 _ _ (fun i hi0 hi hm => ?_)
      exact ProcessUncheckedVector_realizes img kernel _ _ hkw0 hkh0 (i + kernel.width / 2) j
        ⟨by omega, by omega⟩ ⟨by omega, by omega⟩ ⟨by omega, by omega⟩ ⟨by omega, by omega⟩
    · refine Realizes.forLoopDep _ _ (fun _ _ => rfl) (fun s hs => by rw [hs.1])
        (fun i hi0 hi => ?_)
      exact ProcessUncheckedOptimized_realizes img kernel _ _ hkw0 hkh0 (i + kernel.width / 2) j
        ⟨by omega, by omega⟩ ⟨by omega, by omega⟩ ⟨by omega, by omega⟩ ⟨by omega, by omega⟩
    · refine Realizes.forLoopDep _ _ (fun s hs => by rw [hs.1]) (fun s hs => hs.1)
        (fun i hi0 hi => ?_)
      exact chk i j (by omega) hi (by omega) (by omega)
  · refine Realizes.forLoopDep _ _ (fun s hs => by rw [hs.2]) (fun s hs => hs.2)
      (fun j hj0 hj => ?_)
    refine Realizes.forLoopDep _ _ (fun _ _ => rfl) (fun s hs => hs.1) (fun i hi0 hi => ?_)
    exact chk i j hi0 hi (by omega) hj

end Drivers

/-! ## What the region split writes -/

section Coverage

variable {α : Type}

theorem callsOf_flatMap {β : Type} (l : List β) (f : β → List (Op α)) :
    callsOf (l.flatMap f) = l.flatMap (fun b => callsOf (f b)) := by
  induction l with
  | nil => rfl
  | cons b l ih => simp [List.flatMap_cons, callsOf_append, ih]

theorem writesOf_pix (r : Routine) (V : Int → Int → α) (x y : Int) :
    writesOf (pix r V x y) = [(x, y)] := rfl

theorem callsOf_pix (r : Routine) (V : Int → Int → α) (x y : Int) :
    callsOf (pix r V x y) = [(r, x, y)] := rfl

theorem writesOf_map_write {β : Type} (L : List β) (fx fy : β → Int) (fv : β → α) :
    writesOf (L.map (fun l => Op.write (fx l) (fy l) (fv l))) = L.map (fun l => (fx l, fy l)) := by
  induction L with
  | nil => rfl
  | cons b L ih => simp [writesOf, ih]

theorem callsOf_map_write {β : Type} (L : List β) (fx fy : β → Int) (fv : β → α) :
    callsOf (L.map (fun l => Op.write (fx l) (fy l) (fv l))) = [] := by
  induction L with
  | nil => rfl
  | cons b L ih => simp [callsOf, ih]

theorem mem_writesOf_storeOps {x y : Int} {v : M256 α} {p : Int × Int} :
    p ∈ writesOf (storeOps x y v) ↔ p.2 = y ∧ x ≤ p.1 ∧ p.1 < x + 8 := by
  unfold storeOps
  rw [writesOf_map_write (List.finRange 8) (fun l => x + (l.val : Int)) (fun _ => y) v]
  simp only [List.mem_map, List.mem_finRange, true_and]
  constructor
  · rintro ⟨l, rfl⟩
    have := l.isLt
    exact ⟨rfl, by dsimp only; omega, by dsimp only; omega⟩
  · rintro ⟨h1, h2, h3⟩
    refine ⟨⟨(p.1 - x).toNat, by omega⟩, ?_⟩
    ext
    · simp only; omega
    · simp only [h1]

theorem mem_writesOf_pix8 {V : Int → Int → α} {x y : Int} {p : Int × Int} :
    p ∈ writesOf (pix8 V x y) ↔ p.2 = y ∧ x ≤ p.1 ∧ p.1 < x + 8 := by
  exact mem_writesOf_storeOps (v := fun l => V (x + (l.val : Int)) y)

theorem callsOf_pix8 (V : Int → Int → α) (x y : Int) :
    callsOf (pix8 V x y) = [(Routine.ProcessUncheckedVector, x, y)] := by
  unfold pix8 storeOps
  simp only [callsOf]

theorem Coherent.pix (r : Routine) (V : Int → Int → α) (x y : Int) : Coherent V (pix r V x y) := by
  intro a b v hv
  simp [ImProc.pix] at hv
  obtain ⟨rfl, rfl, rfl⟩ := hv; rfl

theorem Coherent.pix8 (V : Int → Int → α) (x y : Int) : Coherent V (pix8 V x y) := by
  intro a b v hv
  simp only [ImProc.pix8, storeOps, List.mem_cons, List.mem_map, List.mem_finRange, true_and]
    at hv
  rcases hv with h | ⟨l, h⟩
  · exact Op.noConfusion h
  · simp only [Op.write.injEq] at h
    obtain ⟨rfl, rfl, rfl⟩ := h; rfl

theorem Coherent.driverOps {V : Int → Int → α} {b : Int → Int → List (Op α)}
    {inner : Int → List (Op α)} (W H ofsx ofsy kw1 kh1 : Int)
    (hb : ∀ i j, Coherent V (b i j)) (hin : ∀ j, Coherent V (inner j)) :
    Coherent V (ImProc.driverOps b inner W H ofsx ofsy kw1 kh1) := by
  unfold ImProc.driverOps
  refine Coherent.append ?_ (Coherent.append ?_ ?_)
  · exact Coherent.flatMap (fun j _ => Coherent.flatMap (fun i _ => hb i j))
  · refine Coherent.flatMap (fun j _ => ?_)
    exact Coherent.append (Coherent.flatMap (fun i _ => hb i j))
      (Coherent.append (hin j) (Coherent.flatMap (fun i _ => hb i j)))
  · exact Coherent.flatMap (fun j _ => Coherent.flatMap (fun i _ => hb i j))

theorem Coherent.scalarInner (r : Routine) (V : Int → Int → α) (W ofsx kw1 j : Int) :
    Coherent V (scalarInner r V W ofsx kw1 j) :=
  Coherent.flatMap (fun i _ => Coherent.pix r V i j)

theorem Coherent.vectorInner (V : Int → Int → α) (W ofsx kw1 j : Int) :
    Coherent V (vectorInner V W ofsx kw1 j) :=
  Coherent.append (Coherent.flatMap (fun i _ => Coherent.pix8 V (i + ofsx) j))
    (Coherent.flatMap (fun i _ => Coherent.pix _ V (i + ofsx) j))

/-- Every pixel of the `W x H` plane is written by the region split. -/
theorem covered_driverOps {b : Int → Int → List (Op α)} {inner : Int → List (Op α)}
    (W H ofsx ofsy kw1 kh1 : Int) (hb : ∀ i j, (i, j) ∈ writesOf (b i j))
    (hin : ∀ j x, ofsx ≤ x → x < W + ofsx - kw1 → (x, j) ∈ writesOf (inner j))
    (x y : Int) (hx : 0 ≤ x ∧ x < W) (hy : 0 ≤ y ∧ y < H) :
    (x, y) ∈ writesOf (driverOps b inner W H ofsx ofsy kw1 kh1) := by
  unfold driverOps
  simp only [writesOf_append, writesOf_flatMap, List.mem_append, List.mem_flatMap, mem_idx]
  by_cases h1 : y < ofsy
  · exact Or.inl ⟨y, ⟨hy.1, h1⟩, x, hx, hb x y⟩
  · by_cases h2 : y < H + ofsy - kh1
    · refine Or.inr (Or.inl ⟨y, ⟨by omega, h2⟩, ?_⟩)
      by_cases h3 : x < ofsx
      · exact Or.inl ⟨x, ⟨hx.1, h3⟩, hb x y⟩
      · by_cases h4 : x < W + ofsx - kw1
        · exact Or.inr (Or.inl (hin y x (by omega) h4))
        · exact Or.inr (Or.inr ⟨x, ⟨by omega, hx.2⟩, hb x y⟩)
    · exact Or.inr (Or.inr ⟨y, ⟨by omega, hy.2⟩, x, hx, hb x y⟩)

theorem covered_scalarInner (r : Routine) (V : Int → Int → α) (W ofsx kw1 j x : Int)
    (h1 : ofsx ≤ x) (h2 : x < W + ofsx - kw1) :
    (x, j) ∈ writesOf (scalarInner r V W ofsx kw1 j) := by
  unfold scalarInner
  simp only [writesOf_flatMap, List.mem_flatMap, mem_idx, writesOf_pix, List.mem_singleton]
  exact ⟨x, ⟨h1, h2⟩, rfl⟩

theorem covered_vectorInner (V : Int → Int → α) (W ofsx kw1 j x : Int)
    (h1 : ofsx ≤ x) (h2 : x < W + ofsx - kw1) :
    (x, j) ∈ writesOf (vectorInner V W ofsx kw1 j) := by
  unfold vectorInner
  simp only [writesOf_append, writesOf_flatMap, List.mem_append, List.mem_flatMap, mem_idx,
    mem_idx8, writesOf_pix, List.mem_singleton, mem_writesOf_pix8, Prod.mk.injEq]
  rcases tdiv8_cases (W - kw1) with ⟨h0, e⟩ | ⟨h0, _, _⟩
  · rw [e]
    by_cases h3 : x - ofsx < (W - kw1) / 8 * 8
    · exact Or.inl ⟨(x - ofsx) / 8 * 8, by omega, trivial, by omega, by omega⟩
    · exact Or.inr ⟨x - ofsx, by omega, by omega, trivial⟩
  · omega

end Coverage


/-! ## Results of the drivers -/

section DriverResults

variable {α : Type}

theorem inRange_driverOps {b : Int → Int → List (Op α)} {inner : Int → List (Op α)}
    (W H kw kh : Int) (hkw : 1 ≤ kw) (hkh : 1 ≤ kh) (hsy : kh / 2 ≤ H)
    (hsx : kh ≤ H → kw / 2 ≤ W)
    (hb : ∀ i j p, p ∈ writesOf (b i j) → p = (i, j))
    (hin : ∀ j p, p ∈ writesOf (inner j) →
      p.2 = j ∧ kw / 2 ≤ p.1 ∧ p.1 < W + kw / 2 - (kw - 1))
    (p : Int × Int) (hp : p ∈ writesOf (driverOps b inner W H (kw / 2) (kh / 2) (kw - 1) (kh - 1))) :
    0 ≤ p.1 ∧ p.1 < W ∧ 0 ≤ p.2 ∧ p.2 < H := by
  unfold driverOps at hp
  simp only [writesOf_append, writesOf_flatMap, List.mem_append, List.mem_flatMap, mem_idx] at hp
  rcases hp with ⟨j, hj, i, hi, h⟩ | ⟨j, hj, h | h | ⟨i, hi, h⟩⟩ | ⟨j, hj, i, hi, h⟩
  · rw [hb i j p h]; dsimp only; omega
  · obtain ⟨i, hi, h⟩ := h
    rw [hb i j p h]; dsimp only; omega
  · have := hin j p h
    omega
  · rw [hb i j p h]; dsimp only; omega
  · rw [hb i j p h]; dsimp only; omega

theorem writes_scalarInner (r : Routine) (V : Int → Int → α) (W ofsx kw1 j : Int)
    (p : Int × Int) (hp : p ∈ writesOf (scalarInner r V W ofsx kw1 j)) :
    p.2 = j ∧ ofsx ≤ p.1 ∧ p.1 < W + ofsx - kw1 := by
  unfold scalarInner at hp
  simp only [writesOf_flatMap, List.mem_flatMap, mem_idx, writesOf_pix, List.mem_singleton] at hp
  obtain ⟨i, hi, rfl⟩ := hp
  exact ⟨rfl, hi.1, hi.2⟩

theorem writes_vectorInner (V : Int → Int → α) (W ofsx kw1 j : Int)
    (p : Int × Int) (hp : p ∈ writesOf (vectorInner V W ofsx kw1 j)) :
    p.2 = j ∧ ofsx ≤ p.1 ∧ p.1 < W + ofsx - kw1 := by
  unfold vectorInner at hp
  simp only [writesOf_append, writesOf_flatMap, List.mem_append, List.mem_flatMap, mem_idx,
    mem_idx8, writesOf_pix, List.mem_singleton, mem_writesOf_pix8] at hp
  rcases tdiv8_cases (W - kw1) with ⟨h0, e⟩ | ⟨h0, h1, h2⟩
  · rw [e] at hp
    rcases hp with ⟨i, hi, h⟩ | ⟨i, hi, rfl⟩
    · omega
    · dsimp only; omega
  · rcases hp with ⟨i, hi, h⟩ | ⟨i, hi, rfl⟩
    · omega
    · dsimp only; omega

/-- The final state of a driver that realizes a coherent, covering, in-range sequence of steps. -/
theorem driver_result {f : Run α → Option (Run α)} {ops : List (Op α)} {V : Int → Int → α}
    {W H : Int} (hR : Realizes id (Dims W H) f ops) (hc : Coherent V ops)
    (hcov : ∀ x y, 0 ≤ x ∧ x < W → 0 ≤ y ∧ y < H → (x, y) ∈ writesOf ops)
    (hin : ∀ p ∈ writesOf ops, 0 ≤ p.1 ∧ p.1 < W ∧ 0 ≤ p.2 ∧ p.2 < H)
    (res : Image α) (hw : res.width = W) (hh : res.height = H) :
    f (Run.init res) = some
      { res := res.fill V, writes := writesOf ops, calls := callsOf ops } := by
  obtain ⟨s', e, -, hs'⟩ := hR (Run.init res) ⟨hw, hh⟩
  rw [e]
  congr 1
  simp only [id] at hs'
  have hd := execAll_dims (Run.init res) ops
  have hwr := execAll_writes (Run.init res) ops
  have hca := execAll_calls (Run.init res) ops
  have hpx := execAll_px V (Run.init res) ops hc
  rw [← hs'] at hd hwr hca hpx
  obtain ⟨r, w, c⟩ := s'
  obtain ⟨rw', rh, rs, rp⟩ := r
  simp only [Run.init, List.nil_append] at hd hwr hca hpx
  subst hwr hca
  have hp : rp = (res.fill V).px := by
    funext x y
    rw [hpx x y]
    simp only [Image.fill, Image.inRange]
    by_cases hm : (x, y) ∈ writesOf ops
    · have := hin _ hm
      simp only at this
      rw [if_pos hm, if_pos (by omega)]
    · have : ¬ (0 ≤ x ∧ x < res.width ∧ 0 ≤ y ∧ y < res.height) := by
        intro h
        exact hm (hcov x y ⟨h.1, by omega⟩ ⟨h.2.2.1, by omega⟩)
      rw [if_neg hm, if_neg this]
  subst hp
  obtain ⟨h1, h2, h3⟩ := hd
  subst h1 h2 h3
  rfl

end DriverResults


section PerformResults

variable {α : Type} [Zero α] [Add α] [Mul α]

omit [Zero α] [Add α] [Mul α] in
theorem writes_pix (r : Routine) (V : Int → Int → α) (i j : Int) (p : Int × Int)
    (h : p ∈ writesOf (pix r V i j)) : p = (i, j) := by
  rw [writesOf_pix] at h
  exact List.mem_singleton.1 h

omit [Zero α] [Add α] [Mul α] in
theorem mem_writes_pix (r : Routine) (V : Int → Int → α) (i j : Int) :
    (i, j) ∈ writesOf (pix r V i j) := by
  rw [writesOf_pix]
  exact List.mem_singleton.2 rfl

/-- The steps of `Perform` on a `W x H` image with a `kw x kh` kernel. -/
theorem Perform_eq (img kernel res : Image α) (hW : 1 ≤ img.width) (hH : 1 ≤ img.height)
    (hkw : 1 ≤ kernel.width) (hkh : 1 ≤ kernel.height) (hsy : kernel.height / 2 ≤ img.height)
    (hsx : kernel.height ≤ img.height → kernel.width / 2 ≤ img.width)
    (hw : res.width = img.width) (hh : res.height = img.height) :
    (Convolution.new img kernel).Perform (Run.init res) = some
      { res := res.fill (clampedSum img kernel),
        writes := writesOf (performOps img kernel),
        calls := callsOf (performOps img kernel) } :=
  driver_result (Perform_realizes img kernel hW hH hkw hkh hsy hsx)
    (Coherent.driverOps _ _ _ _ _ _ (fun i j => Coherent.pix _ _ i j)
      (fun j => Coherent.scalarInner _ _ _ _ _ j))
    (covered_driverOps _ _ _ _ _ _ (fun i j => mem_writes_pix _ _ i j)
      (fun j x => covered_scalarInner _ _ _ _ _ j x))
    (inRange_driverOps _ _ _ _ hkw hkh hsy hsx (fun i j => writes_pix _ _ i j)
      (fun j => writes_scalarInner _ _ _ _ _ j))
    res hw hh

/-- The steps of `PerformOptimized`. -/
theorem PerformOptimized_eq (img kernel res : Image α) (hW : 1 ≤ img.width)
    (hH : 1 ≤ img.height) (hkw : 1 ≤ kernel.width) (hkh : 1 ≤ kernel.height)
    (hsy : kernel.height / 2 ≤ img.height)
    (hsx : kernel.height ≤ img.height → kernel.width / 2 ≤ img.width)
    (hw : res.width = img.width) (hh : res.height = img.height) :
    (Convolution.new img kernel).PerformOptimized (Run.init res) = some
      { res := res.fill (clampedSum img kernel),
        writes := writesOf (performOptimizedOps img kernel),
        calls := callsOf (performOptimizedOps img kernel) } :=
  driver_result (PerformOptimized_realizes img kernel hW hH hkw hkh hsy hsx)
    (Coherent.driverOps _ _ _ _ _ _ (fun i j => Coherent.pix _ _ i j)
      (fun j => Coherent.scalarInner _ _ _ _ _ j))
    (covered_driverOps _ _ _ _ _ _ (fun i j => mem_writes_pix _ _ i j)
      (fun j x => covered_scalarInner _ _ _ _ _ j x))
    (inRange_driverOps _ _ _ _ hkw hkh hsy hsx (fun i j => writes_pix _ _ i j)
      (fun j => writes_scalarInner _ _ _ _ _ j))
    res hw hh

/-- The steps of `PerformVector`. -/
theorem PerformVector_eq (img kernel res : Image α) (hW : 1 ≤ img.width)
    (hH : 1 ≤ img.height) (hkw : 1 ≤ kernel.width) (hkh : 1 ≤ kernel.height)
    (hsy : kernel.height / 2 ≤ img.height)
    (hsx : kernel.height ≤ img.height → kernel.width / 2 ≤ img.width)
    (hw : res.width = img.width) (hh : res.height = img.height) :
    (Convolution.new img kernel).PerformVector (Run.init res) = some
      { res := res.fill (clampedSum img kernel),
        writes := writesOf (performVectorOps img kernel),
        calls := callsOf (performVectorOps img kernel) } :=
  driver_result (PerformVector_realizes img kernel hW hH hkw hkh hsy hsx)
    (Coherent.driverOps _ _ _ _ _ _ (fun i j => Coherent.pix _ _ i j)
      (fun j => Coherent.vectorInner _ _ _ _ j))
    (covered_driverOps _ _ _ _ _ _ (fun i j => mem_writes_pix _ _ i j)
      (fun j x => covered_vectorInner _ _ _ _ j x))
    (inRange_driverOps _ _ _ _ hkw hkh hsy hsx (fun i j => writes_pix _ _ i j)
      (fun j => writes_vectorInner _ _ _ _ j))
    res hw hh

omit [Zero α] [Add α] [Mul α] in
theorem fill_px (res : Image α) (V : Int → Int → α) {x y : Int} (hx : 0 ≤ x ∧ x < res.width)
    (hy : 0 ≤ y ∧ y < res.height) : (res.fill V).px x y = V x y := by
  simp only [Image.fill, Image.inRange]
  rw [if_pos (by omega)]

end PerformResults


/-! ## Claims on the correlation engine -/

section ConvolutionClaims

variable {α : Type} [Zero α] [Add α] [Mul α]

/-- C1: for an image of size `W x H`, a kernel of size `kw x kh` with `1 <= kw <= W` and
`1 <= kh <= H` and a result buffer of the image's size, `Perform` terminates without fault and
every output pixel `(x0, y0)` with `0 <= x0 < W`, `0 <= y0 < H` holds the clamped sum of the data
model (sum over `j`, `i` of `img(clampX(x0-ofsx+i), clampY(y0-ofsy+j)) * kernel(i,j)`, accumulated
from 0 in row-major kernel order), for even and odd kernel extents, border and interior pixels. -/
theorem C1_Perform_clamped_sum (img kernel res : Image α)
    (hkw : 1 ≤ kernel.width ∧ kernel.width ≤ img.width)
    (hkh : 1 ≤ kernel.height ∧ kernel.height ≤ img.height)
    (hres : res.width = img.width ∧ res.height = img.height) :
    ∃ s', (Convolution.new img kernel).Perform (Run.init res) = some s' ∧
      ∀ x0 y0, 0 ≤ x0 → x0 < img.width → 0 ≤ y0 → y0 < img.height →
        s'.res.px x0 y0 = clampedSum img kernel x0 y0 := by
  refine ⟨_, Perform_eq img kernel res (by omega) (by omega) hkw.1 hkh.1 (by omega)
    (fun _ => by omega) hres.1 hres.2, ?_⟩
  intro x0 y0 h1 h2 h3 h4
  exact fill_px res _ (by omega) (by omega)

/-- Witness of C1 on a 5 x 4 image with a 2 x 3 kernel. -/
theorem C1_Perform_clamped_sum_witness :
    ((1 : Int) ≤ sampleKernel.width ∧ sampleKernel.width ≤ sampleImage.width) ∧
      ∃ s', (Convolution.new sampleImage sampleKernel).Perform (Run.init (constImage 5 4 0))
          = some s' ∧
        ∀ x0 y0, 0 ≤ x0 → x0 < sampleImage.width → 0 ≤ y0 → y0 < sampleImage.height →
          s'.res.px x0 y0 = clampedSum sampleImage sampleKernel x0 y0 :=
  ⟨by decide, C1_Perform_clamped_sum sampleImage sampleKernel (constImage 5 4 0) (by decide)
    (by decide) (by decide)⟩

omit [Zero α] [Add α] [Mul α] in
theorem px_execAll_pix (s : Run α) (r : Routine) (V : Int → Int → α) (x y : Int) :
    (s.execAll (pix r V x y)).res.px x y = V x y := by
  rw [execAll_px V s _ (Coherent.pix r V x y), if_pos (mem_writes_pix r V x y)]

omit [Zero α] [Add α] [Mul α] in
theorem px_execAll_pix8 (s : Run α) (V : Int → Int → α) (x y : Int) (l : Fin 8) :
    (s.execAll (pix8 V x y)).res.px (x + (l.val : Int)) y = V (x + (l.val : Int)) y := by
  have hl := l.isLt
  have hm : (x + (l.val : Int), y) ∈ writesOf (pix8 V x y) :=
    mem_writesOf_pix8.2 ⟨rfl, by dsimp only; omega, by dsimp only; omega⟩
  rw [execAll_px V s _ (Coherent.pix8 V x y), if_pos hm]

/-- In every interior row of `PerformVector` the interior columns beyond the last full group
of 8 (`ofsx + w8 <= x < W + ofsx - kw1` with `w8 = (W - kw1) / 8 * 8`) are processed by the scalar
routine `ProcessUncheckedOptimized`. -/
theorem PerformVector_scalar_tail (img kernel res : Image α)
    (hkw : 1 ≤ kernel.width ∧ kernel.width ≤ img.width)
    (hkh : 1 ≤ kernel.height ∧ kernel.height ≤ img.height)
    (hres : res.width = img.width ∧ res.height = img.height) :
    ∃ s₁, (Convolution.new img kernel).PerformVector (Run.init res) = some s₁ ∧
      ∀ x y, kernel.height / 2 ≤ y → y < img.height + kernel.height / 2 - (kernel.height - 1) →
        kernel.width / 2 + (img.width - (kernel.width - 1)) / 8 * 8 ≤ x →
        x < img.width + kernel.width / 2 - (kernel.width - 1) →
        (Routine.ProcessUncheckedOptimized, x, y) ∈ s₁.calls := by
  have hW : 1 ≤ img.width := by omega
  have hH : 1 ≤ img.height := by omega
  refine ⟨_, PerformVector_eq img kernel res hW hH hkw.1 hkh.1 (by omega)
    (fun _ => by omega) hres.1 hres.2, ?_⟩
  intro x y hy1 hy2 hx1 hx2
  show _ ∈ callsOf (performVectorOps img kernel)
  unfold performVectorOps driverOps vectorInner
  simp only [callsOf_append, callsOf_flatMap, List.mem_append, List.mem_flatMap, mem_idx,
    callsOf_pix, List.mem_singleton, Prod.mk.injEq]
  rw [Int.tdiv_eq_ediv (by omega) (by decide)]
  exact Or.inr (Or.inl ⟨y, ⟨hy1, hy2⟩, Or.inr (Or.inl (Or.inr
    ⟨x - kernel.width / 2, ⟨by omega, by omega⟩, trivial, by omega, rfl⟩))⟩)

/-- C3: for an image of size `W x H`, a kernel with `1 <= kw <= W`, `1 <= kh <= H` and a result
buffer of the image's size, `PerformOptimized` and `Perform` both terminate without fault and
leave the same result buffer: equal at every pixel, not merely within a tolerance, since the two
accumulate the same products in the same order. -/
theorem C3_PerformOptimized_eq_Perform (img kernel res : Image α)
    (hkw : 1 ≤ kernel.width ∧ kernel.width ≤ img.width)
    (hkh : 1 ≤ kernel.height ∧ kernel.height ≤ img.height)
    (hres : res.width = img.width ∧ res.height = img.height) :
    ∃ s₁ s₂, (Convolution.new img kernel).PerformOptimized (Run.init res) = some s₁ ∧
      (Convolution.new img kernel).Perform (Run.init res) = some s₂ ∧ s₁.res = s₂.res ∧
      ∀ x y, s₁.res.px x y = s₂.res.px x y :=
  ⟨_, _, PerformOptimized_eq img kernel res (by omega) (by omega) hkw.1 hkh.1 (by omega)
      (fun _ => by omega) hres.1 hres.2, Perform_eq img kernel res (by omega) (by omega) hkw.1
      hkh.1 (by omega) (fun _ => by omega) hres.1 hres.2, rfl, fun _ _ => rfl⟩

/-- Witness of C3 on a 5 x 4 image with a 2 x 3 kernel. -/
theorem C3_PerformOptimized_eq_Perform_witness :
    ((1 : Int) ≤ sampleKernel.height ∧ sampleKernel.height ≤ sampleImage.height) ∧
      ∃ s₁ s₂, (Convolution.new sampleImage sampleKernel).PerformOptimized
          (Run.init (constImage 5 4 0)) = some s₁ ∧
        (Convolution.new sampleImage sampleKernel).Perform (Run.init (constImage 5 4 0))
          = some s₂ ∧ s₁.res = s₂.res ∧ ∀ x y, s₁.res.px x y = s₂.res.px x y :=
  ⟨by decide, C3_PerformOptimized_eq_Perform sampleImage sampleKernel (constImage 5 4 0)
    (by decide) (by decide) (by decide)⟩


end ConvolutionClaims


/-! ## Rotation -/

section Rotation

variable {α : Type}

theorem nodup_indices_one (a : Int) (n : Nat) : (indices 1 a n).Nodup := by
  induction n generalizing a with
  | zero => simp [indices]
  | succ n ih =>
    simp only [indices, List.nodup_cons, mem_indices_one]
    exact ⟨by omega, ih _⟩

theorem nodup_idx (a b : Int) : (idx a b).Nodup := nodup_indices_one _ _

theorem nodup_flatMap_idx {γ : Type} (a b : Int) (f : Int → List γ) (hf : ∀ i, (f i).Nodup)
    (hd : ∀ i i', i ≠ i' → ∀ c, c ∈ f i → c ∈ f i' → False) : ((idx a b).flatMap f).Nodup := by
  rw [List.nodup_flatMap]
  refine ⟨fun i _ => hf i, ?_⟩
  refine List.Nodup.pairwise_of_forall_ne (nodup_idx a b) (fun i _ i' _ hne => ?_)
  intro c h1 h2
  exact hd i i' hne c h1 h2

theorem count_eq_one_of_nodup_mem {l : List (Int × Int)} {p : Int × Int} (hn : l.Nodup)
    (hm : p ∈ l) : l.count p = 1 := by
  induction l with
  | nil => simp at hm
  | cons b l ih =>
    rw [List.nodup_cons] at hn
    rw [List.count_cons]
    rcases List.mem_cons.1 hm with rfl | h
    · have h0 : List.count p l = 0 := List.count_eq_zero.2 hn.1
      simp [h0]
    · have hne : ¬ (b == p) = true := by
        intro hb
        rw [beq_iff_eq] at hb
        subst hb
        exact hn.1 h
      simp [ih hn.2 h, hne]

/-- A body that reads `src (i, j)` and stores it at `(x, y)`. -/
theorem Realizes.copy (src : Image α) (W H i j x y : Int) (hsrc : src.inRange i j)
    (hx : 0 ≤ x ∧ x < W) (hy : 0 ≤ y ∧ y < H) :
    Realizes id (Dims W H) (fun s => do
      let v ← src.get? i j
      s.store x y v) [Op.write x y (src.px i j)] := by
  intro s hs
  refine ⟨s.exec (Op.write x y (src.px i j)), ?_, hs, rfl⟩
  rw [get?_of_inRange src hsrc]
  simp only [Option.bind_eq_bind, Option.some_bind]
  apply store_of_inRange
  unfold Image.inRange Dims at *
  omega

theorem Rotate180_realizes (src : Image α) :
    Realizes id (Dims src.width src.height) (Rotate180 src) (rotateOps src) := by
  unfold Rotate180 rotateOps
  simp only [Image.Width, Image.Height, Int.sub_add_cancel]
  refine Realizes.forLoop _ _ (fun j hj0 hj => ?_)
  refine Realizes.forLoop _ _ (fun i hi0 hi => ?_)
  exact Realizes.copy src _ _ i j _ _ ⟨hi0, hi, hj0, hj⟩ ⟨by omega, by omega⟩
    ⟨by omega, by omega⟩

theorem mem_writes_rotateOps (src : Image α) (p : Int × Int) :
    p ∈ writesOf (rotateOps src) ↔ 0 ≤ p.1 ∧ p.1 < src.width ∧ 0 ≤ p.2 ∧ p.2 < src.height := by
  unfold rotateOps
  simp only [writesOf_flatMap, List.mem_flatMap, mem_idx, writesOf, List.mem_singleton]
  constructor
  · rintro ⟨j, hj, i, hi, rfl⟩
    dsimp only
    omega
  · intro h
    refine ⟨src.height - 1 - p.2, by omega, src.width - 1 - p.1, by omega, ?_⟩
    ext <;> dsimp only <;> omega

theorem coherent_rotateOps (src : Image α) : Coherent (rotated src) (rotateOps src) := by
  intro x y v hv
  unfold rotateOps at hv
  simp only [List.mem_flatMap, mem_idx, List.mem_singleton, Op.write.injEq] at hv
  obtain ⟨j, -, i, -, rfl, rfl, rfl⟩ := hv
  unfold rotated
  congr 1 <;> omega

theorem nodup_writes_rotateOps (src : Image α) : (writesOf (rotateOps src)).Nodup := by
  unfold rotateOps
  simp only [writesOf_flatMap, writesOf]
  refine nodup_flatMap_idx _ _ _ (fun j => ?_) ?_
  · refine nodup_flatMap_idx _ _ _ (fun i => List.nodup_singleton _) ?_
    intro i i' hne c h1 h2
    rw [List.mem_singleton] at h1 h2
    rw [h1] at h2
    simp only [Prod.mk.injEq] at h2
    omega
  · intro j j' hne c h1 h2
    simp only [List.mem_flatMap, List.mem_singleton] at h1 h2
    obtain ⟨i, -, rfl⟩ := h1
    obtain ⟨i', -, h⟩ := h2
    simp only [Prod.mk.injEq] at h
    omega

theorem Rotate180_eq (src dst : Image α) (hw : dst.width = src.width)
    (hh : dst.height = src.height) :
    Rotate180 src (Run.init dst) = some
      { res := dst.fill (rotated src), writes := writesOf (rotateOps src),
        calls := callsOf (rotateOps src) } :=
  driver_result (Rotate180_realizes src) (coherent_rotateOps src)
    (fun x y hx hy => (mem_writes_rotateOps src (x, y)).2 ⟨hx.1, hx.2, hy.1, hy.2⟩)
    (fun p hp => (mem_writes_rotateOps src p).1 hp) dst hw hh

/-- C5: for a source of size `w x h` and a distinct destination of the same size, `Rotate180`
terminates without fault, afterwards `dst(w-1-x, h-1-y) = src(x, y)` for every valid `(x, y)`,
every pixel of `dst` is written exactly once (last row and last column included) and no
coordinate outside the buffer is written. -/
theorem C5_Rotate180_spec (src dst : Image α)
    (hdst : dst.width = src.width ∧ dst.height = src.height) :
    ∃ s', Rotate180 src (Run.init dst) = some s' ∧
      (∀ x y, 0 ≤ x → x < src.width → 0 ≤ y → y < src.height →
        s'.res.px (src.width - 1 - x) (src.height - 1 - y) = src.px x y) ∧
      (∀ x y, 0 ≤ x → x < src.width → 0 ≤ y → y < src.height →
        s'.writes.count (x, y) = 1) ∧
      ∀ p ∈ s'.writes, dst.inRange p.1 p.2 := by
  refine ⟨_, Rotate180_eq src dst hdst.1 hdst.2, ?_, ?_, ?_⟩
  · intro x y h1 h2 h3 h4
    rw [fill_px dst _ (by omega) (by omega)]
    unfold rotated
    congr 1 <;> omega
  · intro x y h1 h2 h3 h4
    exact count_eq_one_of_nodup_mem (nodup_writes_rotateOps src)
      ((mem_writes_rotateOps src (x, y)).2 ⟨h1, h2, h3, h4⟩)
  · intro p hp
    have := (mem_writes_rotateOps src p).1 hp
    unfold Image.inRange
    omega

/-- Witness of C5 on a 5 x 4 source. -/
theorem C5_Rotate180_spec_witness :
    ((constImage 5 4 0).width = sampleImage.width ∧
        (constImage 5 4 0).height = sampleImage.height) ∧
      ∃ s', Rotate180 sampleImage (Run.init (constImage 5 4 0)) = some s' ∧
        (∀ x y, 0 ≤ x → x < sampleImage.width → 0 ≤ y → y < sampleImage.height →
          s'.res.px (sampleImage.width - 1 - x) (sampleImage.height - 1 - y)
            = sampleImage.px x y) ∧
        (∀ x y, 0 ≤ x → x < sampleImage.width → 0 ≤ y → y < sampleImage.height →
          s'.writes.count (x, y) = 1) ∧
        ∀ p ∈ s'.writes, (constImage 5 4 0).inRange p.1 p.2 :=
  ⟨by decide, C5_Rotate180_spec sampleImage (constImage 5 4 0) (by decide)⟩

/-- C7: for a buffer `A` of size `w x h` and buffers `B`, `C` of the same size, `Rotate180 (A, B)`
followed by `Rotate180 (B, C)` terminates without fault and leaves `C(x, y) = A(x, y)` for every
valid `(x, y)`. -/
theorem C7_Rotate180_twice (A B C : Image α)
    (hB : B.width = A.width ∧ B.height = A.height)
    (hC : C.width = A.width ∧ C.height = A.height) :
    ∃ t₁ t₂, Rotate180 A (Run.init B) = some t₁ ∧ Rotate180 t₁.res (Run.init C) = some t₂ ∧
      ∀ x y, 0 ≤ x → x < A.width → 0 ≤ y → y < A.height → t₂.res.px x y = A.px x y := by
  refine ⟨_, _, Rotate180_eq A B hB.1 hB.2, Rotate180_eq (B.fill (rotated A)) C
    (show C.width = (B.fill (rotated A)).width from hC.1.trans hB.1.symm)
    (show C.height = (B.fill (rotated A)).height from hC.2.trans hB.2.symm), ?_⟩
  intro x y h1 h2 h3 h4
  rw [fill_px C _ (by omega) (by omega)]
  show (B.fill (rotated A)).px (B.width - 1 - x) (B.height - 1 - y) = A.px x y
  rw [fill_px B _ (by omega) (by omega)]
  unfold rotated
  congr 1 <;> omega

/-- Witness of C7 on a 5 x 4 buffer. -/
theorem C7_Rotate180_twice_witness :
    ((constImage 5 4 1).width = sampleImage.width ∧
        (constImage 5 4 1).height = sampleImage.height) ∧
      ∃ t₁ t₂, Rotate180 sampleImage (Run.init (constImage 5 4 1)) = some t₁ ∧
        Rotate180 t₁.res (Run.init (constImage 5 4 2)) = some t₂ ∧
        ∀ x y, 0 ≤ x → x < sampleImage.width → 0 ≤ y → y < sampleImage.height →
          t₂.res.px x y = sampleImage.px x y :=
  ⟨by decide, C7_Rotate180_twice sampleImage (constImage 5 4 1) (constImage 5 4 2) (by decide)
    (by decide)⟩

end Rotation


/-! ## Convolution by flip and correlate -/

section FlipCorrelate

variable {α : Type}

theorem clampedSum_congr [Zero α] [Add α] [Mul α] (img k₁ k₂ : Image α) (x0 y0 : Int)
    (hw : k₁.width = k₂.width) (hh : k₁.height = k₂.height)
    (hpx : ∀ i j, 0 ≤ i → i < k₁.width → 0 ≤ j → j < k₁.height → k₁.px i j = k₂.px i j) :
    clampedSum img k₁ x0 y0 = clampedSum img k₂ x0 y0 := by
  unfold clampedSum
  rw [hw, hh]
  apply List.foldl_ext
  intro acc j hj
  apply List.foldl_ext
  intro acc' i hi
  rw [List.mem_range] at hi hj
  rw [hpx i j (by omega) (by omega) (by omega) (by omega)]

theorem flippedKernel_eq (K : Image α) (junk : Int → Int → α)
    (hw : 0 ≤ K.width ∧ K.width < MaxDimensions) (hh : 0 ≤ K.height ∧ K.height < MaxDimensions) :
    flippedKernel K junk = some ((freshImage K.width K.height junk).fill (rotated K)) := by
  unfold flippedKernel Image.construct
  simp only [Image.Width, Image.Height]
  rw [if_neg (by omega)]
  have h := Rotate180_eq K (freshImage K.width K.height junk) rfl rfl
  simp only [freshImage] at h ⊢
  rw [h]
  rfl

theorem clampedSum_flipped [Zero α] [Add α] [Mul α] (img K : Image α) (junk : Int → Int → α)
    (x0 y0 : Int) :
    clampedSum img ((freshImage K.width K.height junk).fill (rotated K)) x0 y0
      = clampedSum img (flipKernel K) x0 y0 := by
  apply clampedSum_congr img ((freshImage K.width K.height junk).fill (rotated K))
    (flipKernel K) x0 y0 rfl rfl
  intro i j h1 h2 h3 h4
  simp only [Image.fill, Image.inRange, flipKernel, freshImage]
  rw [if_pos ⟨h1, h2, h3, h4⟩]

theorem foldl_add_sum [AddCommMonoid α] (f : Nat → α) (n : Nat) (a : α) :
    (List.range n).foldl (fun acc i => acc + f i) a = a + ∑ i ∈ Finset.range n, f i := by
  induction n with
  | zero => simp
  | succ n ih =>
    rw [List.range_succ, List.foldl_append, ih, Finset.sum_range_succ]
    simp [add_assoc]

/-- In exact arithmetic, correlation with the flipped kernel is the convolution sum centred at
`(kw-1-kw/2, kh-1-kh/2)`. -/
theorem clampedSum_flip_eq_convolutionSum [CommSemiring α] (img K : Image α) (x0 y0 : Int)
    (hkw : 0 ≤ K.width) (hkh : 0 ≤ K.height) :
    clampedSum img (flipKernel K) x0 y0
      = convolutionSum img K (K.width - 1 - K.width / 2) (K.height - 1 - K.height / 2) x0 y0 := by
  unfold clampedSum convolutionSum
  have hinner : ∀ (acc : α) (j : Nat),
      (List.range (flipKernel K).width.toNat).foldl (fun acc (i : Nat) =>
        acc + img.px (clampX img (x0 - (flipKernel K).width / 2 + i))
          (clampY img (y0 - (flipKernel K).height / 2 + j)) * (flipKernel K).px i j) acc
      = acc + ∑ i ∈ Finset.range K.width.toNat,
          img.px (clampX img (x0 - K.width / 2 + i)) (clampY img (y0 - K.height / 2 + j))
            * K.px (K.width - 1 - i) (K.height - 1 - j) := fun acc j =>
    foldl_add_sum (fun i => img.px (clampX img (x0 - K.width / 2 + i))
      (clampY img (y0 - K.height / 2 + j)) * K.px (K.width - 1 - i) (K.height - 1 - j)) _ acc
  simp only [hinner]
  rw [show (flipKernel K).height = K.height from rfl, foldl_add_sum, zero_add, Finset.sum_comm]
  rw [← Finset.sum_range_reflect]
  apply Finset.sum_congr rfl
  intro a ha
  rw [← Finset.sum_range_reflect]
  apply Finset.sum_congr rfl
  intro b hb
  rw [Finset.mem_range] at ha hb
  have e1 : ((K.width.toNat - 1 - a : Nat) : Int) = K.width - 1 - a := by omega
  have e2 : ((K.height.toNat - 1 - b : Nat) : Int) = K.height - 1 - b := by omega
  have e3 : x0 - K.width / 2 + (K.width - 1 - (a : Int))
      = x0 + (K.width - 1 - K.width / 2) - a := by omega
  have e4 : y0 - K.height / 2 + (K.height - 1 - (b : Int))
      = y0 + (K.height - 1 - K.height / 2) - b := by omega
  have e5 : K.width - 1 - (K.width - 1 - (a : Int)) = a := by omega
  have e6 : K.height - 1 - (K.height - 1 - (b : Int)) = b := by omega
  rw [e1, e2, mul_comm, e3, e4, e5, e6]

end FlipCorrelate

section ConvolutionClaim

variable {α : Type} [CommSemiring α]

/-- The three convolution functions against the direct correlation with the flipped kernel. -/
theorem imageConvolution_all (img K res : Image α) (junk : Int → Int → α)
    (hmax : img.width < MaxDimensions ∧ img.height < MaxDimensions)
    (hkw : 1 ≤ K.width ∧ K.width ≤ img.width) (hkh : 1 ≤ K.height ∧ K.height ≤ img.height)
    (hres : res.width = img.width ∧ res.height = img.height) :
    ∀ out ∈ [ImageConvolution img K junk (Run.init res),
        ImageConvolutionOptimized img K junk (Run.init res),
        ImageConvolutionUsingAvx img K junk (Run.init res)],
      ∃ s' c, out = some s' ∧
        (Convolution.new img (flipKernel K)).Perform (Run.init res) = some c ∧
        ∀ x0 y0, 0 ≤ x0 → x0 < img.width → 0 ≤ y0 → y0 < img.height →
          s'.res.px x0 y0 = c.res.px x0 y0 ∧
          s'.res.px x0 y0 = convolutionSum img K (K.width - 1 - K.width / 2)
            (K.height - 1 - K.height / 2) x0 y0 ∧
          (K.width % 2 = 1 → K.height % 2 = 1 →
            s'.res.px x0 y0 = convolutionSum img K (K.width / 2) (K.height / 2) x0 y0) := by
  have hW : 1 ≤ img.width := by omega
  have hH : 1 ≤ img.height := by omega
  have hflip := flippedKernel_eq K junk ⟨by omega, by omega⟩ ⟨by omega, by omega⟩
  have hc := Perform_eq img (flipKernel K) res hW hH hkw.1 hkh.1
    (show K.height / 2 ≤ img.height by omega)
    (show K.height ≤ img.height → K.width / 2 ≤ img.width from fun _ => by omega)
    hres.1 hres.2
  have key : ∀ out : Option (Run α),
      (∃ w c', out = some (Run.mk (res.fill (clampedSum img
        ((freshImage K.width K.height junk).fill (rotated K)))) w c')) →
      ∃ s' c, out = some s' ∧
        (Convolution.new img (flipKernel K)).Perform (Run.init res) = some c ∧
        ∀ x0 y0, 0 ≤ x0 → x0 < img.width → 0 ≤ y0 → y0 < img.height →
          s'.res.px x0 y0 = c.res.px x0 y0 ∧
          s'.res.px x0 y0 = convolutionSum img K (K.width - 1 - K.width / 2)
            (K.height - 1 - K.height / 2) x0 y0 ∧
          (K.width % 2 = 1 → K.height % 2 = 1 →
            s'.res.px x0 y0 = convolutionSum img K (K.width / 2) (K.height / 2) x0 y0) := by
    rintro out ⟨w, c', e⟩
    refine ⟨_, _, e, hc, ?_⟩
    intro x0 y0 h1 h2 h3 h4
    have hp : (res.fill (clampedSum img ((freshImage K.width K.height junk).fill
        (rotated K)))).px x0 y0 = clampedSum img (flipKernel K) x0 y0 := by
      rw [fill_px res _ (by omega) (by omega), clampedSum_flipped]
    have hq := clampedSum_flip_eq_convolutionSum img K x0 y0 (by omega) (by omega)
    refine ⟨?_, ?_, ?_⟩
    · rw [hp]
      exact (fill_px res _ (by omega) (by omega)).symm
    · rw [hp, hq]
    · intro ho1 ho2
      have e1 : K.width - 1 - K.width / 2 = K.width / 2 := by omega
      have e2 : K.height - 1 - K.height / 2 = K.height / 2 := by omega
      rw [hp, hq, e1, e2]
  intro out hout
  simp only [List.mem_cons, List.mem_singleton, List.not_mem_nil, or_false] at hout
  rcases hout with rfl | rfl | rfl
  · apply key
    unfold ImageConvolution
    rw [hflip]
    exact ⟨_, _, Perform_eq img _ res hW hH hkw.1 hkh.1 (show K.height / 2 ≤ img.height by omega)
      (show K.height ≤ img.height → K.width / 2 ≤ img.width from fun _ => by omega)
      hres.1 hres.2⟩
  · apply key
    unfold ImageConvolutionOptimized
    rw [hflip]
    exact ⟨_, _, PerformOptimized_eq img _ res hW hH hkw.1 hkh.1
      (show K.height / 2 ≤ img.height by omega)
      (show K.height ≤ img.height → K.width / 2 ≤ img.width from fun _ => by omega)
      hres.1 hres.2⟩
  · apply key
    unfold ImageConvolutionUsingAvx
    rw [hflip]
    exact ⟨_, _, PerformVector_eq img _ res hW hH hkw.1 hkh.1
      (show K.height / 2 ≤ img.height by omega)
      (show K.height ≤ img.height → K.width / 2 ≤ img.width from fun _ => by omega)
      hres.1 hres.2⟩


/-- C6: for an image of size `W x H` (as accepted by the constructor), a kernel `K` of size
`kw x kh` with `1 <= kw <= W`, `1 <= kh <= H` and a result buffer of the image's size, each of
`ImageConvolution`, `ImageConvolutionOptimized` and `ImageConvolutionUsingAvx` terminates without
fault and every output pixel equals (i) the pixel obtained by correlating directly with the
manually flipped kernel `K'(i,j) = K(kw-1-i, kh-1-j)` and (ii), in exact arithmetic, the sum over
`a, b` of `K(a,b) * img(clampX(x0+(kw-1-kw/2)-a), clampY(y0+(kh-1-kh/2)-b))`; for odd `kw` and
`kh` this is the convolution centred at `(kw/2, kh/2)`. -/
theorem C6_ImageConvolution (img K res : Image α) (junk : Int → Int → α)
    (hmax : img.width < MaxDimensions ∧ img.height < MaxDimensions)
    (hkw : 1 ≤ K.width ∧ K.width ≤ img.width) (hkh : 1 ≤ K.height ∧ K.height ≤ img.height)
    (hres : res.width = img.width ∧ res.height = img.height) :
    ConvolvedBy img K res (ImageConvolution img K junk (Run.init res)) ∧
      ConvolvedBy img K res (ImageConvolutionOptimized img K junk (Run.init res)) ∧
      ConvolvedBy img K res (ImageConvolutionUsingAvx img K junk (Run.init res)) := by
  have h := imageConvolution_all img K res junk hmax hkw hkh hres
  exact ⟨h _ (by simp), h _ (by simp), h _ (by simp)⟩

/-- Witness of C6 on a 5 x 4 image with a 3 x 3 kernel. -/
theorem C6_ImageConvolution_witness :
    (sampleImage.width < MaxDimensions ∧ sampleImage.height < MaxDimensions) ∧
      ConvolvedBy sampleImage oddKernel (constImage 5 4 0)
        (ImageConvolution sampleImage oddKernel (fun _ _ => 0) (Run.init (constImage 5 4 0))) ∧
      ConvolvedBy sampleImage oddKernel (constImage 5 4 0)
        (ImageConvolutionOptimized sampleImage oddKernel (fun _ _ => 0)
          (Run.init (constImage 5 4 0))) ∧
      ConvolvedBy sampleImage oddKernel (constImage 5 4 0)
        (ImageConvolutionUsingAvx sampleImage oddKernel (fun _ _ => 0)
          (Run.init (constImage 5 4 0))) :=
  ⟨by decide, C6_ImageConvolution sampleImage oddKernel (constImage 5 4 0) (fun _ _ => 0)
    (by decide) (by decide) (by decide) (by decide)⟩

end ConvolutionClaim


/-! ## Element-wise sum -/

section Sum

variable {α : Type}

/-- A loop whose state carries more than the run (pointers), with an invariant that depends on the
loop variable. -/
theorem loopFrom_realizes_inv {σ : Type} (proj : σ → Run α) (P : Int → σ → Prop)
    (body : Int → σ → Option σ) (L : Int → List (Op α)) (step : Int) (n : Nat) (a : Int)
    (h : ∀ i ∈ indices step a n, ∀ s, P i s →
      ∃ s', body i s = some s' ∧ P (i + step) s' ∧ proj s' = (proj s).execAll (L i))
    (s : σ) (hs : P a s) :
    ∃ s', loopFrom body step n a s = some s' ∧ P (a + step * n) s' ∧
      proj s' = (proj s).execAll ((indices step a n).flatMap L) := by
  induction n generalizing a s with
  | zero => exact ⟨s, rfl, by simpa using hs, by simp [indices, Run.execAll]⟩
  | succ n ih =>
    obtain ⟨s₁, e₁, i₁, p₁⟩ := h a (by simp [indices]) s hs
    obtain ⟨s₂, e₂, i₂, p₂⟩ := ih (a + step) (fun i hi => h i (by simp [indices, hi])) s₁ i₁
    refine ⟨s₂, ?_, ?_, ?_⟩
    · simp [loopFrom, e₁, e₂]
    · have e : a + step * ((n + 1 : Nat) : Int) = a + step + step * n := by push_cast; ring
      rw [e]; exact i₂
    · rw [p₂, p₁, ← execAll_append]
      simp [indices, List.flatMap_cons]

variable [Add α]

theorem Realizes.add (img1 img2 : Image α) (W H i j : Int) (h1 : img1.inRange i j)
    (h2 : img2.inRange i j) (hx : 0 ≤ i ∧ i < W) (hy : 0 ≤ j ∧ j < H) :
    Realizes id (Dims W H) (fun s => do
      let a ← img1.get? i j
      let b ← img2.get? i j
      s.store i j (a + b)) [Op.write i j (img1.px i j + img2.px i j)] := by
  intro s hs
  refine ⟨s.exec (Op.write i j (img1.px i j + img2.px i j)), ?_, hs, rfl⟩
  rw [get?_of_inRange img1 h1, get?_of_inRange img2 h2]
  simp only [Option.bind_eq_bind, Option.some_bind]
  apply store_of_inRange
  unfold Image.inRange Dims at *
  omega

theorem ImageSum_realizes (img1 img2 : Image α) (W H : Int)
    (h1 : img1.width = W ∧ img1.height = H) (h2 : img2.width = W ∧ img2.height = H) :
    Realizes id (Dims W H) (ImageSum img1 img2) (sumOps img1 img2 W H) := by
  unfold ImageSum sumOps
  simp only [Image.Width, Image.Height]
  refine Realizes.forLoopDep _ _ (fun _ _ => rfl) (fun s hs => hs.2) (fun j hj0 hj => ?_)
  refine Realizes.forLoopDep _ _ (fun _ _ => rfl) (fun s hs => hs.1) (fun i hi0 hi => ?_)
  exact Realizes.add img1 img2 W H i j (by unfold Image.inRange; omega)
    (by unfold Image.inRange; omega) ⟨hi0, hi⟩ ⟨hj0, hj⟩

theorem ImageSumOptimized_realizes (img1 img2 : Image α) (W H : Int)
    (h1 : img1.width = W ∧ img1.height = H) (h2 : img2.width = W ∧ img2.height = H) :
    Realizes id (Dims W H) (ImageSumOptimized img1 img2) (sumOps img1 img2 W H) := by
  unfold ImageSumOptimized sumOps
  simp only [Image.Width, Image.Height, Int.zero_add]
  refine Realizes.forLoopDep _ _ (fun _ _ => rfl) (fun s hs => hs.2) (fun j hj0 hj => ?_)
  refine Realizes.forLoopDep _ _ (fun _ _ => rfl) (fun s hs => hs.1) (fun i hi0 hi => ?_)
  exact Realizes.add img1 img2 W H i j (by unfold Image.inRange; omega)
    (by unfold Image.inRange; omega) ⟨hi0, hi⟩ ⟨hj0, hj⟩


omit [Add α] in
theorem load_ps_eq (img : Image α) {x y : Int} (hm : x % 8 = 0) (h0 : img.inRange x y)
    (h7 : img.inRange (x + 7) y) :
    img.load_ps x y = some (fun l => img.px (x + (l.val : Int)) y) := by
  unfold Image.load_ps Image.loadu_ps
  rw [if_pos hm, if_pos ⟨h0, h7⟩]

omit [Add α] in
theorem store_ps_eq (s : Run α) {x y : Int} (v : M256 α) (hm : x % 8 = 0)
    (h0 : s.res.inRange x y) (h7 : s.res.inRange (x + 7) y) :
    s.store_ps x y v = some (s.execAll (storeOps x y v)) := by
  unfold Run.store_ps Run.storeu_ps
  rw [if_pos hm, if_pos ⟨h0, h7⟩]

theorem ImageSumUsingAvx_row (img1 img2 : Image α) (W H : Int)
    (h1 : img1.width = W ∧ img1.height = H) (h2 : img2.width = W ∧ img2.height = H)
    (j : Int) (hj : 0 ≤ j ∧ j < H) :
    Realizes id (Dims W H) (fun s => do
      let st ← forLoop8 0 (Int.tdiv W 8 * 8) (fun _ (st : SumRow α) => do
        let a ← img1.load_ps st.p1 j
        let b ← img2.load_ps st.p2 j
        let run ← st.run.store_ps st.r j (fun l => a l + b l)
        pure { run := run, p1 := st.p1 + 8, p2 := st.p2 + 8, r := st.r + 8 })
        { run := s, p1 := 0, p2 := 0, r := 0 }
      let st ← forLoop (Int.tdiv W 8 * 8) W (fun _ (st : SumRow α) => do
        let a ← img1.get? st.p1 j
        let b ← img2.get? st.p2 j
        let run ← st.run.store st.r j (a + b)
        pure { run := run, p1 := st.p1 + 1, p2 := st.p2 + 1, r := st.r + 1 }) st
      pure st.run) (sumAvxRowOps img1 img2 W j) := by
  intro s hs
  have h8 := tdiv8_cases W
  obtain ⟨st₁, e₁, P₁, p₁⟩ := loopFrom_realizes_inv (fun st : SumRow α => st.run)
    (fun i st => Dims W H st.run ∧ st.p1 = i ∧ st.p2 = i ∧ st.r = i)
    (fun _ (st : SumRow α) => do
        let a ← img1.load_ps st.p1 j
        let b ← img2.load_ps st.p2 j
        let run ← st.run.store_ps st.r j (fun l => a l + b l)
        pure { run := run, p1 := st.p1 + 8, p2 := st.p2 + 8, r := st.r + 8 })
    (fun i => storeOps i j
      (fun l => img1.px (i + (l.val : Int)) j + img2.px (i + (l.val : Int)) j))
    8 ((Int.tdiv W 8 * 8 - 0 + 7) / 8).toNat 0 (by
      intro i hi st hst
      have hi' := mem_idx8.1 hi
      obtain ⟨hd, hp1, hp2, hr⟩ := hst
      have hW : i + 8 ≤ W := by omega
      refine ⟨⟨st.run.execAll (storeOps i j (fun l =>
        img1.px (i + (l.val : Int)) j + img2.px (i + (l.val : Int)) j)), st.p1 + 8, st.p2 + 8,
        st.r + 8⟩, ?_, ⟨⟨(execAll_dims _ _).1.trans hd.1, (execAll_dims _ _).2.1.trans hd.2⟩,
        by simp only [hp1], by simp only [hp2], by simp only [hr]⟩, rfl⟩
      beta_reduce
      rw [hp1, hp2, hr, load_ps_eq img1 (by omega) (by unfold Image.inRange; omega)
        (by unfold Image.inRange; omega), load_ps_eq img2 (by omega)
        (by unfold Image.inRange; omega) (by unfold Image.inRange; omega)]
      simp only [Option.bind_eq_bind, Option.some_bind]
      rw [store_ps_eq st.run _ (by omega) (by unfold Image.inRange Dims at *; omega)
        (by unfold Image.inRange Dims at *; omega)]
      rfl)
    { run := s, p1 := 0, p2 := 0, r := 0 } ⟨hs, rfl, rfl, rfl⟩
  obtain ⟨st₂, e₂, P₂, p₂⟩ := loopFrom_realizes_inv (fun st : SumRow α => st.run)
    (fun i st => Dims W H st.run ∧ (0 ≤ W → st.p1 = i ∧ st.p2 = i ∧ st.r = i))
    (fun _ (st : SumRow α) => do
        let a ← img1.get? st.p1 j
        let b ← img2.get? st.p2 j
        let run ← st.run.store st.r j (a + b)
        pure { run := run, p1 := st.p1 + 1, p2 := st.p2 + 1, r := st.r + 1 })
    (fun i => [Op.write i j (img1.px i j + img2.px i j)])
    1 (W - Int.tdiv W 8 * 8).toNat (Int.tdiv W 8 * 8) (by
      intro i hi st hst
      have hi' := mem_idx.1 hi
      have hW0 : 0 ≤ W := by omega
      obtain ⟨hd, hp⟩ := hst
      obtain ⟨hp1, hp2, hr⟩ := hp hW0
      refine ⟨⟨st.run.exec (Op.write i j (img1.px i j + img2.px i j)), st.p1 + 1, st.p2 + 1,
        st.r + 1⟩, ?_, ⟨hd, fun _ => ⟨by simp only [hp1], by simp only [hp2],
        by simp only [hr]⟩⟩, rfl⟩
      beta_reduce
      rw [hp1, hp2, hr, get?_of_inRange img1 (by unfold Image.inRange; omega),
        get?_of_inRange img2 (by unfold Image.inRange; omega)]
      simp only [Option.bind_eq_bind, Option.some_bind]
      rw [store_of_inRange st.run _ (by unfold Image.inRange Dims at *; omega)]
      rfl)
    st₁ ⟨P₁.1, fun h0 => by
      obtain ⟨-, q1, q2, q3⟩ := P₁
      rw [q1, q2, q3]
      omega⟩
  refine ⟨st₂.run, ?_, P₂.1, ?_⟩
  · simp only [forLoop8, forLoop, Option.bind_eq_bind, Option.pure_def] at e₁ e₂ ⊢
    rw [e₁, Option.some_bind, e₂, Option.some_bind]
  · simp only [id]
    rw [p₂, p₁, ← execAll_append]
    rfl

theorem ImageSumUsingAvx_realizes (img1 img2 : Image α) (W H : Int)
    (h1 : img1.width = W ∧ img1.height = H) (h2 : img2.width = W ∧ img2.height = H) :
    Realizes id (Dims W H) (ImageSumUsingAvx img1 img2) (sumAvxOps img1 img2 W H) := by
  intro s hs
  have hw : s.res.width = W := hs.1
  have hh : s.res.height = H := hs.2
  unfold ImageSumUsingAvx sumAvxOps
  simp only [Image.Width, Image.Height, hw, hh]
  refine (Realizes.forLoop _ _ (fun j hj0 hj => ?_)) s hs
  refine Realizes.congr (fun s hs => ?_) (ImageSumUsingAvx_row img1 img2 W H h1 h2 j ⟨hj0, hj⟩)
  rw [hs.1]

omit [Add α] in
theorem writesOf_singleton (x y : Int) (v : α) : writesOf [Op.write x y v] = [(x, y)] := rfl

theorem mem_writes_sumOps (img1 img2 : Image α) (W H : Int) (p : Int × Int) :
    p ∈ writesOf (sumOps img1 img2 W H) ↔ 0 ≤ p.1 ∧ p.1 < W ∧ 0 ≤ p.2 ∧ p.2 < H := by
  unfold sumOps
  simp only [writesOf_flatMap, List.mem_flatMap, mem_idx, writesOf, List.mem_singleton]
  constructor
  · rintro ⟨j, hj, i, hi, rfl⟩
    dsimp only
    omega
  · intro h
    exact ⟨p.2, by omega, p.1, by omega, rfl⟩

theorem mem_writes_sumAvxOps (img1 img2 : Image α) (W H : Int) (p : Int × Int) :
    p ∈ writesOf (sumAvxOps img1 img2 W H) ↔ 0 ≤ p.1 ∧ p.1 < W ∧ 0 ≤ p.2 ∧ p.2 < H := by
  unfold sumAvxOps sumAvxRowOps
  simp only [writesOf_flatMap, writesOf_append, List.mem_flatMap, List.mem_append, mem_idx,
    mem_idx8, writesOf_singleton, List.mem_singleton, mem_writesOf_storeOps]
  have h8 := tdiv8_cases W
  constructor
  · rintro ⟨j, hj, ⟨i, hi, h⟩ | ⟨i, hi, rfl⟩⟩
    · omega
    · dsimp only
      omega
  · intro h
    refine ⟨p.2, by omega, ?_⟩
    by_cases hc : p.1 < Int.tdiv W 8 * 8
    · exact Or.inl ⟨p.1 / 8 * 8, by omega, rfl, by omega, by omega⟩
    · exact Or.inr ⟨p.1, by omega, rfl⟩

theorem coherent_sumOps (img1 img2 : Image α) (W H : Int) :
    Coherent (pixelSum img1 img2) (sumOps img1 img2 W H) := by
  intro x y v hv
  unfold sumOps at hv
  simp only [List.mem_flatMap, mem_idx, List.mem_singleton, Op.write.injEq] at hv
  obtain ⟨j, -, i, -, rfl, rfl, rfl⟩ := hv
  rfl

theorem coherent_sumAvxOps (img1 img2 : Image α) (W H : Int) :
    Coherent (pixelSum img1 img2) (sumAvxOps img1 img2 W H) := by
  intro x y v hv
  unfold sumAvxOps sumAvxRowOps storeOps at hv
  simp only [List.mem_flatMap, List.mem_append, mem_idx, mem_idx8, List.mem_singleton,
    List.mem_map, List.mem_finRange, true_and, Op.write.injEq] at hv
  obtain ⟨j, -, ⟨i, -, l, rfl, rfl, rfl⟩ | ⟨i, -, rfl, rfl, rfl⟩⟩ := hv
  · rfl
  · rfl

/-- The result of the three sum variants on buffers of the size of `res`. -/
theorem ImageSum_eq (img1 img2 res : Image α)
    (h1 : img1.width = res.width ∧ img1.height = res.height)
    (h2 : img2.width = res.width ∧ img2.height = res.height) :
    (∃ w c, ImageSum img1 img2 (Run.init res)
        = some (Run.mk (res.fill (pixelSum img1 img2)) w c) ∧ ∀ p ∈ w, res.inRange p.1 p.2) ∧
    (∃ w c, ImageSumOptimized img1 img2 (Run.init res)
        = some (Run.mk (res.fill (pixelSum img1 img2)) w c) ∧ ∀ p ∈ w, res.inRange p.1 p.2) ∧
    (∃ w c, ImageSumUsingAvx img1 img2 (Run.init res)
        = some (Run.mk (res.fill (pixelSum img1 img2)) w c) ∧ ∀ p ∈ w, res.inRange p.1 p.2) := by
  refine ⟨⟨_, _, driver_result (ImageSum_realizes img1 img2 res.width res.height h1 h2)
      (coherent_sumOps img1 img2 _ _)
      (fun x y hx hy => (mem_writes_sumOps img1 img2 _ _ (x, y)).2 ⟨hx.1, hx.2, hy.1, hy.2⟩)
      (fun p hp => (mem_writes_sumOps img1 img2 _ _ p).1 hp) res rfl rfl, ?_⟩,
    ⟨_, _, driver_result (ImageSumOptimized_realizes img1 img2 res.width res.height h1 h2)
      (coherent_sumOps img1 img2 _ _)
      (fun x y hx hy => (mem_writes_sumOps img1 img2 _ _ (x, y)).2 ⟨hx.1, hx.2, hy.1, hy.2⟩)
      (fun p hp => (mem_writes_sumOps img1 img2 _ _ p).1 hp) res rfl rfl, ?_⟩,
    ⟨_, _, driver_result (ImageSumUsingAvx_realizes img1 img2 res.width res.height h1 h2)
      (coherent_sumAvxOps img1 img2 _ _)
      (fun x y hx hy => (mem_writes_sumAvxOps img1 img2 _ _ (x, y)).2 ⟨hx.1, hx.2, hy.1, hy.2⟩)
      (fun p hp => (mem_writes_sumAvxOps img1 img2 _ _ p).1 hp) res rfl rfl, ?_⟩⟩
  · exact fun p hp => (mem_writes_sumOps img1 img2 _ _ p).1 hp
  · exact fun p hp => (mem_writes_sumOps img1 img2 _ _ p).1 hp
  · exact fun p hp => (mem_writes_sumAvxOps img1 img2 _ _ p).1 hp

/-- The three sum variants leave `res` filled with the element-wise sum. -/
theorem imageSum_all (img1 img2 res : Image α)
    (h1 : img1.width = res.width ∧ img1.height = res.height)
    (h2 : img2.width = res.width ∧ img2.height = res.height) :
    ∀ out ∈ [ImageSum img1 img2 (Run.init res), ImageSumOptimized img1 img2 (Run.init res),
        ImageSumUsingAvx img1 img2 (Run.init res)],
      ∃ s', out = some s' ∧ s'.res = res.fill (pixelSum img1 img2) ∧
        (∀ x y, res.inRange x y → s'.res.px x y = img1.px x y + img2.px x y) ∧
        (∀ x y, ¬ res.inRange x y → s'.res.px x y = res.px x y) ∧
        ∀ p ∈ s'.writes, res.inRange p.1 p.2 := by
  have key : ∀ out : Option (Run α),
      (∃ w c, out = some (Run.mk (res.fill (pixelSum img1 img2)) w c) ∧
        ∀ p ∈ w, res.inRange p.1 p.2) →
      ∃ s', out = some s' ∧ s'.res = res.fill (pixelSum img1 img2) ∧
        (∀ x y, res.inRange x y → s'.res.px x y = img1.px x y + img2.px x y) ∧
        (∀ x y, ¬ res.inRange x y → s'.res.px x y = res.px x y) ∧
        ∀ p ∈ s'.writes, res.inRange p.1 p.2 := by
    rintro out ⟨w, c, e, hw⟩
    refine ⟨_, e, rfl, ?_, ?_, hw⟩
    · intro x y hxy
      simp only [Image.fill, if_pos hxy, pixelSum]
    · intro x y hxy
      simp only [Image.fill, if_neg hxy]
  obtain ⟨ha, hb, hc⟩ := ImageSum_eq img1 img2 res h1 h2
  intro out hout
  simp only [List.mem_cons, List.mem_singleton, List.not_mem_nil, or_false] at hout
  rcases hout with rfl | rfl | rfl
  · exact key _ ha
  · exact key _ hb
  · exact key _ hc


/-- C9: for buffers `img1`, `img2` and a result buffer `res` of the same size `W x H` (any `W`),
each of `ImageSum`, `ImageSumOptimized` and `ImageSumUsingAvx` terminates without fault, writes
`res(x,y) = img1(x,y) + img2(x,y)` at every in-range pixel and touches no other coordinate, so
the three variants leave the same buffer. -/
theorem C9_ImageSum (img1 img2 res : Image α)
    (h1 : img1.width = res.width ∧ img1.height = res.height)
    (h2 : img2.width = res.width ∧ img2.height = res.height) :
    SummedInto img1 img2 res (ImageSum img1 img2 (Run.init res)) ∧
      SummedInto img1 img2 res (ImageSumOptimized img1 img2 (Run.init res)) ∧
      SummedInto img1 img2 res (ImageSumUsingAvx img1 img2 (Run.init res)) := by
  have h := imageSum_all img1 img2 res h1 h2
  exact ⟨h _ (by simp), h _ (by simp), h _ (by simp)⟩

/-- Witness of C9: two 4 x 4 buffers filled with 1 and 2; every in-range pixel of the result of
each variant is `1 + 2`. -/
theorem C9_ImageSum_witness :
    ((constImage 4 4 1).width = (constImage 4 4 0).width ∧
      (constImage 4 4 1).height = (constImage 4 4 0).height) ∧
      SummedInto (constImage 4 4 1) (constImage 4 4 2) (constImage 4 4 0)
        (ImageSum (constImage 4 4 1) (constImage 4 4 2) (Run.init (constImage 4 4 0))) ∧
      SummedInto (constImage 4 4 1) (constImage 4 4 2) (constImage 4 4 0)
        (ImageSumOptimized (constImage 4 4 1) (constImage 4 4 2)
          (Run.init (constImage 4 4 0))) ∧
      SummedInto (constImage 4 4 1) (constImage 4 4 2) (constImage 4 4 0)
        (ImageSumUsingAvx (constImage 4 4 1) (constImage 4 4 2) (Run.init (constImage 4 4 0))) :=
  ⟨by decide, C9_ImageSum (constImage 4 4 1) (constImage 4 4 2) (constImage 4 4 0) (by decide)
    (by decide)⟩

/-- The scenario of the specification: two 4 x 4 buffers filled with 1 and 2 give 3 at all 16
positions, for each of the three variants. -/
theorem imageSum_scenario :
    ∀ out ∈ [ImageSum (constImage 4 4 1) (constImage 4 4 2) (Run.init (constImage 4 4 0)),
        ImageSumOptimized (constImage 4 4 1) (constImage 4 4 2) (Run.init (constImage 4 4 0)),
        ImageSumUsingAvx (constImage 4 4 1) (constImage 4 4 2) (Run.init (constImage 4 4 0))],
      ∃ s', out = some s' ∧ ∀ x y, 0 ≤ x → x < 4 → 0 ≤ y → y < 4 → s'.res.px x y = 3 := by
  intro out hout
  obtain ⟨s', e, -, h, -⟩ := imageSum_all (constImage 4 4 1) (constImage 4 4 2)
    (constImage 4 4 0) (by decide) (by decide) out hout
  exact ⟨s', e, fun x y h1 h2 h3 h4 => (h x y ⟨h1, h2, h3, h4⟩).trans rfl⟩

end Sum


/-! ## The constructor -/

section Constructor

variable {α : Type}

/-- C8 (amended): constructing `Image<T>(w, h)` fails with the out-of-range error if and only if
`w` or `h` is negative or at least `MaxDimensions = 16384`; the failure leaves the heap untouched
(no allocation request has been made); for every other `(w, h)`, i.e. `0 <= w, h < 16384`,
construction succeeds after one `aligned_alloc (32, stride * h)` request and the buffer reports
`Width() = w` and `Height() = h`. -/
theorem C8_Image_construct (sz w h : Int) (junk : Int → Int → α) (heap : List (Int × Int)) :
    ((Image.construct sz w h junk heap).1 = Except.error CtorError.out_of_range ↔
      (w < 0 ∨ w ≥ 16384 ∨ h < 0 ∨ h ≥ 16384)) ∧
    ((Image.construct sz w h junk heap).1 = Except.error CtorError.out_of_range →
      (Image.construct sz w h junk heap).2 = heap) ∧
    (¬ (w < 0 ∨ w ≥ 16384 ∨ h < 0 ∨ h ≥ 16384) →
      ∃ img, Image.construct sz w h junk heap
          = (Except.ok img, heap ++ [(32, strideOf sz w * h)]) ∧
        img.Width = w ∧ img.Height = h) := by
  by_cases hbad : w < 0 ∨ w ≥ 16384 ∨ h < 0 ∨ h ≥ 16384
  · have e : Image.construct sz w h junk heap = (Except.error CtorError.out_of_range, heap) := by
      unfold Image.construct MaxDimensions
      rw [if_pos hbad]
    rw [e]
    exact ⟨⟨fun _ => hbad, fun _ => rfl⟩, fun _ => rfl, fun hn => absurd hbad hn⟩
  · have e : Image.construct sz w h junk heap
        = (Except.ok ⟨w, h, strideOf sz w, junk⟩, heap ++ [(32, strideOf sz w * h)]) := by
      unfold Image.construct MaxDimensions
      rw [if_neg hbad]
    rw [e]
    refine ⟨⟨fun hc => ?_, fun hc => absurd hc hbad⟩, fun hc => ?_, fun _ => ⟨_, rfl, rfl, rfl⟩⟩
    · exact Except.noConfusion hc
    · exact Except.noConfusion hc

/-- Witness of C8 (amended): a 5 x 4 buffer of 4-byte elements is constructed after one
allocation request. -/
theorem C8_Image_construct_witness :
    ∃ img : Image Int, Image.construct 4 5 4 (fun _ _ => 0) []
        = (Except.ok img, [] ++ [(32, strideOf 4 5 * 4)]) ∧
      img.Width = 5 ∧ img.Height = 4 :=
  (C8_Image_construct 4 5 4 (fun _ _ => (0 : Int)) []).2.2 (by decide)

/-- C8 as stated fails at `w = 16384`: the dimension does not exceed the maximum 16384, yet the
constructor throws. -/
theorem C8_counterexample :
    (Image.construct 4 16384 1 (fun _ _ => (0 : Int)) []).1
        = Except.error CtorError.out_of_range ∧
      ¬ ((16384 : Int) < 0 ∨ (16384 : Int) > 16384 ∨ (1 : Int) < 0 ∨ (1 : Int) > 16384) :=
  ⟨rfl, by decide⟩

end Constructor


/-! ## Median filter -/

section MedianLemmas

variable {α : Type}

theorem Appends.loopAppends {body : Int → Fill α → Option (Fill α)} {vals : Int → List α}
    (step : Int) (n : Nat) (a : Int) (h : ∀ i ∈ indices step a n, Appends (body i) (vals i)) :
    Appends (ImProc.loopFrom body step n a) ((indices step a n).flatMap vals) := by
  induction n generalizing a with
  | zero =>
    intro pre rest _
    simp [ImProc.loopFrom, indices]
  | succ n ih =>
    intro pre rest hlen
    simp only [indices, List.flatMap_cons, List.length_append] at hlen ⊢
    have h1 := h a (by simp [indices]) pre rest (by omega)
    have h2 := ih (a + step) (fun i hi => h i (by simp [indices, hi])) (pre ++ vals a)
      (rest.drop (vals a).length) (by rw [List.length_drop]; omega)
    simp only [ImProc.loopFrom, h1, Option.some_bind, h2]
    simp [List.append_assoc, List.drop_drop, Nat.add_comm]

theorem Appends.forLoopAppends {body : Int → Fill α → Option (Fill α)} {vals : Int → List α}
    (a b : Int) (h : ∀ i, a ≤ i → i < b → Appends (body i) (vals i)) :
    Appends (ImProc.forLoop a b body) ((idx a b).flatMap vals) :=
  Appends.loopAppends 1 _ a (fun i hi => h i (mem_idx.1 hi).1 (mem_idx.1 hi).2)

/-- One cell of the window loops: read a sample, store it at `arr[k]`, advance `k`. -/
theorem Appends.cell (src : Image α) {x y : Int} (hxy : src.inRange x y) :
    Appends (fun f => do
      let v ← src.get? x y
      let arr ← setAt? f.arr f.k v
      pure ({ arr := arr, k := f.k + 1 } : Fill α)) [src.px x y] := by
  intro pre rest hlen
  cases rest with
  | nil => simp at hlen
  | cons r rest' =>
    rw [get?_of_inRange src hxy]
    simp only [Option.bind_eq_bind, Option.some_bind, setAt?]
    rw [if_pos (by simp only [List.length_append, List.length_cons]; omega)]
    simp

theorem length_indices (step a : Int) (n : Nat) : (indices step a n).length = n := by
  induction n generalizing a with
  | zero => rfl
  | succ n ih => simp [indices, ih]

theorem length_flatMap_const {β γ : Type} (l : List β) (f : β → List γ) (c : Nat)
    (h : ∀ b ∈ l, (f b).length = c) : (l.flatMap f).length = l.length * c := by
  induction l with
  | nil => simp
  | cons b l ih =>
    rw [List.flatMap_cons, List.length_append, h b (List.mem_cons_self _ _),
      ih (fun b' hb' => h b' (List.mem_cons_of_mem _ hb')), List.length_cons]
    ring

theorem flatMap_singleton_eq_map {β γ : Type} (l : List β) (f : β → γ) :
    l.flatMap (fun b => [f b]) = l.map f := by
  induction l with
  | nil => rfl
  | cons b l ih => simp [List.flatMap_cons, ih]

/-- The window loops fill the whole scratch vector with the samples, row by row. -/
theorem fill_loops (d : Int) (smp : Int → Int → α)
    (cell : Int → Int → Fill α → Option (Fill α))
    (hcell : ∀ j i, 0 ≤ j → j < d → 0 ≤ i → i < d → Appends (cell j i) [smp i j])
    (arr : List α) (harr : arr.length = d.toNat * d.toNat) :
    ∃ k, ImProc.forLoop 0 d (fun j f => ImProc.forLoop 0 d (cell j) f) ⟨arr, 0⟩
      = some ⟨(idx 0 d).flatMap (fun j => (idx 0 d).map (fun i => smp i j)), k⟩ := by
  have hA : Appends (ImProc.forLoop 0 d (fun j f => ImProc.forLoop 0 d (cell j) f))
      ((idx 0 d).flatMap (fun j => (idx 0 d).flatMap (fun i => [smp i j]))) :=
    Appends.forLoopAppends 0 d (fun j hj0 hj => Appends.forLoopAppends 0 d (fun i hi0 hi =>
      hcell j i hj0 hj hi0 hi))
  have hlen : ((idx 0 d).flatMap (fun j => (idx 0 d).flatMap (fun i => [smp i j]))).length
      = d.toNat * d.toNat := by
    rw [length_flatMap_const _ _ d.toNat]
    · simp [idx, length_indices]
    · intro j _
      rw [length_flatMap_const (idx 0 d) (fun i => [smp i j]) 1 (fun _ _ => rfl)]
      simp [idx, length_indices]
  have h := hA [] arr (by rw [hlen, harr])
  simp only [List.nil_append, List.length_nil, Nat.cast_zero] at h
  rw [h, hlen, ← harr, List.drop_length, List.append_nil]
  simp only [flatMap_singleton_eq_map]
  exact ⟨_, rfl⟩

end MedianLemmas

section MedianRoutines

variable {α : Type} [LinearOrder α]

omit [LinearOrder α] in
theorem getAt?_eq (l : List α) (N : Int) (dflt : α) (hN : 1 ≤ N) (hlen : l.length = N.toNat) :
    getAt? l (Int.tdiv N 2) = some (l.getD (N / 2).toNat dflt) := by
  unfold getAt?
  rw [Int.tdiv_eq_ediv (by omega) (by decide), if_pos (by omega)]
  have hlt : (N / 2).toNat < l.length := by omega
  rw [List.get?_eq_getElem?, List.getD_eq_getElem?_getD, List.getElem?_eq_getElem hlt]
  rfl

omit [LinearOrder α] in
theorem length_window (src : Image α) (rad x y : Int) :
    (window src rad x y).length = (2 * rad + 1).toNat * (2 * rad + 1).toNat := by
  unfold window
  rw [length_flatMap_const _ _ (2 * rad + 1).toNat]
  · simp [idx, length_indices]
  · intro j _
    simp [idx, length_indices]

theorem toNat_sq (d : Int) (hd : 0 ≤ d) : (d * d).toNat = d.toNat * d.toNat := by
  obtain ⟨n, rfl⟩ := Int.eq_ofNat_of_zero_le hd
  rw [← Int.ofNat_mul]
  rfl

theorem sq_pos_of_pos (d : Int) (hd : 1 ≤ d) : 1 ≤ d * d := by nlinarith

/-- The tail shared by the two routines of `Median`: sort, pick `arr[N/2]`, store. -/
theorem median_tail (src : Image α) (rad x0 y0 W H : Int) (hrad : 0 ≤ rad)
    (hx : 0 ≤ x0 ∧ x0 < W) (hy : 0 ≤ y0 ∧ y0 < H) (r : Routine) (s : MedRun α)
    (hs : MedInv W H (2 * rad + 1) s) :
    ∃ s', (do
        let v ← getAt? (stdSort (window src rad x0 y0))
          (Int.tdiv ((2 * rad + 1) * (2 * rad + 1)) 2)
        let run ← (s.run.enter r x0 y0).store x0 y0 v
        pure ({ run := run, arr := stdSort (window src rad x0 y0) } : MedRun α)) = some s' ∧
      MedInv W H (2 * rad + 1) s' ∧ s'.run = s.run.execAll (pix r (medianAt src rad) x0 y0) := by
  have hN := sq_pos_of_pos (2 * rad + 1) (by omega)
  have hlen : (stdSort (window src rad x0 y0)).length
      = ((2 * rad + 1) * (2 * rad + 1)).toNat := by
    unfold stdSort
    rw [List.length_insertionSort, length_window, toNat_sq _ (by omega)]
  refine ⟨⟨(s.run.exec (Op.call r x0 y0)).exec (Op.write x0 y0 (medianAt src rad x0 y0)),
    stdSort (window src rad x0 y0)⟩, ?_, ⟨hs.1, ?_⟩, rfl⟩
  · rw [getAt?_eq _ _ (src.px x0 y0) hN hlen]
    simp only [Option.bind_eq_bind, Option.some_bind, Run.enter]
    rw [store_of_inRange _ _ (by
      have := hs.1
      unfold Image.inRange Dims at *
      simp only [Run.exec]
      omega)]
    rfl
  · show (stdSort (window src rad x0 y0)).length = _
    rw [hlen, toNat_sq _ (by omega)]

theorem Median_ProcessChecked_realizes (src : Image α) (rad W H : Int) (hW : 1 ≤ src.width)
    (hH : 1 ≤ src.height) (hrad : 0 ≤ rad) (x0 y0 : Int) (hx : 0 ≤ x0 ∧ x0 < W)
    (hy : 0 ≤ y0 ∧ y0 < H) :
    Realizes (fun s : MedRun α => s.run) (MedInv W H (2 * rad + 1))
      ((Median.new src rad).ProcessChecked x0 y0)
      (pix Routine.ProcessChecked (medianAt src rad) x0 y0) := by
  intro s hs
  obtain ⟨k, hfill⟩ := fill_loops (2 * rad + 1)
    (fun i j => src.px (clampX src (x0 - rad + i)) (clampY src (y0 - rad + j)))
    (fun j i (f : Fill α) => do
      let v ← src.get? (max 0 (min (src.width - 1) (x0 - rad + i)))
        (max 0 (min (src.height - 1) (y0 - rad + j)))
      let arr ← setAt? f.arr f.k v
      pure ({ arr := arr, k := f.k + 1 } : Fill α))
    (fun j i _ _ _ _ => Appends.cell src (by unfold Image.inRange; omega)) s.arr hs.2
  obtain ⟨s', e, hI, hp⟩ := median_tail src rad x0 y0 W H hrad hx hy Routine.ProcessChecked s hs
  refine ⟨s', ?_, hI, hp⟩
  simp only [Median.ProcessChecked, Median.new, Image.Width, Image.Height, Option.bind_eq_bind,
    Option.pure_def] at hfill e ⊢
  rw [hfill, Option.some_bind]
  exact e

theorem Median_ProcessUnchecked_realizes (src : Image α) (rad W H : Int) (hrad : 0 ≤ rad)
    (x0 y0 : Int) (hx : 0 ≤ x0 ∧ x0 < W) (hy : 0 ≤ y0 ∧ y0 < H)
    (hfx : rad ≤ x0 ∧ x0 + rad ≤ src.width - 1) (hfy : rad ≤ y0 ∧ y0 + rad ≤ src.height - 1) :
    Realizes (fun s : MedRun α => s.run) (MedInv W H (2 * rad + 1))
      ((Median.new src rad).ProcessUnchecked x0 y0)
      (pix Routine.ProcessUnchecked (medianAt src rad) x0 y0) := by
  intro s hs
  obtain ⟨k, hfill⟩ := fill_loops (2 * rad + 1)
    (fun i j => src.px (clampX src (x0 - rad + i)) (clampY src (y0 - rad + j)))
    (fun j i (f : Fill α) => do
      let v ← src.get? (x0 - rad + i) (y0 - rad + j)
      let arr ← setAt? f.arr f.k v
      pure ({ arr := arr, k := f.k + 1 } : Fill α))
    (fun j i hj0 hj hi0 hi => by
      have ex : clampX src (x0 - rad + i) = x0 - rad + i := by unfold clampX; omega
      have ey : clampY src (y0 - rad + j) = y0 - rad + j := by unfold clampY; omega
      beta_reduce
      rw [ex, ey]
      exact Appends.cell src (by unfold Image.inRange; omega)) s.arr hs.2
  obtain ⟨s', e, hI, hp⟩ :=
    median_tail src rad x0 y0 W H hrad hx hy Routine.ProcessUnchecked s hs
  refine ⟨s', ?_, hI, hp⟩
  simp only [Median.ProcessUnchecked, Median.new, Image.Width, Image.Height,
    Option.bind_eq_bind, Option.pure_def] at hfill e ⊢
  rw [hfill, Option.some_bind]
  exact e

end MedianRoutines

section MedianPerform

variable {α : Type} [LinearOrder α]

theorem Median_Perform_realizes (src : Image α) (rad : Int) (hrad : 0 ≤ rad)
    (hW : 2 * rad + 1 ≤ src.width) (hH : 2 * rad + 1 ≤ src.height) :
    Realizes (fun s : MedRun α => s.run) (MedInv src.width src.height (2 * rad + 1))
      (Median.new src rad).Perform (medianOps src rad) := by
  have chk : ∀ i j, 0 ≤ i → i < src.width → 0 ≤ j → j < src.height →
      Realizes (fun s : MedRun α => s.run) (MedInv src.width src.height (2 * rad + 1))
        ((Median.new src rad).ProcessChecked i j)
        (pix Routine.ProcessChecked (medianAt src rad) i j) :=
    fun i j h1 h2 h3 h4 => Median_ProcessChecked_realizes src rad _ _ (by omega) (by omega) hrad
      i j ⟨h1, h2⟩ ⟨h3, h4⟩
  have p1 : (Median.new src rad).rad = rad := rfl
  have p2 : (Median.new src rad).src = src := rfl
  have e1 : (2 * rad + 1) / 2 = rad := by omega
  have e2 : 2 * rad + 1 - 1 = 2 * rad := by omega
  have e3 : src.width + rad - 2 * rad = src.width - rad := by omega
  have e4 : src.height + rad - 2 * rad = src.height - rad := by omega
  unfold Median.Perform medianOps driverOps scalarInner
  simp only [p1, p2, e1, e2, e3, e4, Image.Width, Image.Height]
  refine Realizes.seq ?_ (Realizes.seq ?_ ?_)
  · refine Realizes.forLoop _ _ (fun j hj0 hj => ?_)
    refine Realizes.forLoop _ _ (fun i hi0 hi => ?_)
    exact chk i j hi0 hi hj0 (by omega)
  · refine Realizes.forLoop _ _ (fun j hj0 hj => ?_)
    refine Realizes.seq ?_ (Realizes.seq ?_ ?_)
    · refine Realizes.forLoop _ _ (fun i hi0 hi => ?_)
      exact chk i j hi0 (by omega) (by omega) (by omega)
    · refine Realizes.forLoop _ _ (fun i hi0 hi => ?_)
      exact Median_ProcessUnchecked_realizes src rad _ _ hrad i j ⟨by omega, by omega⟩
        ⟨by omega, by omega⟩ ⟨by omega, by omega⟩ ⟨by omega, by omega⟩
    · refine Realizes.forLoop _ _ (fun i hi0 hi => ?_)
      exact chk i j (by omega) hi (by omega) (by omega)
  · refine Realizes.forLoop _ _ (fun j hj0 hj => ?_)
    refine Realizes.forLoop _ _ (fun i hi0 hi => ?_)
    exact chk i j hi0 hi (by omega) hj

omit [LinearOrder α] in
/-- The state reached from a fresh run by a coherent, covering, in-range sequence of steps. -/
theorem execAll_init {ops : List (Op α)} {V : Int → Int → α} (res : Image α)
    (hc : Coherent V ops)
    (hcov : ∀ x y, 0 ≤ x ∧ x < res.width → 0 ≤ y ∧ y < res.height → (x, y) ∈ writesOf ops)
    (hin : ∀ p ∈ writesOf ops, 0 ≤ p.1 ∧ p.1 < res.width ∧ 0 ≤ p.2 ∧ p.2 < res.height) :
    (Run.init res).execAll ops
      = { res := res.fill V, writes := writesOf ops, calls := callsOf ops } := by
  have hR : Realizes id (Dims res.width res.height) (fun s => some (s.execAll ops)) ops :=
    fun s hs => ⟨_, rfl, ⟨(execAll_dims s ops).1.trans hs.1, (execAll_dims s ops).2.1.trans hs.2⟩,
      rfl⟩
  exact Option.some.inj (driver_result hR hc hcov hin res rfl rfl)

theorem MedianFilter_eq [Zero α] (src res : Image α) (rad : Int) (hrad : 0 ≤ rad)
    (hW : 2 * rad + 1 ≤ src.width) (hH : 2 * rad + 1 ≤ src.height)
    (hw : res.width = src.width) (hh : res.height = src.height) :
    MedianFilter src rad (Run.init res) = some
      { res := res.fill (medianAt src rad), writes := writesOf (medianOps src rad),
        calls := callsOf (medianOps src rad) } := by
  obtain ⟨s', e, -, hp⟩ := Median_Perform_realizes src rad hrad hW hH
    { run := Run.init res, arr := List.replicate (Median.new src rad).N.toNat 0 }
    ⟨⟨hw, hh⟩, by
      show (List.replicate ((2 * rad + 1) * (2 * rad + 1)).toNat (0 : α)).length = _
      rw [List.length_replicate, toNat_sq _ (by omega)]⟩
  unfold MedianFilter
  simp only [e, Option.map_some']
  simp only [] at hp
  rw [hp]
  congr 1
  refine execAll_init res
    (Coherent.driverOps _ _ _ _ _ _ (fun i j => Coherent.pix _ _ i j)
      (fun j => Coherent.scalarInner _ _ _ _ _ j))
    (fun x y hx hy => covered_driverOps _ _ _ _ _ _ (fun i j => mem_writes_pix _ _ i j)
      (fun j x => covered_scalarInner _ _ _ _ _ j x) x y (by omega) (by omega)) ?_
  intro p hp
  have := inRange_driverOps src.width src.height (2 * rad + 1) (2 * rad + 1) (by omega)
    (by omega) (by omega) (fun _ => by omega) (fun i j => writes_pix _ _ i j)
    (fun j => writes_scalarInner _ _ _ _ _ j) p hp
  omega

/-- In an ascending list `A ++ v :: B`, at least `|A| + 1` elements are `<= v` and at least
`|B| + 1` are `>= v`. -/
theorem counts_split (A B : List α) (v : α) (hs : (A ++ v :: B).Sorted (fun a b => a ≤ b)) :
    A.length + 1 ≤ (A ++ v :: B).countP (fun a => decide (a ≤ v)) ∧
      B.length + 1 ≤ (A ++ v :: B).countP (fun a => decide (v ≤ a)) := by
  unfold List.Sorted at hs
  rw [List.pairwise_append] at hs
  obtain ⟨-, hvB, hAB⟩ := hs
  rw [List.pairwise_cons] at hvB
  constructor
  · rw [List.countP_append, List.countP_cons_of_pos _ _ (by simp)]
    have hA : A.countP (fun a => decide (a ≤ v)) = A.length :=
      List.countP_eq_length.2 (fun a ha => by simpa using hAB a ha v (List.mem_cons_self _ _))
    omega
  · rw [List.countP_append, List.countP_cons_of_pos _ _ (by simp)]
    have hB : B.countP (fun a => decide (v ≤ a)) = B.length :=
      List.countP_eq_length.2 (fun b hb => by simpa using hvB.1 b hb)
    omega

/-- The element at index `k` of an ascending list has at least `k + 1` elements `<=` it and at
least `|L| - k` elements `>=` it. -/
theorem counts_of_sorted (L : List α) (hs : L.Sorted (fun a b => a ≤ b)) (k : Nat)
    (hk : k < L.length) :
    k + 1 ≤ L.countP (fun a => decide (a ≤ L[k])) ∧
      L.length - k ≤ L.countP (fun a => decide (L[k] ≤ a)) := by
  have hsplit : L = L.take k ++ L[k] :: L.drop (k + 1) := by
    rw [← List.drop_eq_getElem_cons hk, List.take_append_drop]
  have h := counts_split (L.take k) (L.drop (k + 1)) L[k] (by rw [← hsplit]; exact hs)
  rw [← hsplit] at h
  rw [List.length_take, List.length_drop] at h
  omega

end MedianPerform

section MedianClaim

variable {α : Type} [LinearOrder α]

omit [LinearOrder α] in
theorem call_mem_driverOps_border (rb : Routine) (V : Int → Int → α)
    (inner : Int → List (Op α)) (W H ofsx ofsy kw1 kh1 x y : Int) (hx : 0 ≤ x ∧ x < W)
    (hy : 0 ≤ y ∧ y < H)
    (hb : y < ofsy ∨ H + ofsy - kh1 ≤ y ∨ x < ofsx ∨ W + ofsx - kw1 ≤ x) :
    (rb, x, y) ∈ callsOf (driverOps (pix rb V) inner W H ofsx ofsy kw1 kh1) := by
  unfold driverOps
  simp only [callsOf_append, callsOf_flatMap, List.mem_append, List.mem_flatMap, mem_idx,
    callsOf_pix, List.mem_singleton]
  by_cases h1 : y < ofsy
  · exact Or.inl ⟨y, ⟨hy.1, h1⟩, x, hx, rfl⟩
  · by_cases h2 : H + ofsy - kh1 ≤ y
    · exact Or.inr (Or.inr ⟨y, ⟨h2, hy.2⟩, x, hx, rfl⟩)
    · refine Or.inr (Or.inl ⟨y, ⟨by omega, by omega⟩, ?_⟩)
      by_cases h3 : x < ofsx
      · exact Or.inl ⟨x, ⟨hx.1, h3⟩, rfl⟩
      · exact Or.inr (Or.inr ⟨x, ⟨by omega, hx.2⟩, rfl⟩)

omit [LinearOrder α] in
theorem call_mem_driverOps_inner (b : Int → Int → List (Op α)) (ri : Routine)
    (V : Int → Int → α) (W H ofsx ofsy kw1 kh1 x y : Int)
    (hx : ofsx ≤ x ∧ x < W + ofsx - kw1) (hy : ofsy ≤ y ∧ y < H + ofsy - kh1) :
    (ri, x, y) ∈ callsOf (driverOps b (scalarInner ri V W ofsx kw1) W H ofsx ofsy kw1 kh1) := by
  unfold driverOps scalarInner
  simp only [callsOf_append, callsOf_flatMap, List.mem_append, List.mem_flatMap, mem_idx,
    callsOf_pix, List.mem_singleton]
  exact Or.inr (Or.inl ⟨y, hy, Or.inr (Or.inl ⟨x, hx, rfl⟩)⟩)

theorem sq_odd (r : Int) : ((2 * r + 1) * (2 * r + 1)) % 2 = 1 := by
  have e : (2 * r + 1) * (2 * r + 1) = 1 + 2 * (2 * r * r + 2 * r) := by ring
  rw [e, Int.add_mul_emod_self_left]
  rfl

/-- The value stored by `Median` is the element at index `N/2` of a sorted permutation of the
window, belongs to the window, and has at least `N/2 + 1` samples on either side. -/
theorem medianAt_spec (src : Image α) (rad x y : Int) (hrad : 0 ≤ rad) :
    (∃ L : List α, L.Perm (window src rad x y) ∧ L.Sorted (fun a b => a ≤ b) ∧
      L[(((2 * rad + 1) * (2 * rad + 1)) / 2).toNat]? = some (medianAt src rad x y)) ∧
    medianAt src rad x y ∈ window src rad x y ∧
    (((2 * rad + 1) * (2 * rad + 1)) / 2).toNat + 1
      ≤ (window src rad x y).countP (fun a => decide (a ≤ medianAt src rad x y)) ∧
    (((2 * rad + 1) * (2 * rad + 1)) / 2).toNat + 1
      ≤ (window src rad x y).countP (fun a => decide (medianAt src rad x y ≤ a)) := by
  have hN := sq_pos_of_pos (2 * rad + 1) (by omega)
  have hodd := sq_odd rad
  have hperm : (stdSort (window src rad x y)).Perm (window src rad x y) :=
    List.perm_insertionSort _ _
  have hsorted : (stdSort (window src rad x y)).Sorted (fun a b => a ≤ b) :=
    List.sorted_insertionSort _ _
  have hlen : (stdSort (window src rad x y)).length
      = ((2 * rad + 1) * (2 * rad + 1)).toNat := by
    rw [hperm.length_eq, length_window, toNat_sq _ (by omega)]
  have hk : (((2 * rad + 1) * (2 * rad + 1)) / 2).toNat
      < (stdSort (window src rad x y)).length := by omega
  have hv : medianAt src rad x y
      = (stdSort (window src rad x y))[(((2 * rad + 1) * (2 * rad + 1)) / 2).toNat] := by
    unfold medianAt
    rw [List.getD_eq_getElem _ _ hk]
  have hc := counts_of_sorted _ hsorted _ hk
  rw [← hv, hperm.countP_eq, hperm.countP_eq] at hc
  refine ⟨⟨_, hperm, hsorted, ?_⟩, ?_, hc.1, ?_⟩
  · rw [hv, List.getElem?_eq_getElem hk]
  · rw [hv]
    exact hperm.mem_iff.1 (List.getElem_mem _)
  · have := hc.2
    omega

variable [Zero α]

/-- C10: for a radius `rad >= 0`, a totally ordered image `src` of size `W x H` with
`W >= 2*rad+1`, `H >= 2*rad+1` and a result buffer of the same size, `MedianFilter` terminates
without fault and sets every `res(x, y)` to the element at index `N/2` (`N = (2*rad+1)^2`) of the
ascending sort of the `N` samples of the clamped window; this value is a sample of the window
with at least `N/2 + 1` samples `<=` it and at least `N/2 + 1` samples `>=` it.  Interior pixels
go through the unchecked routine and all others through the clamped border routine. -/
theorem C10_MedianFilter (src res : Image α) (rad : Int) (hrad : 0 ≤ rad)
    (hW : 2 * rad + 1 ≤ src.width) (hH : 2 * rad + 1 ≤ src.height)
    (hres : res.width = src.width ∧ res.height = src.height) :
    ∃ s', MedianFilter src rad (Run.init res) = some s' ∧
      ∀ x y, 0 ≤ x → x < src.width → 0 ≤ y → y < src.height →
        (∃ L : List α, L.Perm (window src rad x y) ∧ L.Sorted (fun a b => a ≤ b) ∧
          L[(((2 * rad + 1) * (2 * rad + 1)) / 2).toNat]? = some (s'.res.px x y)) ∧
        s'.res.px x y ∈ window src rad x y ∧
        (((2 * rad + 1) * (2 * rad + 1)) / 2).toNat + 1
          ≤ (window src rad x y).countP (fun a => decide (a ≤ s'.res.px x y)) ∧
        (((2 * rad + 1) * (2 * rad + 1)) / 2).toNat + 1
          ≤ (window src rad x y).countP (fun a => decide (s'.res.px x y ≤ a)) ∧
        ((rad ≤ x ∧ x < src.width - rad ∧ rad ≤ y ∧ y < src.height - rad) →
          (Routine.ProcessUnchecked, x, y) ∈ s'.calls) ∧
        (¬ (rad ≤ x ∧ x < src.width - rad ∧ rad ≤ y ∧ y < src.height - rad) →
          (Routine.ProcessChecked, x, y) ∈ s'.calls) := by
  refine ⟨_, MedianFilter_eq src res rad hrad hW hH hres.1 hres.2, ?_⟩
  intro x y h1 h2 h3 h4
  have hp : (res.fill (medianAt src rad)).px x y = medianAt src rad x y :=
    fill_px res _ (by omega) (by omega)
  obtain ⟨ha, hb, hc, hd⟩ := medianAt_spec src rad x y hrad
  refine ⟨?_, ?_, ?_, ?_, ?_, ?_⟩
  · simpa only [hp] using ha
  · simpa only [hp] using hb
  · simpa only [hp] using hc
  · simpa only [hp] using hd
  · intro hi
    exact call_mem_driverOps_inner _ _ _ _ _ _ _ _ _ x y ⟨by omega, by omega⟩
      ⟨by omega, by omega⟩
  · intro hi
    exact call_mem_driverOps_border _ _ _ _ _ _ _ _ _ x y ⟨h1, h2⟩ ⟨h3, h4⟩ (by omega)

/-- Witness of C10: the 3 x 3 median (`rad = 1`) of a 5 x 4 image. -/
theorem C10_MedianFilter_witness :
    ((0 : Int) ≤ 1 ∧ 2 * 1 + 1 ≤ sampleImage.width ∧ 2 * 1 + 1 ≤ sampleImage.height) ∧
    ∃ s', MedianFilter sampleImage 1 (Run.init (constImage 5 4 0)) = some s' ∧
      ∀ x y, 0 ≤ x → x < sampleImage.width → 0 ≤ y → y < sampleImage.height →
        (∃ L : List Int, L.Perm (window sampleImage 1 x y) ∧ L.Sorted (fun a b => a ≤ b) ∧
          L[(((2 * 1 + 1) * (2 * 1 + 1) : Int) / 2).toNat]? = some (s'.res.px x y)) ∧
        s'.res.px x y ∈ window sampleImage 1 x y ∧
        (((2 * 1 + 1) * (2 * 1 + 1) : Int) / 2).toNat + 1
          ≤ (window sampleImage 1 x y).countP (fun a => decide (a ≤ s'.res.px x y)) ∧
        (((2 * 1 + 1) * (2 * 1 + 1) : Int) / 2).toNat + 1
          ≤ (window sampleImage 1 x y).countP (fun a => decide (s'.res.px x y ≤ a)) ∧
        ((1 ≤ x ∧ x < sampleImage.width - 1 ∧ 1 ≤ y ∧ y < sampleImage.height - 1) →
          (Routine.ProcessUnchecked, x, y) ∈ s'.calls) ∧
        (¬ (1 ≤ x ∧ x < sampleImage.width - 1 ∧ 1 ≤ y ∧ y < sampleImage.height - 1) →
          (Routine.ProcessChecked, x, y) ∈ s'.calls) :=
  ⟨by decide, C10_MedianFilter sampleImage (constImage 5 4 0) 1 (by decide) (by decide)
    (by decide) (by decide)⟩

end MedianClaim

/-! ## Constant images -/

section ConstantImages

variable {α : Type} [Zero α] [Add α] [Mul α]

omit [Zero α] [Add α] [Mul α] in
theorem clamp_inRange (img : Image α) (hW : 1 ≤ img.width) (hH : 1 ≤ img.height) (u v : Int) :
    img.inRange (clampX img u) (clampY img v) := by
  simp only [Image.inRange, clampX, clampY]
  omega

theorem clampedSum_const (img kernel : Image α) (c : α) (hW : 1 ≤ img.width)
    (hH : 1 ≤ img.height) (hc : ∀ x y, img.inRange x y → img.px x y = c) (x0 y0 : Int) :
    clampedSum img kernel x0 y0 = constSum c kernel := by
  unfold clampedSum constSum
  apply List.foldl_ext
  intro acc j _
  apply List.foldl_ext
  intro acc' i _
  rw [hc _ _ (clamp_inRange img hW hH _ _)]

/-- C12: for an image of size `W x H` whose in-range pixels all hold the constant `c`, a kernel
with `1 <= kw <= W`, `1 <= kh <= H` and a result buffer of the image's size, `Perform` terminates
without fault and every output pixel, border or interior, holds the same position-independent
value: the sum over `j`, `i` of `c * kernel(i,j)` accumulated from 0 in row-major order. -/
theorem C12_constant_image (img kernel res : Image α) (c : α)
    (hc : ∀ x y, img.inRange x y → img.px x y = c)
    (hkw : 1 ≤ kernel.width ∧ kernel.width ≤ img.width)
    (hkh : 1 ≤ kernel.height ∧ kernel.height ≤ img.height)
    (hres : res.width = img.width ∧ res.height = img.height) :
    ∃ s', (Convolution.new img kernel).Perform (Run.init res) = some s' ∧
      ∀ x0 y0, 0 ≤ x0 → x0 < img.width → 0 ≤ y0 → y0 < img.height →
        s'.res.px x0 y0 = constSum c kernel := by
  refine ⟨_, Perform_eq img kernel res (by omega) (by omega) hkw.1 hkh.1 (by omega)
    (fun _ => by omega) hres.1 hres.2, ?_⟩
  intro x0 y0 h1 h2 h3 h4
  rw [fill_px res _ (by omega) (by omega)]
  exact clampedSum_const img kernel c (by omega) (by omega) hc x0 y0

/-- Witness of C12, the scenario of the specification: on a 5 x 5 image of ones with a 3 x 3
kernel of ones every output pixel is 9. -/
theorem C12_constant_image_witness :
    ((1 : Int) ≤ (constImage 3 3 1).width ∧ (constImage 3 3 1).width ≤ (constImage 5 5 1).width) ∧
      ∃ s', (Convolution.new (constImage 5 5 1) (constImage 3 3 1)).Perform
          (Run.init (constImage 5 5 0)) = some s' ∧
        ∀ x0 y0, 0 ≤ x0 → x0 < 5 → 0 ≤ y0 → y0 < 5 → s'.res.px x0 y0 = 9 :=
  ⟨by decide, C12_constant_image (constImage 5 5 1) (constImage 3 3 1) (constImage 5 5 0) 1
    (fun _ _ _ => rfl) (by decide) (by decide) (by decide)⟩

end ConstantImages

/-! ## The clamped border routines -/

section BorderRoutines

variable {α : Type} [Zero α] [Add α] [Mul α]

/-- C15: for an image with `W, H >= 1`, a kernel with `kw, kh >= 1` (also wider than the image) and
an in-range output coordinate `(x0, y0)`, `ProcessCheckedOptimized (x0, y0)` has
`0 <= x1 <= x2 <= kw1`, terminates without fault (every dereference is in range), and leaves the
result buffer `ProcessChecked (x0, y0)` leaves, with `res (x0, y0)` the clamped sum accumulated in
row-major order; for each kernel column `i` the column sampled (`p[x1]` for `i < x1`, `p[i]` for
`x1 <= i <= x2`, `p[x2]` for `i > x2`) is `max (0, min (iw1, x0 - ofsx + i))`. -/
theorem C15_ProcessCheckedOptimized (img kernel : Image α) (s : Run α) (x0 y0 : Int)
    (hW : 1 ≤ img.width) (hH : 1 ≤ img.height) (hkw : 1 ≤ kernel.width)
    (hkh : 1 ≤ kernel.height) (hs : s.res.width = img.width ∧ s.res.height = img.height)
    (hx : 0 ≤ x0 ∧ x0 < img.width) (hy : 0 ≤ y0 ∧ y0 < img.height) :
    (0 ≤ max 0 ((Convolution.new img kernel).ofsx - x0) ∧
      max 0 ((Convolution.new img kernel).ofsx - x0)
        ≤ min (Convolution.new img kernel).kw1
            ((Convolution.new img kernel).iw1 + (Convolution.new img kernel).ofsx - x0) ∧
      min (Convolution.new img kernel).kw1
          ((Convolution.new img kernel).iw1 + (Convolution.new img kernel).ofsx - x0)
        ≤ (Convolution.new img kernel).kw1) ∧
    (∃ t u, (Convolution.new img kernel).ProcessCheckedOptimized x0 y0 s = some t ∧
      (Convolution.new img kernel).ProcessChecked x0 y0 s = some u ∧ t.res = u.res ∧
      t.writes = s.writes ++ [(x0, y0)] ∧ u.writes = s.writes ++ [(x0, y0)] ∧
      t.res.px x0 y0 = clampedSum img kernel x0 y0) ∧
    ∀ i, 0 ≤ i → i ≤ (Convolution.new img kernel).kw1 →
      x0 - (Convolution.new img kernel).ofsx
          + (if i < max 0 ((Convolution.new img kernel).ofsx - x0) then
              max 0 ((Convolution.new img kernel).ofsx - x0)
            else if i ≤ min (Convolution.new img kernel).kw1
                ((Convolution.new img kernel).iw1 + (Convolution.new img kernel).ofsx - x0) then i
            else min (Convolution.new img kernel).kw1
                ((Convolution.new img kernel).iw1 + (Convolution.new img kernel).ofsx - x0))
        = max 0 (min (Convolution.new img kernel).iw1
            (x0 - (Convolution.new img kernel).ofsx + i)) := by
  have hkw0 : 0 ≤ kernel.width := by omega
  have e1 : (Convolution.new img kernel).ofsx = kernel.width / 2 :=
    Int.tdiv_eq_ediv hkw0 (by decide)
  have e2 : (Convolution.new img kernel).kw1 = kernel.width - 1 := rfl
  have e3 : (Convolution.new img kernel).iw1 = img.width - 1 := rfl
  rw [e1, e2, e3]
  refine ⟨by omega, ?_, ?_⟩
  · obtain ⟨t, ht, -, hte⟩ := ProcessCheckedOptimized_realizes img kernel img.width img.height
      hW hH hkw (by omega) x0 y0 hx hy hx.2 s hs
    obtain ⟨u, hu, -, hue⟩ := ProcessChecked_realizes img kernel img.width img.height
      hW hH (by omega) (by omega) x0 y0 hx hy s hs
    simp only [id] at hte hue
    refine ⟨t, u, ht, hu, ?_, ?_, ?_, ?_⟩
    · rw [hte, hue]; rfl
    · rw [hte]; rfl
    · rw [hue]; rfl
    · rw [hte]; exact px_execAll_pix s _ _ x0 y0
  · intro i hi0 hi
    split_ifs <;> omega

/-- Witness of C15: a 2 x 2 image with a 7 x 3 kernel, wider than the image, at `(1, 0)`. -/
theorem C15_ProcessCheckedOptimized_witness :
    (1 : Int) ≤ (constImage 2 2 3).width ∧
      ∃ t u, (Convolution.new (constImage 2 2 3) (constImage 7 3 1)).ProcessCheckedOptimized 1 0
          (Run.init (constImage 2 2 0)) = some t ∧
        (Convolution.new (constImage 2 2 3) (constImage 7 3 1)).ProcessChecked 1 0
          (Run.init (constImage 2 2 0)) = some u ∧ t.res = u.res ∧ t.res.px 1 0 = 63 :=
  ⟨by decide,
    let ⟨t, u, ht, hu, e, _, _, hv⟩ := (C15_ProcessCheckedOptimized (constImage 2 2 3)
      (constImage 7 3 1) (Run.init (constImage 2 2 0)) 1 0 (by decide) (by decide) (by decide)
      (by decide) (by decide) (by decide) (by decide)).2.1
    ⟨t, u, ht, hu, e, hv.trans (by decide)⟩⟩

end BorderRoutines

/-! ## The isolated vector strategy -/

section Isolated

variable {α : Type} [Zero α] [Add α] [Mul α]

theorem PerformVectorIsolated_realizes (img kernel : Image α) (hkw : 1 ≤ kernel.width)
    (hkh : 1 ≤ kernel.height) :
    Realizes id (Dims img.width img.height) (Convolution.new img kernel).PerformVectorIsolated
      (isolatedOps (clampedSum img kernel) img.width img.height (kernel.width / 2)
        (kernel.height / 2) (kernel.width - 1) (kernel.height - 1)) := by
  have hkw0 : 0 ≤ kernel.width := by omega
  have hkh0 : 0 ≤ kernel.height := by omega
  have e1 : (Convolution.new img kernel).ofsx = kernel.width / 2 :=
    Int.tdiv_eq_ediv hkw0 (by decide)
  have e2 : (Convolution.new img kernel).ofsy = kernel.height / 2 :=
    Int.tdiv_eq_ediv hkh0 (by decide)
  have e3 : (Convolution.new img kernel).kw1 = kernel.width - 1 := rfl
  have e4 : (Convolution.new img kernel).kh1 = kernel.height - 1 := rfl
  have h8 := tdiv8_cases (img.width - (kernel.width - 1))
  intro s hs
  have hw : s.res.width = img.width := hs.1
  unfold Convolution.PerformVectorIsolated isolatedOps
  simp only [e1, e2, e3, e4, Image.Width, Image.Height, hw]
  refine (show Realizes id (Dims img.width img.height)
    (fun s => forLoop (kernel.height / 2) (s.res.height + kernel.height / 2 - (kernel.height - 1))
      (fun j s => forLoop8 0 (Int.tdiv (img.width - (kernel.width - 1)) 8 * 8)
        (fun i s => (Convolution.new img kernel).ProcessUncheckedVector (i + kernel.width / 2) j s)
        s) s) _ from ?_) s hs
  refine Realizes.forLoopDep _ _ (fun _ _ => rfl) (fun s hs => by rw [hs.2])
    (fun j hj0 hj => ?_)
  refine Realizes.forLoop8 _ _ (fun i hi0 hi hm => ?_)
  exact ProcessUncheckedVector_realizes img kernel _ _ hkw0 hkh0 (i + kernel.width / 2) j
    ⟨by omega, by omega⟩ ⟨by omega, by omega⟩ ⟨by omega, by omega⟩ ⟨by omega, by omega⟩

omit [Zero α] [Add α] [Mul α] in
theorem Coherent.isolatedOps (V : Int → Int → α) (W H ofsx ofsy kw1 kh1 : Int) :
    Coherent V (isolatedOps V W H ofsx ofsy kw1 kh1) :=
  Coherent.flatMap (fun j _ => Coherent.flatMap (fun i _ => Coherent.pix8 V (i + ofsx) j))

omit [Zero α] [Add α] [Mul α] in
theorem mem_writes_isolatedOps (V : Int → Int → α) (W H ofsx ofsy kw1 kh1 : Int)
    (hW : 0 ≤ W - kw1) (x y : Int) :
    (x, y) ∈ writesOf (isolatedOps V W H ofsx ofsy kw1 kh1) ↔
      (ofsy ≤ y ∧ y < H + ofsy - kh1) ∧ ofsx ≤ x ∧ x < ofsx + (W - kw1) / 8 * 8 := by
  unfold ImProc.isolatedOps
  rw [Int.tdiv_eq_ediv hW (by decide)]
  simp only [writesOf_flatMap, List.mem_flatMap, mem_idx, mem_idx8, mem_writesOf_pix8]
  constructor
  · rintro ⟨j, hj, i, hi, rfl, h1, h2⟩
    exact ⟨hj, by omega, by omega⟩
  · rintro ⟨hy, h1, h2⟩
    exact ⟨y, hy, (x - ofsx) / 8 * 8, ⟨by omega, by omega, by omega⟩, rfl, by omega, by omega⟩

/-- For an image of size `W x H`, a kernel with `1 <= kw <= W`, `1 <= kh <= H` and any initial
contents of a result buffer of the image's size, `PerformVectorIsolated` terminates without fault
and writes exactly the pixels `(x, y)` with `ofsy <= y < H + ofsy - kh1` and
`ofsx <= x < ofsx + w8`, `w8 = (W - kw1) / 8 * 8`; every other pixel of `res` keeps its initial
value. -/
theorem PerformVectorIsolated_frame (img kernel res : Image α)
    (hkw : 1 ≤ kernel.width ∧ kernel.width ≤ img.width)
    (hkh : 1 ≤ kernel.height ∧ kernel.height ≤ img.height)
    (hres : res.width = img.width ∧ res.height = img.height) :
    ∃ s', (Convolution.new img kernel).PerformVectorIsolated (Run.init res) = some s' ∧
      ∀ x y,
        ((kernel.height / 2 ≤ y ∧ y < img.height + kernel.height / 2 - (kernel.height - 1)) ∧
          kernel.width / 2 ≤ x ∧
          x < kernel.width / 2 + (img.width - (kernel.width - 1)) / 8 * 8 →
            (x, y) ∈ s'.writes) ∧
        (¬ ((kernel.height / 2 ≤ y ∧ y < img.height + kernel.height / 2 - (kernel.height - 1)) ∧
          kernel.width / 2 ≤ x ∧
          x < kernel.width / 2 + (img.width - (kernel.width - 1)) / 8 * 8) →
            (x, y) ∉ s'.writes ∧ s'.res.px x y = res.px x y) := by
  obtain ⟨s', e, -, hs'⟩ := PerformVectorIsolated_realizes img kernel hkw.1 hkh.1 (Run.init res)
    ⟨hres.1, hres.2⟩
  simp only [id] at hs'
  refine ⟨s', e, ?_⟩
  have hwr : s'.writes = writesOf (isolatedOps (clampedSum img kernel) img.width img.height
      (kernel.width / 2) (kernel.height / 2) (kernel.width - 1) (kernel.height - 1)) := by
    rw [hs', execAll_writes]; rfl
  have hm := mem_writes_isolatedOps (clampedSum img kernel) img.width img.height
    (kernel.width / 2) (kernel.height / 2) (kernel.width - 1) (kernel.height - 1) (by omega)
  intro x y
  have hpx := execAll_px (clampedSum img kernel) (Run.init res) _
    (Coherent.isolatedOps (clampedSum img kernel) img.width img.height
      (kernel.width / 2) (kernel.height / 2) (kernel.width - 1) (kernel.height - 1)) x y
  rw [← hs'] at hpx
  constructor
  · intro h
    rw [hwr]
    exact (hm x y).2 h
  · intro h
    have hmem := fun h' => h ((hm x y).1 h')
    refine ⟨by rw [hwr]; exact hmem, ?_⟩
    rw [hpx, if_neg hmem]
    rfl

end Isolated

/-! ## The region split is an exact partition -/

section Partition

variable {α : Type}

theorem mem_grid {W H : Int} {p : Int × Int} :
    p ∈ grid W H ↔ 0 ≤ p.1 ∧ p.1 < W ∧ 0 ≤ p.2 ∧ p.2 < H := by
  unfold grid
  simp only [List.mem_flatMap, List.mem_map, mem_idx]
  constructor
  · rintro ⟨j, hj, i, hi, rfl⟩
    dsimp only
    omega
  · intro h
    exact ⟨p.2, by omega, p.1, by omega, rfl⟩

theorem nodup_grid (W H : Int) : (grid W H).Nodup := by
  unfold grid
  refine nodup_flatMap_idx 0 H _ (fun j => ?_) (fun j j' hne c h1 h2 => ?_)
  · exact (nodup_idx 0 W).map (fun a b h => (Prod.mk.inj h).1)
  · simp only [List.mem_map] at h1 h2
    obtain ⟨i, -, rfl⟩ := h1
    obtain ⟨i', -, h⟩ := h2
    exact hne (Prod.mk.inj h).2.symm

theorem writesOf_row (l : List Int) (f : Int → List (Op α)) (g : Int → Int × Int)
    (h : ∀ i, writesOf (f i) = [g i]) : writesOf (l.flatMap f) = l.map g := by
  rw [writesOf_flatMap]
  simp only [h]
  exact flatMap_singleton_eq_map l g

theorem indices_map_add (a c : Int) (n : Nat) :
    (indices 1 a n).map (fun i => i + c) = indices 1 (a + c) n := by
  induction n generalizing a with
  | zero => rfl
  | succ n ih =>
    simp only [indices, List.map_cons, ih]
    congr 2
    omega

theorem idx_map_add (a b c : Int) : (idx a b).map (fun i => i + c) = idx (a + c) (b + c) := by
  unfold idx
  rw [indices_map_add]
  congr 1
  omega

theorem indices_groups (a c : Int) (m : Nat) :
    (indices 8 a m).flatMap (fun i => indices 1 (i + c) 8) = indices 1 (a + c) (8 * m) := by
  induction m generalizing a with
  | zero => rfl
  | succ m ih =>
    have e : 8 * (m + 1) = 8 + 8 * m := by omega
    rw [e, indices_append 1 (a + c) 8 (8 * m)]
    show (a :: indices 8 (a + 8) m).flatMap _ = _
    rw [List.flatMap_cons, ih]
    congr 2
    push_cast
    omega

theorem idx8_groups (c w8 : Int) (h0 : 0 ≤ w8) (h8 : w8 % 8 = 0) :
    (idx8 0 w8).flatMap (fun i => idx (i + c) (i + c + 8)) = idx c (c + w8) := by
  have e : ∀ i : Int, idx (i + c) (i + c + 8) = indices 1 (i + c) 8 := by
    intro i
    unfold idx
    congr 1
    omega
  simp only [e]
  unfold idx8 idx
  rw [indices_groups]
  congr 1
  · omega
  · omega

theorem writesOf_pix8 (V : Int → Int → α) (x y : Int) :
    writesOf (pix8 V x y) = (idx x (x + 8)).map (fun i => (i, y)) := by
  have e : idx x (x + 8) = indices 1 x 8 := by
    unfold idx
    congr 1
    omega
  rw [e, indices_eq_map_range]
  unfold pix8 storeOps
  simp only [writesOf]
  rfl

theorem writesOf_scalarInner (r : Routine) (V : Int → Int → α) (W ofsx kw1 j : Int) :
    writesOf (scalarInner r V W ofsx kw1 j)
      = (idx ofsx (W + ofsx - kw1)).map (fun i => (i, j)) :=
  writesOf_row _ _ _ (fun _ => rfl)

theorem writesOf_vectorInner (V : Int → Int → α) (W ofsx kw1 j : Int) (hW : 0 ≤ W - kw1) :
    writesOf (vectorInner V W ofsx kw1 j)
      = (idx ofsx (W + ofsx - kw1)).map (fun i => (i, j)) := by
  unfold vectorInner
  rw [Int.tdiv_eq_ediv hW (by decide), writesOf_append, writesOf_flatMap]
  simp only [writesOf_pix8]
  rw [← List.map_flatMap, writesOf_row (idx ((W - kw1) / 8 * 8) (W - kw1))
    (fun i => pix Routine.ProcessUncheckedOptimized V (i + ofsx) j) (fun i => (i + ofsx, j))
    (fun _ => rfl)]
  have e1 : (idx8 0 ((W - kw1) / 8 * 8)).flatMap (fun i => idx (i + ofsx) (i + ofsx + 8))
      = idx ofsx (ofsx + (W - kw1) / 8 * 8) :=
    idx8_groups ofsx _ (by omega) (by omega)
  have e2 : (idx ((W - kw1) / 8 * 8) (W - kw1)).map (fun i => (i + ofsx, j))
      = (idx (ofsx + (W - kw1) / 8 * 8) (W + ofsx - kw1)).map (fun i => (i, j)) := by
    have h := idx_map_add ((W - kw1) / 8 * 8) (W - kw1) ofsx
    have ea : (W - kw1) / 8 * 8 + ofsx = ofsx + (W - kw1) / 8 * 8 := by omega
    have eb : W - kw1 + ofsx = W + ofsx - kw1 := by omega
    rw [ea, eb] at h
    rw [← h, List.map_map]
    rfl
  rw [e1, e2, ← List.map_append,
    ← idx_append (by omega : ofsx ≤ ofsx + (W - kw1) / 8 * 8) (by omega)]

/-- The writes of the region split are the coordinates of the buffer in row-major order, when
the border bands fit and the interior columns of each row are written left to right. -/
theorem writesOf_driverOps {b : Int → Int → List (Op α)} {inner : Int → List (Op α)}
    (W H ofsx ofsy kw1 kh1 : Int) (hx : 0 ≤ ofsx ∧ ofsx ≤ W + ofsx - kw1 ∧ ofsx ≤ kw1)
    (hy : 0 ≤ ofsy ∧ ofsy ≤ H + ofsy - kh1 ∧ ofsy ≤ kh1)
    (hb : ∀ i j, writesOf (b i j) = [(i, j)])
    (hin : ∀ j, writesOf (inner j) = (idx ofsx (W + ofsx - kw1)).map (fun i => (i, j))) :
    writesOf (driverOps b inner W H ofsx ofsy kw1 kh1) = grid W H := by
  have hrow : ∀ (a c j : Int),
      writesOf ((idx a c).flatMap (fun i => b i j)) = (idx a c).map (fun i => (i, j)) :=
    fun a c j => writesOf_row _ _ _ (fun i => hb i j)
  unfold driverOps grid
  simp only [writesOf_append, writesOf_flatMap, hrow, hin, ← List.map_append]
  rw [← idx_append (by omega : ofsx ≤ W + ofsx - kw1) (by omega : W + ofsx - kw1 ≤ W),
    ← idx_append hx.1 (by omega : ofsx ≤ W), ← List.flatMap_append, ← List.flatMap_append,
    ← idx_append (by omega : ofsy ≤ H + ofsy - kh1) (by omega : H + ofsy - kh1 ≤ H),
    ← idx_append hy.1 (by omega : ofsy ≤ H)]

theorem exactPartition_of_writes (res : Image α) (s' : Run α) (out : Option (Run α))
    (h : out = some s') (hw : s'.writes = grid res.width res.height) :
    ExactPartition res out := by
  refine ⟨s', h, hw, fun x y hxy => ?_, fun p hp => ?_⟩
  · rw [hw]
    exact count_eq_one_of_nodup_mem (nodup_grid _ _) (mem_grid.2 hxy)
  · rw [hw] at hp
    exact mem_grid.1 hp

variable [Zero α] [Add α] [Mul α]

/-- C17: for an image of size `W x H`, a kernel with `1 <= kw <= W`, `1 <= kh <= H` and a result
buffer of the image's size, the region split of `Perform`, `PerformOptimized` and `PerformVector`
(top band, interior rows cut into left columns, interior columns and right columns, bottom band;
in `PerformVector` the interior columns in groups of 8 followed by single columns) is an exact
partition of `[0,W) x [0,H)`: each strategy terminates without fault, writes every output pixel
exactly once (in row-major order) and writes no coordinate outside the result buffer. -/
theorem C17_exact_partition (img kernel res : Image α)
    (hkw : 1 ≤ kernel.width ∧ kernel.width ≤ img.width)
    (hkh : 1 ≤ kernel.height ∧ kernel.height ≤ img.height)
    (hres : res.width = img.width ∧ res.height = img.height) :
    ExactPartition res ((Convolution.new img kernel).Perform (Run.init res)) ∧
    ExactPartition res ((Convolution.new img kernel).PerformOptimized (Run.init res)) ∧
    ExactPartition res ((Convolution.new img kernel).PerformVector (Run.init res)) := by
  have hx : 0 ≤ kernel.width / 2 ∧ kernel.width / 2 ≤ img.width + kernel.width / 2
      - (kernel.width - 1) ∧ kernel.width / 2 ≤ kernel.width - 1 := by omega
  have hy : 0 ≤ kernel.height / 2 ∧ kernel.height / 2 ≤ img.height + kernel.height / 2
      - (kernel.height - 1) ∧ kernel.height / 2 ≤ kernel.height - 1 := by omega
  refine ⟨?_, ?_, ?_⟩
  · refine exactPartition_of_writes res _ _ (Perform_eq img kernel res (by omega) (by omega)
      hkw.1 hkh.1 (by omega) (fun _ => by omega) hres.1 hres.2) ?_
    rw [hres.1, hres.2]
    exact writesOf_driverOps _ _ _ _ _ _ hx hy (fun _ _ => rfl)
      (fun j => writesOf_scalarInner _ _ _ _ _ j)
  · refine exactPartition_of_writes res _ _ (PerformOptimized_eq img kernel res (by omega)
      (by omega) hkw.1 hkh.1 (by omega) (fun _ => by omega) hres.1 hres.2) ?_
    rw [hres.1, hres.2]
    exact writesOf_driverOps _ _ _ _ _ _ hx hy (fun _ _ => rfl)
      (fun j => writesOf_scalarInner _ _ _ _ _ j)
  · refine exactPartition_of_writes res _ _ (PerformVector_eq img kernel res (by omega)
      (by omega) hkw.1 hkh.1 (by omega) (fun _ => by omega) hres.1 hres.2) ?_
    rw [hres.1, hres.2]
    exact writesOf_driverOps _ _ _ _ _ _ hx hy (fun _ _ => rfl)
      (fun j => writesOf_vectorInner _ _ _ _ j (by omega))

/-- Witness of C17 on a 12 x 1 image with a 3 x 1 kernel (one group of 8 and two single
interior columns in `PerformVector`). -/
theorem C17_exact_partition_witness :
    ((1 : Int) ≤ rowKernel.width ∧ rowKernel.width ≤ rowImage.width) ∧
    ExactPartition (constImage 12 1 0)
      ((Convolution.new rowImage rowKernel).Perform (Run.init (constImage 12 1 0))) ∧
    ExactPartition (constImage 12 1 0)
      ((Convolution.new rowImage rowKernel).PerformOptimized (Run.init (constImage 12 1 0))) ∧
    ExactPartition (constImage 12 1 0)
      ((Convolution.new rowImage rowKernel).PerformVector (Run.init (constImage 12 1 0))) :=
  ⟨by decide, C17_exact_partition rowImage rowKernel (constImage 12 1 0) (by decide) (by decide)
    (by decide)⟩

end Partition

/-! ## Footprints of the unchecked routines -/

section Footprints

variable {α : Type}

theorem attempt_toOption (r : Routine) (f : Int → Int → Run α → Option (Run α)) (x y : Int)
    (s : Run α) : (attempt r f x y s).toOption = f x y s := by
  unfold attempt
  cases f x y s <;> rfl

theorem toOption_bind (x : Except (Run α) (Run α)) (g : Run α → Except (Run α) (Run α)) :
    (x >>= g).toOption = x.toOption >>= fun t => (g t).toOption := by
  cases x <;> rfl

theorem loopFromE_toOption (bodyE : Int → Run α → Except (Run α) (Run α))
    (body : Int → Run α → Option (Run α)) (step : Int)
    (h : ∀ i s, (bodyE i s).toOption = body i s) (n : Nat) (a : Int) (s : Run α) :
    (loopFromE bodyE step n a s).toOption = loopFrom body step n a s := by
  induction n generalizing a s with
  | zero => rfl
  | succ n ih =>
    show ((bodyE a s).bind (loopFromE bodyE step n (a + step))).toOption
      = (body a s).bind (loopFrom body step n (a + step))
    rw [← h a s]
    cases bodyE a s with
    | error t => rfl
    | ok t => exact ih (a + step) t

theorem forLoopE_toOption (bodyE : Int → Run α → Except (Run α) (Run α))
    (body : Int → Run α → Option (Run α)) (h : ∀ i s, (bodyE i s).toOption = body i s)
    (a b : Int) (s : Run α) : (forLoopE a b bodyE s).toOption = forLoop a b body s :=
  loopFromE_toOption bodyE body 1 h _ _ _

theorem forLoop8E_toOption (bodyE : Int → Run α → Except (Run α) (Run α))
    (body : Int → Run α → Option (Run α)) (h : ∀ i s, (bodyE i s).toOption = body i s)
    (a b : Int) (s : Run α) : (forLoop8E a b bodyE s).toOption = forLoop8 a b body s :=
  loopFromE_toOption bodyE body 8 h _ _ _

theorem regionSplitE_toOption (c : Convolution α)
    (borderE : Int → Int → Run α → Except (Run α) (Run α))
    (border : Int → Int → Run α → Option (Run α))
    (interiorE : Int → Run α → Except (Run α) (Run α))
    (interior : Int → Run α → Option (Run α))
    (hb : ∀ i j s, (borderE i j s).toOption = border i j s)
    (hi : ∀ j s, (interiorE j s).toOption = interior j s) (s : Run α) :
    (c.regionSplitE borderE interiorE s).toOption = c.regionSplit border interior s := by
  have band : ∀ (a b : Int) (s : Run α),
      (forLoopE a b (fun j s => forLoopE 0 s.res.Width (fun i s => borderE i j s) s) s).toOption
        = forLoop a b (fun j s => forLoop 0 s.res.Width (fun i s => border i j s) s) s :=
    fun a b s => forLoopE_toOption _ _
      (fun j s => forLoopE_toOption _ _ (fun i s => hb i j s) _ _ _) _ _ _
  have cols : ∀ (a b j : Int) (s : Run α),
      (forLoopE a b (fun i s => borderE i j s) s).toOption
        = forLoop a b (fun i s => border i j s) s :=
    fun a b j s => forLoopE_toOption _ _ (fun i s => hb i j s) _ _ _
  have row : ∀ (j : Int) (s : Run α),
      (forLoopE 0 c.ofsx (fun i s => borderE i j s) s >>= fun s =>
        interiorE j s >>= fun s =>
          forLoopE (s.res.Width + c.ofsx - c.kw1) s.res.Width
            (fun i s => borderE i j s) s).toOption
        = (forLoop 0 c.ofsx (fun i s => border i j s) s >>= fun s =>
          interior j s >>= fun s =>
            forLoop (s.res.Width + c.ofsx - c.kw1) s.res.Width (fun i s => border i j s) s) := by
    intro j s
    simp only [toOption_bind, cols, hi]
  have rows : ∀ (a b : Int) (s : Run α),
      (forLoopE a b (fun j s => forLoopE 0 c.ofsx (fun i s => borderE i j s) s >>= fun s =>
        interiorE j s >>= fun s =>
          forLoopE (s.res.Width + c.ofsx - c.kw1) s.res.Width
            (fun i s => borderE i j s) s) s).toOption
        = forLoop a b (fun j s => forLoop 0 c.ofsx (fun i s => border i j s) s >>= fun s =>
          interior j s >>= fun s =>
            forLoop (s.res.Width + c.ofsx - c.kw1) s.res.Width (fun i s => border i j s) s) s :=
    fun a b s => forLoopE_toOption _ _ (fun j s => row j s) _ _ _
  unfold Convolution.regionSplitE Convolution.regionSplit
  simp only [toOption_bind, band, rows]

variable [Zero α] [Add α] [Mul α]

theorem Perform_split (c : Convolution α) :
    c.Perform = c.regionSplit c.ProcessChecked (c.scalarColumns c.ProcessUnchecked) := rfl

theorem PerformOptimized_split (c : Convolution α) :
    c.PerformOptimized
      = c.regionSplit c.ProcessCheckedOptimized (c.scalarColumns c.ProcessUncheckedOptimized) :=
  rfl

theorem PerformVector_split (c : Convolution α) :
    c.PerformVector = c.vectorSplit c.ProcessCheckedOptimized c.ProcessUncheckedVector
      c.ProcessUncheckedOptimized := by
  funext s
  unfold Convolution.PerformVector Convolution.vectorSplit Convolution.regionSplit
    Convolution.vectorColumns
  simp only [bind_assoc]

/-- Forgetting the state kept at a fault, the run of `PerformTraced` is the run of `Perform`. -/
theorem PerformTraced_toOption (c : Convolution α) (s : Run α) :
    (c.PerformTraced s).toOption = c.Perform s := by
  rw [Perform_split]
  exact regionSplitE_toOption c _ _ _ _ (fun i j s => attempt_toOption _ _ i j s)
    (fun j s => forLoopE_toOption _ _ (fun i s => attempt_toOption _ _ i j s) _ _ _) s

theorem PerformOptimizedTraced_toOption (c : Convolution α) (s : Run α) :
    (c.PerformOptimizedTraced s).toOption = c.PerformOptimized s := by
  rw [PerformOptimized_split]
  exact regionSplitE_toOption c _ _ _ _ (fun i j s => attempt_toOption _ _ i j s)
    (fun j s => forLoopE_toOption _ _ (fun i s => attempt_toOption _ _ i j s) _ _ _) s

theorem PerformVectorTraced_toOption (c : Convolution α) (s : Run α) :
    (c.PerformVectorTraced s).toOption = c.PerformVector s := by
  rw [PerformVector_split]
  refine regionSplitE_toOption c _ _ _ _ (fun i j s => attempt_toOption _ _ i j s)
    (fun j s => ?_) s
  unfold Convolution.vectorColumnsE Convolution.vectorColumns
  rw [toOption_bind, forLoop8E_toOption _ _ (fun i s => attempt_toOption _ _ (i + c.ofsx) j s)]
  congr 1
  funext t
  exact forLoopE_toOption _ _ (fun i s => attempt_toOption _ _ (i + c.ofsx) j s) _ _ _

omit [Zero α] [Add α] [Mul α] in
theorem holds_bind {P Q J : Run α → Prop} {x : Except (Run α) (Run α)}
    {g : Run α → Except (Run α) (Run α)} (hx : Holds Q J x)
    (hg : ∀ t, Q t → Holds P J (g t)) : Holds P J (x >>= g) := by
  cases x with
  | error t => exact hx
  | ok t => exact hg t hx

omit [Zero α] [Add α] [Mul α] in
theorem holds_loopFromE {P J : Run α → Prop} (body : Int → Run α → Except (Run α) (Run α))
    (step : Int) (n : Nat) (a : Int)
    (h : ∀ i ∈ indices step a n, ∀ s, P s → Holds P J (body i s)) (s : Run α) (hs : P s) :
    Holds P J (loopFromE body step n a s) := by
  induction n generalizing a s with
  | zero => exact hs
  | succ n ih =>
    exact holds_bind (h a (by simp [indices]) s hs)
      (fun t ht => ih (a + step) (fun i hi => h i (by simp [indices, hi])) t ht)

omit [Zero α] [Add α] [Mul α] in
theorem holds_forLoopE {P J : Run α → Prop} (body : Int → Run α → Except (Run α) (Run α))
    (a b : Int) (h : ∀ i, a ≤ i → i < b → ∀ s, P s → Holds P J (body i s)) (s : Run α)
    (hs : P s) : Holds P J (forLoopE a b body s) :=
  holds_loopFromE body 1 _ a (fun i hi => h i (mem_idx.1 hi).1 (mem_idx.1 hi).2) s hs

omit [Zero α] [Add α] [Mul α] in
theorem holds_forLoop8E {P J : Run α → Prop} (body : Int → Run α → Except (Run α) (Run α))
    (a b : Int) (h : ∀ i, a ≤ i → i < b → (i - a) % 8 = 0 → ∀ s, P s → Holds P J (body i s))
    (s : Run α) (hs : P s) : Holds P J (forLoop8E a b body s) :=
  holds_loopFromE body 8 _ a
    (fun i hi => h i (mem_idx8.1 hi).1 (mem_idx8.1 hi).2.1 (mem_idx8.1 hi).2.2) s hs

omit [Zero α] [Add α] [Mul α] in
/-- An invariant of the border calls and of the interior columns of the interior rows is an
invariant of the region split. -/
theorem regionSplitE_holds (c : Convolution α) (W H : Int) {P J : Run α → Prop}
    (hP : ∀ s, P s → Dims W H s) (border : Int → Int → Run α → Except (Run α) (Run α))
    (interior : Int → Run α → Except (Run α) (Run α))
    (hb : ∀ i j s, P s → Holds P J (border i j s))
    (hi : ∀ j, c.ofsy ≤ j → j < H + c.ofsy - c.kh1 → ∀ s, P s → Holds P J (interior j s))
    (s : Run α) (hs : P s) : Holds P J (c.regionSplitE border interior s) := by
  have band : ∀ (a b : Int) (s : Run α), P s →
      Holds P J (forLoopE a b
        (fun j s => forLoopE 0 s.res.Width (fun i s => border i j s) s) s) :=
    fun a b s hs => holds_forLoopE _ a b
      (fun j _ _ s hs => holds_forLoopE _ _ _ (fun i _ _ s hs => hb i j s hs) s hs) s hs
  unfold Convolution.regionSplitE
  refine holds_bind (band _ _ s hs) (fun t ht => holds_bind ?_ (fun u hu => band _ _ u hu))
  refine holds_forLoopE _ _ _ (fun j hj0 hj s hs => ?_) t ht
  have hH : t.res.Height = H := (hP t ht).2
  rw [hH] at hj
  refine holds_bind (holds_forLoopE _ _ _ (fun i _ _ s hs => hb i j s hs) s hs)
    (fun u hu => holds_bind (hi j hj0 hj u hu)
      (fun v hv => holds_forLoopE _ _ _ (fun i _ _ s hs => hb i j s hs) v hv))

omit [Zero α] [Add α] [Mul α] in
theorem store_log {s t : Run α} {x y : Int} {v : α} (h : s.store x y v = some t) :
    t.calls = s.calls ∧ t.res.width = s.res.width ∧ t.res.height = s.res.height := by
  unfold Run.store at h
  split at h
  · have e := Option.some.inj h
    subst e
    exact ⟨rfl, rfl, rfl⟩
  · exact Option.noConfusion h

theorem ProcessChecked_log (c : Convolution α) (x y : Int) (s t : Run α)
    (h : c.ProcessChecked x y s = some t) :
    t.calls = s.calls ++ [(Routine.ProcessChecked, x, y)] ∧ t.res.width = s.res.width ∧
      t.res.height = s.res.height := by
  unfold Convolution.ProcessChecked at h
  simp only [Option.bind_eq_bind, Option.bind_eq_some] at h
  obtain ⟨sum, -, hst⟩ := h
  exact store_log hst

theorem ProcessCheckedOptimized_log (c : Convolution α) (x y : Int) (s t : Run α)
    (h : c.ProcessCheckedOptimized x y s = some t) :
    t.calls = s.calls ++ [(Routine.ProcessCheckedOptimized, x, y)] ∧
      t.res.width = s.res.width ∧ t.res.height = s.res.height := by
  unfold Convolution.ProcessCheckedOptimized at h
  simp only [Option.bind_eq_bind, Option.bind_eq_some] at h
  obtain ⟨sum, -, hst⟩ := h
  exact store_log hst

omit [Zero α] [Add α] [Mul α] in
theorem footprint_scalar (img kernel res : Image α) (hkw : 1 ≤ kernel.width)
    (hkh : 1 ≤ kernel.height) (hres : res.width = img.width ∧ res.height = img.height)
    (r : Routine) (hr : r.lanes = 1) (x0 y0 : Int)
    (hx : kernel.width / 2 ≤ x0 ∧ x0 < img.width + kernel.width / 2 - (kernel.width - 1))
    (hy : kernel.height / 2 ≤ y0 ∧ y0 < img.height + kernel.height / 2 - (kernel.height - 1)) :
    FootprintInRange img kernel res (r, x0, y0) := by
  have hkw0 : 0 ≤ kernel.width := by omega
  have hkh0 : 0 ≤ kernel.height := by omega
  have e1 : (Convolution.new img kernel).ofsx = kernel.width / 2 :=
    Int.tdiv_eq_ediv hkw0 (by decide)
  have e2 : (Convolution.new img kernel).ofsy = kernel.height / 2 :=
    Int.tdiv_eq_ediv hkh0 (by decide)
  have e3 : (Convolution.new img kernel).kw1 = kernel.width - 1 := rfl
  have e4 : (Convolution.new img kernel).kh1 = kernel.height - 1 := rfl
  intro _
  simp only [e1, e2, e3, e4, hr, Image.inRange, hres.1, hres.2]
  exact ⟨fun i j l _ _ _ _ _ _ => by omega, fun l _ _ => by omega⟩

omit [Zero α] [Add α] [Mul α] in
theorem footprint_vector (img kernel res : Image α) (hkw : 1 ≤ kernel.width)
    (hkh : 1 ≤ kernel.height) (hres : res.width = img.width ∧ res.height = img.height)
    (x0 y0 : Int)
    (hx : kernel.width / 2 ≤ x0 ∧ x0 + 7 < img.width + kernel.width / 2 - (kernel.width - 1))
    (hy : kernel.height / 2 ≤ y0 ∧ y0 < img.height + kernel.height / 2 - (kernel.height - 1)) :
    FootprintInRange img kernel res (Routine.ProcessUncheckedVector, x0, y0) := by
  have hkw0 : 0 ≤ kernel.width := by omega
  have hkh0 : 0 ≤ kernel.height := by omega
  have e1 : (Convolution.new img kernel).ofsx = kernel.width / 2 :=
    Int.tdiv_eq_ediv hkw0 (by decide)
  have e2 : (Convolution.new img kernel).ofsy = kernel.height / 2 :=
    Int.tdiv_eq_ediv hkh0 (by decide)
  have e3 : (Convolution.new img kernel).kw1 = kernel.width - 1 := rfl
  have e4 : (Convolution.new img kernel).kh1 = kernel.height - 1 := rfl
  intro _
  simp only [e1, e2, e3, e4, Routine.lanes, Image.inRange, hres.1, hres.2]
  exact ⟨fun i j l _ _ _ _ _ _ => by omega, fun l _ _ => by omega⟩

omit [Zero α] [Add α] [Mul α] in
theorem footprint_checked (img kernel res : Image α) (r : Routine) (hr : r.unchecked = false)
    (x0 y0 : Int) : FootprintInRange img kernel res (r, x0, y0) := by
  intro h
  rw [hr] at h
  exact Bool.noConfusion h

omit [Zero α] [Add α] [Mul α] in
theorem unchecked_safe_of_realizes (img kernel res : Image α) {f : Run α → Option (Run α)}
    {ops : List (Op α)} (hres : res.width = img.width ∧ res.height = img.height)
    (hR : Realizes id (Dims img.width img.height) f ops)
    (hc : ∀ call ∈ callsOf ops, FootprintInRange img kernel res call) :
    UncheckedSafe img kernel res (f (Run.init res)) := by
  obtain ⟨s', e, -, hs'⟩ := hR (Run.init res) ⟨hres.1, hres.2⟩
  refine ⟨s', e, fun call hcall => hc call ?_⟩
  simp only [id] at hs'
  rw [hs', execAll_calls] at hcall
  exact hcall

omit [Zero α] [Add α] [Mul α] in
/-- The call of a border routine keeps the invariant, whether it returns or faults. -/
theorem attempt_border_holds (img kernel res : Image α) (r : Routine)
    (hr : r.unchecked = false) (f : Int → Int → Run α → Option (Run α)) (x y : Int)
    (hf : ∀ s t, f x y s = some t →
      t.calls = s.calls ++ [(r, x, y)] ∧ t.res.width = s.res.width ∧
        t.res.height = s.res.height)
    (s : Run α) (hs : SafeRun img kernel res s) :
    Holds (SafeRun img kernel res) (SafeStop img kernel res) (attempt r f x y s) := by
  have hlog : ∀ call ∈ s.calls ++ [(r, x, y)], FootprintInRange img kernel res call := by
    intro call hc
    rcases List.mem_append.1 hc with h | h
    · exact hs.2 call h
    · rw [List.mem_singleton.1 h]
      exact footprint_checked img kernel res r hr x y
  unfold attempt
  cases h : f x y s with
  | none =>
    refine ⟨hlog, (r, x, y), ?_, hr⟩
    show (s.calls ++ [(r, x, y)]).getLast? = _
    simp
  | some t =>
    obtain ⟨h1, h2, h3⟩ := hf s t h
    refine ⟨⟨h2.trans hs.1.1, h3.trans hs.1.2⟩, ?_⟩
    intro call hc
    rw [h1] at hc
    exact hlog call hc

omit [Zero α] [Add α] [Mul α] in
/-- The call of an unchecked routine whose footprint is in range returns and keeps the
invariant. -/
theorem attempt_interior_holds (img kernel res : Image α) (r : Routine)
    (f : Int → Int → Run α → Option (Run α)) (x y : Int) (ops : List (Op α))
    (hR : Realizes id (Dims img.width img.height) (f x y) ops)
    (hops : callsOf ops = [(r, x, y)])
    (hfp : FootprintInRange img kernel res (r, x, y))
    (s : Run α) (hs : SafeRun img kernel res s) :
    Holds (SafeRun img kernel res) (SafeStop img kernel res) (attempt r f x y s) := by
  obtain ⟨t, e, hd, ht⟩ := hR s hs.1
  unfold attempt
  rw [e]
  refine ⟨hd, fun call hc => ?_⟩
  simp only [id] at ht
  rw [ht, execAll_calls, hops] at hc
  rcases List.mem_append.1 hc with h | h
  · exact hs.2 call h
  · rw [List.mem_singleton.1 h]
    exact hfp

omit [Zero α] [Add α] [Mul α] in
theorem uncheckedInRange_of_holds (img kernel res : Image α) (out : Except (Run α) (Run α))
    (h : Holds (SafeRun img kernel res) (SafeStop img kernel res) out) :
    UncheckedInRange img kernel res out := by
  cases out with
  | ok t => exact ⟨h.2, fun s e => Except.noConfusion e⟩
  | error t =>
    refine ⟨h.1, fun s e => ?_⟩
    have e' := Except.error.inj e
    subst e'
    exact h.2

/-- C14: for every image size and every kernel with `kw, kh >= 1` (also larger than the image),
with a result buffer of the image's size, every call that `Perform`, `PerformOptimized`,
`PerformVector` and `PerformVectorIsolated` make to an unchecked routine has its whole footprint
in range: every image coordinate read, `(x0 - ofsx + i + l, y0 - ofsy + j)` with
`0 <= i <= kw1`, `0 <= j <= kh1` and lane `l` (`l < 8` for the vector routine, `l = 0`
otherwise), and every result coordinate written, `(x0 + l, y0)`, satisfies `0 <= x < W`,
`0 <= y < H`.  For the three region-split strategies this is stated of the log of the run that
keeps its state at a fault (forgetting that state gives the run of the method itself): the log
holds every call made, the faulting one included, and a run that stops does so in a border
routine, never in an unchecked one.  `PerformVectorIsolated` never faults. -/
theorem C14_unchecked_footprints (img kernel res : Image α) (hkw : 1 ≤ kernel.width)
    (hkh : 1 ≤ kernel.height) (hres : res.width = img.width ∧ res.height = img.height) :
    ((∀ s, ((Convolution.new img kernel).PerformTraced s).toOption
          = (Convolution.new img kernel).Perform s) ∧
      UncheckedInRange img kernel res
        ((Convolution.new img kernel).PerformTraced (Run.init res))) ∧
    ((∀ s, ((Convolution.new img kernel).PerformOptimizedTraced s).toOption
          = (Convolution.new img kernel).PerformOptimized s) ∧
      UncheckedInRange img kernel res
        ((Convolution.new img kernel).PerformOptimizedTraced (Run.init res))) ∧
    ((∀ s, ((Convolution.new img kernel).PerformVectorTraced s).toOption
          = (Convolution.new img kernel).PerformVector s) ∧
      UncheckedInRange img kernel res
        ((Convolution.new img kernel).PerformVectorTraced (Run.init res))) ∧
    UncheckedSafe img kernel res
      ((Convolution.new img kernel).PerformVectorIsolated (Run.init res)) := by
  have hkw0 : 0 ≤ kernel.width := by omega
  have hkh0 : 0 ≤ kernel.height := by omega
  have e1 : (Convolution.new img kernel).ofsx = kernel.width / 2 :=
    Int.tdiv_eq_ediv hkw0 (by decide)
  have e2 : (Convolution.new img kernel).ofsy = kernel.height / 2 :=
    Int.tdiv_eq_ediv hkh0 (by decide)
  have e3 : (Convolution.new img kernel).kw1 = kernel.width - 1 := rfl
  have e4 : (Convolution.new img kernel).kh1 = kernel.height - 1 := rfl
  have h8 := tdiv8_cases (img.width - (kernel.width - 1))
  have h0 : SafeRun img kernel res (Run.init res) :=
    ⟨⟨hres.1, hres.2⟩, fun call hc => absurd hc (List.not_mem_nil call)⟩
  have hPC : ∀ i j s, SafeRun img kernel res s →
      Holds (SafeRun img kernel res) (SafeStop img kernel res)
        (attempt Routine.ProcessChecked (Convolution.new img kernel).ProcessChecked i j s) :=
    fun i j s hs => attempt_border_holds img kernel res Routine.ProcessChecked rfl _ i j
      (fun s t h => ProcessChecked_log _ i j s t h) s hs
  have hPCO : ∀ i j s, SafeRun img kernel res s →
      Holds (SafeRun img kernel res) (SafeStop img kernel res)
        (attempt Routine.ProcessCheckedOptimized
          (Convolution.new img kernel).ProcessCheckedOptimized i j s) :=
    fun i j s hs => attempt_border_holds img kernel res Routine.ProcessCheckedOptimized rfl _
      i j (fun s t h => ProcessCheckedOptimized_log _ i j s t h) s hs
  refine ⟨⟨PerformTraced_toOption _, ?_⟩, ⟨PerformOptimizedTraced_toOption _, ?_⟩,
    ⟨PerformVectorTraced_toOption _, ?_⟩, ?_⟩
  · refine uncheckedInRange_of_holds img kernel res _ ?_
    refine regionSplitE_holds _ img.width img.height (fun s h => h.1) _ _ hPC
      (fun j hj0 hj s hs => ?_) _ h0
    rw [e2] at hj0
    rw [e2, e4] at hj
    unfold Convolution.scalarColumnsE
    have hw : s.res.Width = img.width := hs.1.1
    refine holds_forLoopE _ _ _ (fun i hi0 hi u hu => ?_) s hs
    rw [e1] at hi0
    rw [hw, e1, e3] at hi
    exact attempt_interior_holds img kernel res Routine.ProcessUnchecked _ i j _
      (ProcessUnchecked_realizes img kernel _ _ hkw0 hkh0 i j ⟨by omega, by omega⟩
        ⟨by omega, by omega⟩ ⟨by omega, by omega⟩ ⟨by omega, by omega⟩) rfl
      (footprint_scalar img kernel res hkw hkh hres Routine.ProcessUnchecked rfl i j ⟨hi0, hi⟩ ⟨hj0, hj⟩) u hu
  · refine uncheckedInRange_of_holds img kernel res _ ?_
    refine regionSplitE_holds _ img.width img.height (fun s h => h.1) _ _ hPCO
      (fun j hj0 hj s hs => ?_) _ h0
    rw [e2] at hj0
    rw [e2, e4] at hj
    unfold Convolution.scalarColumnsE
    have hw : s.res.Width = img.width := hs.1.1
    refine holds_forLoopE _ _ _ (fun i hi0 hi u hu => ?_) s hs
    rw [e1] at hi0
    rw [hw, e1, e3] at hi
    exact attempt_interior_holds img kernel res Routine.ProcessUncheckedOptimized _ i j _
      (ProcessUncheckedOptimized_realizes img kernel _ _ hkw0 hkh0 i j ⟨by omega, by omega⟩
        ⟨by omega, by omega⟩ ⟨by omega, by omega⟩ ⟨by omega, by omega⟩) rfl
      (footprint_scalar img kernel res hkw hkh hres Routine.ProcessUncheckedOptimized
        rfl i j ⟨hi0, hi⟩ ⟨hj0, hj⟩) u hu
  · refine uncheckedInRange_of_holds img kernel res _ ?_
    unfold Convolution.PerformVectorTraced
    have hw0 : (Run.init res).res.Width = img.width := hres.1
    simp only [hw0, e3]
    refine regionSplitE_holds _ img.width img.height (fun s h => h.1) _ _ hPCO
      (fun j hj0 hj s hs => ?_) _ h0
    rw [e2] at hj0
    rw [e2, e4] at hj
    unfold Convolution.vectorColumnsE
    refine holds_bind (holds_forLoop8E _ _ _ (fun i hi0 hi hm u hu => ?_) s hs)
      (fun t ht => ?_)
    · rw [e1]
      exact attempt_interior_holds img kernel res Routine.ProcessUncheckedVector _
        (i + kernel.width / 2) j _
        (ProcessUncheckedVector_realizes img kernel _ _ hkw0 hkh0 (i + kernel.width / 2) j
          ⟨by omega, by omega⟩ ⟨by omega, by omega⟩ ⟨by omega, by omega⟩ ⟨by omega, by omega⟩)
        (callsOf_pix8 _ _ _)
        (footprint_vector img kernel res hkw hkh hres _ j ⟨by omega, by omega⟩ ⟨hj0, hj⟩) u hu
    · have hw : t.res.Width = img.width := ht.1.1
      refine holds_forLoopE _ _ _ (fun i hi0 hi u hu => ?_) t ht
      rw [hw] at hi
      rw [e1]
      exact attempt_interior_holds img kernel res Routine.ProcessUncheckedOptimized _
        (i + kernel.width / 2) j _
        (ProcessUncheckedOptimized_realizes img kernel _ _ hkw0 hkh0 (i + kernel.width / 2) j
          ⟨by omega, by omega⟩ ⟨by omega, by omega⟩ ⟨by omega, by omega⟩ ⟨by omega, by omega⟩)
        rfl
        (footprint_scalar img kernel res hkw hkh hres Routine.ProcessUncheckedOptimized rfl _ j ⟨by omega, by omega⟩
          ⟨hj0, hj⟩) u hu
  · refine unchecked_safe_of_realizes img kernel res hres
      (PerformVectorIsolated_realizes img kernel hkw hkh) (fun call hc => ?_)
    unfold isolatedOps at hc
    simp only [callsOf_flatMap, List.mem_flatMap, mem_idx, mem_idx8, callsOf_pix8,
      List.mem_singleton] at hc
    obtain ⟨j, hj, i, hi, rfl⟩ := hc
    exact footprint_vector img kernel res hkw hkh hres _ j ⟨by omega, by omega⟩ hj

/-- Witness of C14 on a 12 x 1 image with a 3 x 1 kernel: the log of `Perform` holds ten calls of
`ProcessUnchecked`, that of `PerformVector` one call of `ProcessUncheckedVector` and two of
`ProcessUncheckedOptimized`, all with their footprint in range.  On a 1 x 1 image with a 1 x 4
kernel the run stops in the second border call and has made no unchecked call. -/
theorem C14_unchecked_footprints_witness :
    (1 : Int) ≤ rowKernel.width ∧
    (UncheckedInRange rowImage rowKernel (constImage 12 1 0)
        ((Convolution.new rowImage rowKernel).PerformTraced (Run.init (constImage 12 1 0))) ∧
      (lastState ((Convolution.new rowImage rowKernel).PerformTraced
          (Run.init (constImage 12 1 0)))).calls
        = [(Routine.ProcessChecked, 0, 0), (Routine.ProcessUnchecked, 1, 0),
          (Routine.ProcessUnchecked, 2, 0), (Routine.ProcessUnchecked, 3, 0),
          (Routine.ProcessUnchecked, 4, 0), (Routine.ProcessUnchecked, 5, 0),
          (Routine.ProcessUnchecked, 6, 0), (Routine.ProcessUnchecked, 7, 0),
          (Routine.ProcessUnchecked, 8, 0), (Routine.ProcessUnchecked, 9, 0),
          (Routine.ProcessUnchecked, 10, 0), (Routine.ProcessChecked, 11, 0)]) ∧
    (UncheckedInRange rowImage rowKernel (constImage 12 1 0)
        ((Convolution.new rowImage rowKernel).PerformVectorTraced
          (Run.init (constImage 12 1 0))) ∧
      (lastState ((Convolution.new rowImage rowKernel).PerformVectorTraced
          (Run.init (constImage 12 1 0)))).calls
        = [(Routine.ProcessCheckedOptimized, 0, 0), (Routine.ProcessUncheckedVector, 1, 0),
          (Routine.ProcessUncheckedOptimized, 9, 0), (Routine.ProcessUncheckedOptimized, 10, 0),
          (Routine.ProcessCheckedOptimized, 11, 0)]) ∧
    (UncheckedInRange (constImage 1 1 1) (constImage 1 4 1) (constImage 1 1 0)
        ((Convolution.new (constImage 1 1 1) (constImage 1 4 1)).PerformTraced
          (Run.init (constImage 1 1 0))) ∧
      ((Convolution.new (constImage 1 1 1) (constImage 1 4 1)).Perform
          (Run.init (constImage 1 1 0))).isNone = true ∧
      (lastState ((Convolution.new (constImage 1 1 1) (constImage 1 4 1)).PerformTraced
          (Run.init (constImage 1 1 0)))).calls
        = [(Routine.ProcessChecked, 0, 0), (Routine.ProcessChecked, 0, 1)]) :=
  ⟨by decide,
    ⟨(C14_unchecked_footprints rowImage rowKernel (constImage 12 1 0) (by decide) (by decide)
      (by decide)).1.2, by decide⟩,
    ⟨(C14_unchecked_footprints rowImage rowKernel (constImage 12 1 0) (by decide) (by decide)
      (by decide)).2.2.1.2, by decide⟩,
    ⟨(C14_unchecked_footprints (constImage 1 1 1) (constImage 1 4 1) (constImage 1 1 0)
      (by decide) (by decide) (by decide)).1.2, rfl, by decide⟩⟩

end Footprints

/-! ## Stride and memory layout -/

section Layout

variable {α : Type}

theorem strideOf_eq (sz w : Int) (hw : 0 ≤ w) (hw' : w < 16384) (hsz : 1 ≤ sz)
    (hfit : w * sz + 31 < 2 ^ 31) : strideOf sz w = (w * sz + 31) / 32 * 32 := by
  have hn : 0 ≤ w * sz := Int.mul_nonneg hw (by omega)
  unfold strideOf wrapU64 wrapI32
  have e1 : w % 2 ^ 64 = w := Int.emod_eq_of_lt hw (by omega)
  rw [e1]
  generalize w * sz = n at hn hfit ⊢
  omega

/-- C13 (amended): for an accepted width `0 <= W < 16384` and an element size `sz >= 1` with
`W * sz + 31 < 2^31`, the stride the constructor computes is `(W*sz + 31) / 32 * 32`, the least
multiple of 32 that is `>= W * sz`: it is a multiple of 32 with `W*sz <= S < W*sz + 32`, every
multiple of 32 that is `>= W * sz` is `>= S`, and every row start `y * S` is a multiple of 32. -/
theorem C13_stride (sz w : Int) (hw : 0 ≤ w ∧ w < 16384) (hsz : 1 ≤ sz)
    (hfit : w * sz + 31 < 2 ^ 31) :
    strideOf sz w = (w * sz + 31) / 32 * 32 ∧ strideOf sz w % 32 = 0 ∧
      w * sz ≤ strideOf sz w ∧ strideOf sz w < w * sz + 32 ∧
      (∀ m : Int, m % 32 = 0 → w * sz ≤ m → strideOf sz w ≤ m) ∧
      ∀ y : Int, (y * strideOf sz w) % 32 = 0 := by
  have e := strideOf_eq sz w hw.1 hw.2 hsz hfit
  rw [e]
  generalize w * sz = n
  refine ⟨rfl, by omega, by omega, by omega, fun m h1 h2 => by omega, fun y => ?_⟩
  rw [← Int.mul_assoc]
  exact Int.mul_emod_left _ _

/-- Witness of C13 (amended): `float` elements and width 5 give the stride 32. -/
theorem C13_stride_witness :
    ((0 : Int) ≤ 5 ∧ (5 : Int) < 16384) ∧ strideOf 4 5 = 32 ∧ strideOf 4 5 % 32 = 0 :=
  ⟨by decide,
    let h := C13_stride 4 5 (by decide) (by decide) (by decide)
    ⟨h.1.trans (by decide), h.2.1⟩⟩

/-- C13 as stated fails for a large element type: with `sizeof(T) = 131080` and the accepted
width 16383 the constructor stores the stride `-2^31` in its `int` member, a value below
`W * sz`. -/
theorem C13_counterexample :
    ((0 : Int) ≤ 16383 ∧ (16383 : Int) < 16384 ∧ (1 : Int) ≤ 131080) ∧
      strideOf 131080 16383 = -2147483648 ∧
      ¬ ((16383 : Int) * 131080 ≤ strideOf 131080 16383) := by
  decide

end Layout

/-! ## Element offsets -/

section Offsets

variable {α : Type}

theorem construct_ok {sz w h : Int} {junk : Int → Int → α} {heap : List (Int × Int)}
    {img : Image α} (hc : (Image.construct sz w h junk heap).1 = Except.ok img) :
    (0 ≤ w ∧ w < 16384 ∧ 0 ≤ h ∧ h < 16384) ∧ img.width = w ∧ img.height = h ∧
      img.stride = strideOf sz w ∧
      (Image.construct sz w h junk heap).2 = heap ++ [(32, img.stride * img.height)] := by
  unfold Image.construct MaxDimensions at hc ⊢
  by_cases hbad : w < 0 ∨ w ≥ 16384 ∨ h < 0 ∨ h ≥ 16384
  · rw [if_pos hbad] at hc
    exact Except.noConfusion hc
  · rw [if_neg hbad] at hc ⊢
    have e := Except.ok.inj hc
    subst e
    exact ⟨by omega, rfl, rfl, rfl, rfl⟩

/-- Offsets of in-range elements of a buffer whose stride is at least `4 * width`. -/
theorem offset_layout (img : Image α) (hS : 4 * img.width ≤ img.stride) (x y x' y' : Int)
    (h : img.inRange x y) (h' : img.inRange x' y') :
    (0 ≤ img.offset 4 x y ∧ img.offset 4 x y + 4 ≤ img.stride * img.height) ∧
    ((x, y) ≠ (x', y') →
      img.offset 4 x y + 4 ≤ img.offset 4 x' y' ∨ img.offset 4 x' y' + 4 ≤ img.offset 4 x y) := by
  unfold Image.inRange at h h'
  unfold Image.offset
  have hS0 : 0 ≤ img.stride := by omega
  have m0 : 0 ≤ y * img.stride := Int.mul_nonneg h.2.2.1 hS0
  have mH : (y + 1) * img.stride ≤ img.height * img.stride :=
    Int.mul_le_mul_of_nonneg_right (by omega) hS0
  have eH : (y + 1) * img.stride = y * img.stride + img.stride := by ring
  have cH : img.stride * img.height = img.height * img.stride := Int.mul_comm _ _
  refine ⟨⟨by omega, by omega⟩, fun hne => ?_⟩
  rcases Int.lt_trichotomy y y' with hlt | heq | hgt
  · have m1 : (y + 1) * img.stride ≤ y' * img.stride :=
      Int.mul_le_mul_of_nonneg_right (by omega) hS0
    left; omega
  · subst heq
    have hx : x ≠ x' := fun e => hne (by rw [e])
    omega
  · have m1 : (y' + 1) * img.stride ≤ y * img.stride :=
      Int.mul_le_mul_of_nonneg_right (by omega) hS0
    have e1 : (y' + 1) * img.stride = y' * img.stride + img.stride := by ring
    right; omega

theorem loadBytes_storeBytes_other {β : Type} (m : Int → β) (off off' : Int)
    (bytes : Int → β) (hd : off + 4 ≤ off' ∨ off' + 4 ≤ off) (k : Int) (hk : 0 ≤ k ∧ k < 4) :
    loadBytes (storeBytes m off 4 bytes) off' k = loadBytes m off' k := by
  unfold loadBytes storeBytes
  rw [if_neg (by omega)]

theorem loadBytes_storeBytes_same {β : Type} (m : Int → β) (off : Int)
    (bytes : Int → β) (k : Int) (hk : 0 ≤ k ∧ k < 4) :
    loadBytes (storeBytes m off 4 bytes) off k = bytes k := by
  unfold loadBytes storeBytes
  rw [if_pos (by omega)]
  congr 1
  omega

/-- C19: for a buffer of `float` (element size 4) that the constructor accepts
(`0 <= W, H < 16384`), with `S` the constructor's stride and `offset (x, y) = y * S + x * 4`:
the allocation request is `S * H` bytes, every in-range element occupies the bytes
`[offset, offset + 4)` inside `[0, S * H)`, the byte ranges of two distinct in-range elements are
disjoint, `offset` is injective on in-range coordinates, and storing 4 bytes at one in-range
element leaves the 4 bytes read at any other in-range element unchanged (and the element itself
reads back what was stored). -/
theorem C19_offsets (β : Type) (w h : Int) (junk : Int → Int → α) (heap : List (Int × Int))
    (img : Image α) (hc : (Image.construct 4 w h junk heap).1 = Except.ok img) :
    (Image.construct 4 w h junk heap).2 = heap ++ [(32, img.stride * img.height)] ∧
    ∀ x y, img.inRange x y →
      (0 ≤ img.offset 4 x y ∧ img.offset 4 x y + 4 ≤ img.stride * img.height) ∧
      (∀ (m : Int → β) (bytes : Int → β) (k : Int), 0 ≤ k ∧ k < 4 →
        loadBytes (storeBytes m (img.offset 4 x y) 4 bytes) (img.offset 4 x y) k = bytes k) ∧
      ∀ x' y', img.inRange x' y' → (x, y) ≠ (x', y') →
        (img.offset 4 x y + 4 ≤ img.offset 4 x' y' ∨
          img.offset 4 x' y' + 4 ≤ img.offset 4 x y) ∧
        img.offset 4 x y ≠ img.offset 4 x' y' ∧
        ∀ (m : Int → β) (bytes : Int → β) (k : Int), 0 ≤ k ∧ k < 4 →
          loadBytes (storeBytes m (img.offset 4 x y) 4 bytes) (img.offset 4 x' y') k
            = loadBytes m (img.offset 4 x' y') k := by
  obtain ⟨hacc, hw, hh, hs, hheap⟩ := construct_ok hc
  have hS : 4 * img.width ≤ img.stride := by
    have h13 := strideOf_eq 4 w hacc.1 hacc.2.1 (by decide) (by omega)
    rw [hs, h13, hw]
    omega
  refine ⟨hheap, fun x y hxy => ⟨(offset_layout img hS x y x y hxy hxy).1,
    fun m bytes k hk => loadBytes_storeBytes_same m _ bytes k hk, fun x' y' hxy' hne => ?_⟩⟩
  have hd := (offset_layout img hS x y x' y' hxy hxy').2 hne
  exact ⟨hd, by omega, fun m bytes k hk => loadBytes_storeBytes_other m _ _ bytes hd k hk⟩

/-- Witness of C19: a 5 x 4 buffer of `float`; the elements `(4, 0)` and `(0, 1)` lie at the
offsets 16 and 32. -/
theorem C19_offsets_witness :
    (Image.construct 4 5 4 (fun _ _ => (0 : Int)) []).1
        = Except.ok (freshImage 5 4 (fun _ _ => (0 : Int))) ∧
      (freshImage 5 4 (fun _ _ => (0 : Int))).offset 4 4 0 + 4
        ≤ (freshImage 5 4 (fun _ _ => (0 : Int))).offset 4 0 1 :=
  ⟨rfl,
    ((((C19_offsets Nat 5 4 (fun _ _ => (0 : Int)) [] (freshImage 5 4 (fun _ _ => 0)) rfl).2
      4 0 (by decide)).2.2 0 1 (by decide) (by decide)).1).resolve_right (by decide)⟩

end Offsets

/-! ## The optimized rotations -/

section RotateVariantClaims

variable {α : Type}

theorem loopFrom_snoc {σ : Type} (body : Int → σ → Option σ) (step : Int) (n : Nat) (a : Int)
    (s : σ) :
    loopFrom body step (n + 1) a s
      = (loopFrom body step n a s).bind (body (a + step * n)) := by
  induction n generalizing a s with
  | zero => simp [loopFrom]
  | succ n ih =>
    have e : a + step * ((n + 1 : Nat) : Int) = a + step + step * n := by push_cast; ring
    show (body a s).bind (loopFrom body step (n + 1) (a + step))
      = ((body a s).bind (loopFrom body step n (a + step))).bind
          (body (a + step * ((n + 1 : Nat) : Int)))
    cases body a s with
    | none => rfl
    | some t =>
      show loopFrom body step (n + 1) (a + step) t
        = (loopFrom body step n (a + step) t).bind _
      rw [ih (a + step) t, e]

theorem rotateRowOptimized_realizes (src : Image α) (j : Int)
    (hj : 0 ≤ j ∧ j < src.height) :
    Realizes id (Dims src.width src.height) (rotateRowOptimized src j)
      ((idx 0 src.width).flatMap (fun i => [Op.write (src.width - 1 - i) j (src.px i j)])) := by
  intro s hs
  obtain ⟨st, e, P, p⟩ := loopFrom_realizes_inv (fun st : RotRow α => st.run)
    (fun i st => Dims src.width src.height st.run ∧ st.s = i ∧ st.d = src.width - i)
    (fun _ (st : RotRow α) => do
      let v ← src.get? st.s j
      let run ← st.run.store (st.d - 1) j v
      pure { run := run, s := st.s + 1, d := st.d - 1 })
    (fun i => [Op.write (src.width - 1 - i) j (src.px i j)])
    1 (src.width - 0).toNat 0 (by
      intro i hi st hst
      have hi' := mem_idx.1 hi
      obtain ⟨hd, hp, hq⟩ := hst
      refine ⟨⟨st.run.exec (Op.write (src.width - 1 - i) j (src.px i j)), st.s + 1, st.d - 1⟩,
        ?_, ⟨hd, by simp only [hp], by simp only [hq]; omega⟩, rfl⟩
      beta_reduce
      have ed : st.d - 1 = src.width - 1 - i := by omega
      rw [hp, ed, get?_of_inRange src (by unfold Image.inRange; omega)]
      simp only [Option.bind_eq_bind, Option.some_bind]
      rw [store_of_inRange st.run _ (by unfold Image.inRange Dims at *; omega)]
      rfl)
    { run := s, s := 0, d := src.width } ⟨hs, rfl, by simp⟩
  refine ⟨st.run, ?_, P.1, p⟩
  unfold rotateRowOptimized
  simp only [forLoop, Image.Width, Option.bind_eq_bind, Option.pure_def] at e ⊢
  rw [e, Option.some_bind]

theorem mirror_rows_realizes (src : Image α) :
    Realizes id (Dims src.width src.height)
      (forLoop 0 src.height (fun j s => rotateRowOptimized src j s)) (mirrorOps src) :=
  Realizes.forLoop _ _ (fun j hj0 hj => rotateRowOptimized_realizes src j ⟨hj0, hj⟩)

theorem rotateRowOptimized_row_h (src : Image α) (hw : 1 ≤ src.width) (s : Run α) :
    rotateRowOptimized src src.height s = none := by
  unfold rotateRowOptimized forLoop
  have e : (src.Width - 0).toNat = (src.width - 1).toNat + 1 := by
    show (src.width - 0).toNat = _
    omega
  have hg : src.get? 0 src.height = none := by
    unfold Image.get?
    rw [if_neg (by unfold Image.inRange; omega)]
  rw [e]
  simp only [loopFrom, hg, Option.bind_eq_bind, Option.none_bind]

theorem Rotate180Optimized_split (src : Image α) (hh : 0 ≤ src.height) (s : Run α) :
    Rotate180Optimized src s
      = (forLoop 0 src.height (fun j s => rotateRowOptimized src j s) s).bind
          (rotateRowOptimized src src.height) := by
  unfold Rotate180Optimized forLoop
  have e : (src.Height + 1 - 0).toNat = (src.height - 0).toNat + 1 := by
    show (src.height + 1 - 0).toNat = _
    omega
  have e2 : (0 : Int) + 1 * ((src.height - 0).toNat : Int) = src.height := by omega
  rw [e, loopFrom_snoc, e2]

/-- Before the fault at row `h`, `Rotate180Optimized` has written `src (x, y)` to
`dst (w-1-x, y)`: the columns are reversed inside each row and the rows keep their place. -/
theorem mirror_rows_px (src dst : Image α)
    (hdst : dst.width = src.width ∧ dst.height = src.height) :
    ∃ s', forLoop 0 src.height (fun j s => rotateRowOptimized src j s) (Run.init dst) = some s' ∧
      ∀ x y, 0 ≤ x → x < src.width → 0 ≤ y → y < src.height →
        s'.res.px (src.width - 1 - x) y = src.px x y := by
  obtain ⟨s', e, -, hs'⟩ := mirror_rows_realizes src (Run.init dst) ⟨hdst.1, hdst.2⟩
  refine ⟨s', e, fun x y h1 h2 h3 h4 => ?_⟩
  have hc : Coherent (fun a b => src.px (src.width - 1 - a) b) (mirrorOps src) := by
    intro a b v hv
    unfold mirrorOps at hv
    simp only [List.mem_flatMap, mem_idx, List.mem_singleton, Op.write.injEq] at hv
    obtain ⟨j, -, i, -, rfl, rfl, rfl⟩ := hv
    dsimp only
    congr 1
    omega
  have hm : (src.width - 1 - x, y) ∈ writesOf (mirrorOps src) := by
    unfold mirrorOps
    simp only [writesOf_flatMap, List.mem_flatMap, mem_idx, writesOf, List.mem_singleton]
    exact ⟨y, ⟨h3, h4⟩, x, ⟨h1, h2⟩, rfl⟩
  simp only [id] at hs'
  rw [hs', execAll_px _ _ _ hc, if_pos hm]
  congr 1
  omega

/-- The two permutes of `Rotate180UsingAvx` reverse the eight lanes. -/
theorem permutes_reverse [Zero α] (v : M256 α) (l : Fin 8) :
    permute2f128_ps (permute_ps v 0x1b) (permute_ps v 0x1b) 1 l = v ⟨7 - l.val, by omega⟩ := by
  fin_cases l <;> rfl

/-- On a 16 x 2 source `Rotate180UsingAvx` reverses the columns of each row through two aligned
groups of 8 and keeps the order of the rows. -/
theorem Rotate180UsingAvx_groups :
    (Rotate180UsingAvx wideSource (Run.init (constImage 16 2 0))).map (fun s => s.res.rows)
      = some [[15, 14, 13, 12, 11, 10, 9, 8, 7, 6, 5, 4, 3, 2, 1, 0],
          [115, 114, 113, 112, 111, 110, 109, 108, 107, 106, 105, 104, 103, 102, 101, 100]] := by
  decide

/-- On a width of 9 the aligned store of `Rotate180UsingAvx` addresses column 1, which is not a
multiple of 32 bytes. -/
theorem Rotate180UsingAvx_misaligned :
    Rotate180UsingAvx (constImage 9 1 1) (Run.init (constImage 9 1 0)) = none := rfl

/-- C11 fails on the code.  On the 2 x 2 source with the rows `[1, 2]`, `[3, 4]` and a 2 x 2
destination, `Rotate180` leaves the rows `[4, 3]`, `[2, 1]` (both orders reversed), whereas
`Rotate180UsingAvx` leaves `[2, 1]`, `[4, 3]` (columns reversed, rows in place), and
`Rotate180Optimized`, after leaving the same mirrored rows `0 .. h-1`, runs its row loop once more
for `j = h`, reads `src (0, 2)` outside the source and faults. -/
theorem C11_rotation_variants_differ :
    (Rotate180 rotSource (Run.init (constImage 2 2 0))).map (fun s => s.res.rows)
      = some [[4, 3], [2, 1]] ∧
    (Rotate180UsingAvx rotSource (Run.init (constImage 2 2 0))).map (fun s => s.res.rows)
      = some [[2, 1], [4, 3]] ∧
    (forLoop 0 2 (fun j s => rotateRowOptimized rotSource j s)
        (Run.init (constImage 2 2 0))).map (fun s => s.res.rows) = some [[2, 1], [4, 3]] ∧
    rotSource.get? 0 2 = none ∧
    Rotate180Optimized rotSource (Run.init (constImage 2 2 0)) = none :=
  ⟨by decide, by decide, by decide, by decide, rfl⟩

/-- C16 fails on the code for `Rotate180Optimized` (an off-by-one at the last row): for every
source of size `w x h` with `w, h >= 1` and every destination of the same size, the rows
`0 .. h-1` are processed without fault and with every write inside the destination, but the row
loop runs once more for `j = h`, where the first statement reads `src (0, h)`, outside the source:
the call faults. -/
theorem C16_Rotate180Optimized_row_h (src dst : Image α)
    (hdst : dst.width = src.width ∧ dst.height = src.height)
    (hw : 1 ≤ src.width) (hh : 1 ≤ src.height) :
    (∃ s', forLoop 0 src.height (fun j s => rotateRowOptimized src j s) (Run.init dst) = some s' ∧
      (∀ p ∈ s'.writes, dst.inRange p.1 p.2) ∧
      rotateRowOptimized src src.height s' = none) ∧
    ¬ src.inRange 0 src.height ∧ src.get? 0 src.height = none ∧
    Rotate180Optimized src (Run.init dst) = none := by
  obtain ⟨s', e, -, hs'⟩ := mirror_rows_realizes src (Run.init dst) ⟨hdst.1, hdst.2⟩
  have hn : ¬ src.inRange 0 src.height := by unfold Image.inRange; omega
  refine ⟨⟨s', e, fun p hp => ?_, rotateRowOptimized_row_h src hw s'⟩, hn, ?_, ?_⟩
  · simp only [id] at hs'
    rw [hs', execAll_writes] at hp
    have hp' : p ∈ writesOf (mirrorOps src) := by simpa [Run.init] using hp
    unfold mirrorOps at hp'
    simp only [writesOf_flatMap, List.mem_flatMap, mem_idx, writesOf, List.mem_singleton] at hp'
    obtain ⟨j, hj, i, hi, rfl⟩ := hp'
    unfold Image.inRange
    dsimp only
    omega
  · unfold Image.get?
    rw [if_neg hn]
  · rw [Rotate180Optimized_split src (by omega), e]
    exact rotateRowOptimized_row_h src hw s'

/-- Witness of C16 on a 1 x 1 source: `Rotate180Optimized` faults, `Rotate180` and
`Rotate180UsingAvx` do not. -/
theorem C16_Rotate180Optimized_row_h_witness :
    ((1 : Int) ≤ (constImage 1 1 7).width ∧ (1 : Int) ≤ (constImage 1 1 7).height) ∧
      Rotate180Optimized (constImage 1 1 7) (Run.init (constImage 1 1 0)) = none ∧
      (Rotate180 (constImage 1 1 7) (Run.init (constImage 1 1 0))).map (fun s => s.res.rows)
        = some [[7]] ∧
      (Rotate180UsingAvx (constImage 1 1 7) (Run.init (constImage 1 1 0))).map
        (fun s => s.res.rows) = some [[7]] :=
  ⟨by decide, (C16_Rotate180Optimized_row_h (constImage 1 1 7) (constImage 1 1 0) (by decide)
    (by decide) (by decide)).2.2.2, by decide, by decide⟩

end RotateVariantClaims

/-! ## The timing harness -/

section HarnessClaims

theorem iterCountOf_two : iterCountOf 2 = 0 := by
  unfold iterCountOf truncInt ExecuteTime MaxIterationCount
  norm_num
  decide

theorem truncInt_ge_one (v : ℚ) (hv : 1 ≤ v) : 1 ≤ truncInt v := by
  unfold truncInt
  have hd : (0 : Int) < v.den := by exact_mod_cast v.den_pos
  have hn : (v.den : Int) ≤ v.num := by
    have h1 : (1 : ℚ) ≤ (v.num : ℚ) / (v.den : ℚ) := by rw [Rat.num_div_den]; exact hv
    have hd' : (0 : ℚ) < (v.den : ℚ) := by exact_mod_cast v.den_pos
    rw [le_div_iff₀ hd', one_mul] at h1
    exact_mod_cast h1
  rw [Int.tdiv_eq_ediv (by omega) (by omega)]
  exact Int.le_ediv_of_mul_le hd (by omega)

theorem printStatistics_some (stat : List ℚ) (h : stat ≠ []) :
    ∃ r, PrintStatistics stat = some r := by
  unfold PrintStatistics
  have hl : (stdSort stat).length = stat.length := List.length_insertionSort _ _
  have hpos : 0 < stat.length := List.length_pos.2 h
  have hi : (stdSort stat).length / 10 < (stdSort stat).length := by omega
  simp only [Option.bind_eq_bind, Option.pure_def, List.getElem?_eq_getElem hi,
    Option.some_bind]
  exact ⟨_, rfl⟩

theorem printStatistics_nil : PrintStatistics [] = none := rfl

/-- In exact arithmetic, a cost estimate of at most `ExecuteTime` gives between 1 and 5000
samples, buckets of at least 5 calls, and defined statistics. -/
theorem samples_of_fast (approx : ℚ) (h0 : 0 < approx) (h1 : approx ≤ 1) (t : Nat → ℚ)
    (factor : Int) :
    1 ≤ sampleCount approx ∧ sampleCount approx ≤ 5000 ∧
      (MaxBucketCount < iterCountOf approx → 5 ≤ Int.tdiv (iterCountOf approx) MinBucketCount) ∧
      ∃ r, MeasureExecutionTime approx t factor = some r := by
  have hi : 1 ≤ iterCountOf approx := by
    unfold iterCountOf ExecuteTime MaxIterationCount
    apply truncInt_ge_one
    refine le_min ?_ (by norm_num)
    rw [le_div_iff₀ h0, one_mul]
    exact h1
  unfold sampleCount MeasureExecutionTime MaxBucketCount MinBucketCount
  by_cases hc : iterCountOf approx ≤ 5000
  · simp only [if_pos hc]
    rw [if_neg (by omega)]
    refine ⟨hi, hc, fun h => by omega, printStatistics_some _ ?_⟩
    intro he
    have hl := congrArg List.length he
    simp only [List.length_map, List.length_range, List.length_nil] at hl
    omega
  · simp only [if_neg hc]
    refine ⟨by decide, by decide, fun _ => ?_, printStatistics_some _ ?_⟩
    · rw [Int.tdiv_eq_ediv (by omega) (by decide)]
      omega
    · intro he
      have hl := congrArg List.length he
      simp only [List.length_map, List.length_range, List.length_nil] at hl
      exact absurd hl (by decide)

/-- C20 fails on the code.  When a call takes two seconds, `Probe` returns `approx = 2`; then
`iterCount = (int) min (1.0 / 2, 1e9) = 0`, the branch `iterCount <= MaxBucketCount` creates a
vector of 0 samples, and `PrintStatistics` indexes that empty vector at `size / 10 = 0`: no
sample is recorded and the statistics are not defined.  (At this input the division and the
conversion are exact in binary floating point as well.) -/
theorem C20_no_sample_recorded (t : Nat → ℚ) (factor : Int) :
    iterCountOf 2 = 0 ∧ sampleCount 2 = 0 ∧ MeasureExecutionTime 2 t factor = none := by
  have h := iterCountOf_two
  refine ⟨h, ?_, ?_⟩
  · unfold sampleCount
    rw [h]
    rfl
  · unfold MeasureExecutionTime
    simp only [h]
    rfl

end HarnessClaims

end ImProc
